import Mathlib

/-!
# memcached 1.2.1, `items.c`: item lifecycle, per-class LRU lists, eviction, expiry sweep

A shallow embedding of `items.c`.  Pointers are natural numbers, `0` is `NULL`.
The item heap is a total function from pointers to item records.  A failed
`assert` is an `Except.error n`, where `n` is the line of the assertion in
`items.c`; `Except.error 0` marks a loop that ran out of fuel.

`memcached.h` is not part of the sources at hand; what `items.c` uses from it
(the item record, the status bits, `rel_time_t`, `ITEM_ntotal`, `settings`,
`stats`) is modelled below and marked as such.
-/

namespace Memcached

/-- Modelled from the spec: the status bits of an item (`ITEM_LINKED`,
`ITEM_DELETED`, `ITEM_SLABBED` of the missing `memcached.h`), three independent
bits of `it_flags`, kept as three booleans. -/
structure Flags where
  linked : Bool
  deleted : Bool
  slabbed : Bool
deriving DecidableEq, Repr

/-- Modelled from the spec: the item record (`item` of the missing
`memcached.h`), with the fields `items.c` reads and writes. -/
structure Item where
  next : Nat
  prev : Nat
  h_next : Nat
  time : Nat
  exptime : Nat
  nbytes : Int
  refcount : Nat
  nsuffix : Nat
  it_flags : Flags
  slabs_clsid : Nat
  nkey : Nat
  key : List Char
  suffix : List Char
deriving DecidableEq, Repr

/-- Fresh slab memory: all fields zero. -/
def Item.zero : Item :=
  { next := 0, prev := 0, h_next := 0, time := 0, exptime := 0, nbytes := 0,
    refcount := 0, nsuffix := 0, it_flags := ⟨false, false, false⟩,
    slabs_clsid := 0, nkey := 0, key := [], suffix := [] }

/-- Modelled from the spec: the external collaborators' fixed data:
`sizeof(item)` and the slab allocator's classifier `slabs_clsid`. -/
structure Env where
  sizeof_item : Nat
  slabs_clsid : Int → Nat

/-- The globals of `items.c` (`heads`, `tails`, `sizes`), the item heap, the
globals it uses from `memcached.h` (`current_time`, `settings`, `stats`: 32-bit
unsigned counters, `curr_bytes` 64-bit), and a
record of the calls made to the slab allocator (`slab_live`: handed out and not
yet given back; `slab_allocs`: number of `slabs_alloc` calls; `slab_frees`:
the pointers passed to `slabs_free`, latest first). -/
structure State where
  heads : Nat → Nat
  tails : Nat → Nat
  sizes : Nat → Nat
  mem : Nat → Item
  current_time : Nat
  oldest_live : Nat
  evict_to_free : Bool
  curr_bytes : Nat
  curr_items : Nat
  total_items : Nat
  slab_live : Nat → Bool
  slab_allocs : Nat
  slab_frees : List Nat

def ITEM_UPDATE_INTERVAL : Nat := 60

def LARGEST_ID : Nat := 255

/-- Unsigned 32-bit wrap-around (`unsigned int`, `rel_time_t`). -/
def u32 (n : Int) : Nat := (n % 4294967296).toNat

/-- Signed 32-bit wrap-around (`int`). -/
def i32 (n : Int) : Int := (n + 2147483648) % 4294967296 - 2147483648

/-- Store `v` at pointer `p`. -/
def store (m : Nat → Item) (p : Nat) (v : Item) : Nat → Item :=
  fun q => if q = p then v else m q

/-- Store `v` at index `i` of a table. -/
def put (t : Nat → Nat) (i : Nat) (v : Nat) : Nat → Nat :=
  fun j => if j = i then v else t j

/-- The process image before `item_init`: zeroed statics, zeroed slab memory,
no item handed out yet. -/
def startup : State :=
  { heads := fun _ => 0, tails := fun _ => 0, sizes := fun _ => 0,
    mem := fun _ => Item.zero, current_time := 0, oldest_live := 0,
    evict_to_free := true, curr_bytes := 0, curr_items := 0, total_items := 0,
    slab_live := fun _ => false, slab_allocs := 0, slab_frees := [] }

/-- `item_init`: the `LARGEST_ID` entries of the three tables are cleared. -/
def item_init (s : State) : State :=
  { s with
    heads := fun i => if i < LARGEST_ID then 0 else s.heads i
    tails := fun i => if i < LARGEST_ID then 0 else s.tails i
    sizes := fun i => if i < LARGEST_ID then 0 else s.sizes i }

/-- The text `sprintf(suffix, " %u %u\r\n", flags, nbytes - 2)` writes. -/
def render_suffix (flags nbytes : Int) : List Char :=
  ' ' :: (Nat.repr (u32 flags)).data ++ ' ' :: (Nat.repr (u32 (nbytes - 2))).data
    ++ ['\r', '\n']

/-- `item_make_header`: the suffix, its length, and the total size (an `int`).
The key length parameter is a `uint8_t`. -/
def item_make_header (env : Env) (nkey : Nat) (flags nbytes : Int) :
    List Char × Nat × Int :=
  let suffix := render_suffix flags nbytes
  let nsuffix := suffix.length
  (suffix, nsuffix, i32 (env.sizeof_item + (nkey % 256 : Nat) + nsuffix + nbytes))

/-- Modelled from the spec: `ITEM_ntotal` of the missing `memcached.h`:
header, key with terminator, suffix and payload. -/
def ITEM_ntotal (env : Env) (it : Item) : Nat :=
  u32 (env.sizeof_item + it.nkey + 1 + it.nsuffix + it.nbytes)

/-- `item_size_ok`. -/
def item_size_ok (env : Env) (nkey : Nat) (flags nbytes : Int) : Bool :=
  env.slabs_clsid (item_make_header env (nkey + 1) flags nbytes).2.2 != 0

/-- Modelled from the spec: the slab allocator's `slabs_free` (`release(buffer,
size)`), which is not in `items.c`: the buffer is given back. -/
def slabs_free (s : State) (it : Nat) (_size : Nat) : Except Nat State :=
  .ok { s with
    slab_live := fun q => if q = it then false else s.slab_live q
    slab_frees := it :: s.slab_frees }

/-- Modelled from the spec: the slab allocator's `slabs_alloc` (`allocate ->
buffer | none`), which is not in `items.c`.  Its answer `r` is an input:
`NULL`, or a buffer that is not handed out at present; any other answer is
outside the allocator's contract and reported as `Except.error 1`. -/
def slabs_alloc (s : State) (r : Nat) : Except Nat (Nat × State) :=
  if r = 0 then .ok (0, { s with slab_allocs := s.slab_allocs + 1 })
  else if s.slab_live r = true then .error 1
  else .ok (r, { s with
    slab_allocs := s.slab_allocs + 1
    slab_live := fun q => if q = r then true else s.slab_live q })

/-- `item_free`. -/
def item_free (env : Env) (s : State) (it : Nat) : Except Nat State :=
  if (s.mem it).it_flags.linked then .error 129
  else if it = s.heads (s.mem it).slabs_clsid then .error 130
  else if it = s.tails (s.mem it).slabs_clsid then .error 131
  else if (s.mem it).refcount ≠ 0 then .error 132
  else
    slabs_free { s with
      mem := store s.mem it { s.mem it with
        slabs_clsid := 0, it_flags := { (s.mem it).it_flags with slabbed := true } } }
      it (ITEM_ntotal env (s.mem it))

/-- `item_link_q`: the item becomes the new head of its class's list. -/
def item_link_q (s : State) (it : Nat) : Except Nat State :=
  let c := (s.mem it).slabs_clsid
  if (s.mem it).it_flags.slabbed then .error 155
  else if it = s.heads c then .error 159
  else if ¬ ((s.heads c ≠ 0 ∧ s.tails c ≠ 0) ∨ (s.heads c = 0 ∧ s.tails c = 0)) then
    .error 160
  else
    let m1 := store s.mem it { s.mem it with prev := 0, next := s.heads c }
    let m2 := if (m1 it).next ≠ 0 then
        store m1 (m1 it).next { m1 (m1 it).next with prev := it } else m1
    .ok { s with
      mem := m2
      heads := put s.heads c it
      tails := if s.tails c = 0 then put s.tails c it else s.tails
      sizes := put s.sizes c (u32 (s.sizes c + 1)) }

/-- `item_unlink_q`. -/
def item_unlink_q (s : State) (it : Nat) : Except Nat State :=
  let c := (s.mem it).slabs_clsid
  let x := s.mem it
  if s.heads c = it ∧ x.prev ≠ 0 then .error 177
  else
    let heads1 := if s.heads c = it then put s.heads c x.next else s.heads
    if s.tails c = it ∧ x.next ≠ 0 then .error 181
    else
      let tails1 := if s.tails c = it then put s.tails c x.prev else s.tails
      if x.next = it then .error 184
      else if x.prev = it then .error 185
      else
        let m1 := if x.next ≠ 0 then
            store s.mem x.next { s.mem x.next with prev := x.prev } else s.mem
        let m2 := if (m1 it).prev ≠ 0 then
            store m1 (m1 it).prev { m1 (m1 it).prev with next := (m1 it).next } else m1
        .ok { s with
          mem := m2, heads := heads1, tails := tails1
          sizes := put s.sizes c (u32 ((s.sizes c : Int) - 1)) }

/-- `item_link`. -/
def item_link (env : Env) (s : State) (it : Nat) : Except Nat (Nat × State) :=
  if (s.mem it).it_flags.linked ∨ (s.mem it).it_flags.slabbed then .error 194
  else if ¬ ((s.mem it).nbytes < 1048576) then .error 195
  else
    let x := { s.mem it with
      it_flags := { (s.mem it).it_flags with linked := true }, time := s.current_time }
    let s1 := { s with
      mem := store s.mem it x
      curr_bytes := (s.curr_bytes + ITEM_ntotal env x) % 2 ^ 64
      curr_items := u32 (s.curr_items + 1)
      total_items := u32 (s.total_items + 1) }
    match item_link_q s1 it with
    | .error e => .error e
    | .ok s2 => .ok (1, s2)

/-- `item_unlink`. -/
def item_unlink (env : Env) (s : State) (it : Nat) : Except Nat State :=
  let r : Except Nat State :=
    if (s.mem it).it_flags.linked then
      let x := { s.mem it with it_flags := { (s.mem it).it_flags with linked := false } }
      item_unlink_q { s with
        mem := store s.mem it x
        curr_bytes := (s.curr_bytes + 2 ^ 64 - ITEM_ntotal env x) % 2 ^ 64
        curr_items := u32 ((s.curr_items : Int) - 1) } it
    else .ok s
  match r with
  | .error e => .error e
  | .ok s1 => if (s1.mem it).refcount = 0 then item_free env s1 it else .ok s1

/-- `item_remove`. -/
def item_remove (env : Env) (s : State) (it : Nat) : Except Nat State :=
  if (s.mem it).it_flags.slabbed then .error 221
  else
    let x := if (s.mem it).refcount ≠ 0 then
        { s.mem it with refcount := (s.mem it).refcount - 1 } else s.mem it
    let s1 := { s with mem := store s.mem it x }
    if ¬ (x.it_flags.deleted = false ∨ x.refcount ≠ 0) then .error 223
    else if x.refcount = 0 ∧ x.it_flags.linked = false then item_free env s1 it
    else .ok s1

/-- `item_update`.  The comparison is in `rel_time_t`, an unsigned 32-bit type. -/
def item_update (s : State) (it : Nat) : Except Nat State :=
  if (s.mem it).time < u32 ((s.current_time : Int) - ITEM_UPDATE_INTERVAL) then
    if (s.mem it).it_flags.slabbed then .error 231
    else
      match item_unlink_q s it with
      | .error e => .error e
      | .ok s1 =>
        item_link_q { s1 with mem := store s1.mem it { s1.mem it with time := s1.current_time } } it
  else .ok s

/-- `item_replace`. -/
def item_replace (env : Env) (s : State) (it new_it : Nat) : Except Nat (Nat × State) :=
  if (s.mem it).it_flags.slabbed then .error 240
  else
    match item_unlink env s it with
    | .error e => .error e
    | .ok s1 => item_link env s1 new_it

/-- The eviction scan of `item_alloc` (lines 99-104): from `search` towards the
head, at most `tries` candidates, unlink the first one with `refcount == 0`. -/
def evict_scan (env : Env) (s : State) : Nat → Nat → Except Nat State
  | 0, _ => .ok s
  | tries + 1, search =>
    if search = 0 then .ok s
    else if (s.mem search).refcount = 0 then item_unlink env s search
    else evict_scan env s tries (s.mem search).prev

/-- The range guard of the eviction path of `item_alloc` (line 96). -/
def evict_guard (id : Nat) : Bool := decide (id > LARGEST_ID)

/-- Lines 109-124 of `item_alloc`: initialise the buffer `it` as an item.  The
fields `slabs_clsid`, `nkey` and `nsuffix` are 8 bits wide. -/
def item_alloc_fill (s : State) (it id : Nat) (key : List Char) (nkey : Nat)
    (exptime : Nat) (nbytes : Int) (suffix : List Char) (nsuffix : Nat) :
    Except Nat (Nat × State) :=
  if (s.mem it).slabs_clsid ≠ 0 then .error 109
  else if it = s.heads (id % 256) then .error 113
  else .ok (it, { s with
    mem := store s.mem it { s.mem it with
      slabs_clsid := id % 256, next := 0, prev := 0, h_next := 0, refcount := 0,
      it_flags := ⟨false, false, false⟩, nkey := nkey % 256, nbytes := nbytes,
      key := key, exptime := exptime, suffix := suffix, nsuffix := nsuffix % 256 } })

/-- `item_alloc`.  `r1` and `r2` are the answers of the slab allocator to the
first and to the second `slabs_alloc` call.  The result is the item pointer
(`0`: failure) and the new state. -/
def item_alloc (env : Env) (s : State) (key : List Char) (nkey : Nat) (flags : Int)
    (exptime : Nat) (nbytes : Int) (r1 r2 : Nat) : Except Nat (Nat × State) :=
  let hdr := item_make_header env (nkey + 1) flags nbytes
  let id := env.slabs_clsid hdr.2.2
  if id = 0 then .ok (0, s)
  else
    match slabs_alloc s r1 with
    | .error e => .error e
    | .ok (it, s1) =>
      if it = 0 then
        if s1.evict_to_free = false then .ok (0, s1)
        else if evict_guard id then .ok (0, s1)
        else if s1.tails id = 0 then .ok (0, s1)
        else
          match evict_scan env s1 50 (s1.tails id) with
          | .error e => .error e
          | .ok s2 =>
            match slabs_alloc s2 r2 with
            | .error e => .error e
            | .ok (it2, s3) =>
              if it2 = 0 then .ok (0, s3)
              else item_alloc_fill s3 it2 id key nkey exptime nbytes hdr.1 hdr.2.1
      else item_alloc_fill s1 it id key nkey exptime nbytes hdr.1 hdr.2.1

/-- The inner loop of `item_flush_expired` (lines 349-359) for one class,
starting at `iter`; `fuel` bounds the number of iterations. -/
def flush_class (env : Env) : Nat → State → Nat → Except Nat State
  | 0, s, iter => if iter = 0 then .ok s else .error 0
  | fuel + 1, s, iter =>
    if iter = 0 then .ok s
    else if (s.mem iter).time ≥ s.oldest_live then
      let next := (s.mem iter).next
      if (s.mem iter).it_flags.slabbed = false then
        match item_unlink env s iter with
        | .error e => .error e
        | .ok s1 => flush_class env fuel s1 next
      else flush_class env fuel s next
    else .ok s

/-- The outer loop of `item_flush_expired` over the classes in `cs`. -/
def flush_loop (env : Env) (fuel : Nat) : List Nat → State → Except Nat State
  | [], s => .ok s
  | i :: cs, s =>
    match flush_class env fuel s (s.heads i) with
    | .error e => .error e
    | .ok s1 => flush_loop env fuel cs s1

/-- `item_flush_expired`; `fuel` bounds the iterations of each inner loop. -/
def item_flush_expired (env : Env) (fuel : Nat) (s : State) : Except Nat State :=
  if s.oldest_live = 0 then .ok s
  else flush_loop env fuel (List.range LARGEST_ID) s

/-- Walk a list through the `next` pointers, `fuel` steps at most. -/
def walk (m : Nat → Item) : Nat → Nat → List Nat
  | 0, _ => []
  | fuel + 1, p => if p = 0 then [] else p :: walk m fuel (m p).next

/-- The calls a client of `items.c` makes, and what else changes its globals:
the clock (`tick`), a holder taking a reference (`hold`: `refcount++`, done in
the callers of `items.c`), and the two settings. -/
inductive Op where
  | alloc (key : List Char) (nkey : Nat) (flags : Int) (exptime : Nat) (nbytes : Int)
      (r1 r2 : Nat)
  | link (it : Nat)
  | unlink (it : Nat)
  | remove (it : Nat)
  | update (it : Nat)
  | replace (it new_it : Nat)
  | flush (fuel : Nat)
  | tick (t : Nat)
  | hold (it : Nat)
  | set_oldest_live (t : Nat)
  | set_evict_to_free (b : Bool)

/-- Run one call. -/
def run (env : Env) (s : State) : Op → Except Nat State
  | .alloc key nkey flags exptime nbytes r1 r2 =>
    (item_alloc env s key nkey flags exptime nbytes r1 r2).map Prod.snd
  | .link it => (item_link env s it).map Prod.snd
  | .unlink it => item_unlink env s it
  | .remove it => item_remove env s it
  | .update it => item_update s it
  | .replace it new_it => (item_replace env s it new_it).map Prod.snd
  | .flush fuel => item_flush_expired env fuel s
  | .tick t => .ok { s with current_time := t % 4294967296 }
  | .hold it => .ok { s with
      mem := store s.mem it { s.mem it with refcount := (s.mem it).refcount + 1 } }
  | .set_oldest_live t => .ok { s with oldest_live := t % 4294967296 }
  | .set_evict_to_free b => .ok { s with evict_to_free := b }

/-- The items a call is given are handed out by the allocator and not given
back (no use after free); the class ids of the allocator index the tables. -/
def Op.valid (env : Env) (s : State) : Op → Prop
  | .alloc _ nkey flags _ nbytes _ _ =>
    env.slabs_clsid (item_make_header env (nkey + 1) flags nbytes).2.2 < LARGEST_ID
  | .link it => s.slab_live it = true
  | .unlink it => s.slab_live it = true
  | .remove it => s.slab_live it = true
  | .update it => s.slab_live it = true
  | .replace it new_it => s.slab_live it = true ∧ s.slab_live new_it = true
  | .hold it => s.slab_live it = true
  | _ => True

/-- The states reachable from `item_init` (at startup) by calls that are
admitted by `P` and in which no assertion fails. -/
inductive Reach (env : Env) (P : State → Op → Prop) : State → Prop
  | init : Reach env P (item_init startup)
  | step (s s1 : State) (op : Op) : Reach env P s → P s op → run env s op = .ok s1 →
      Reach env P s1

/-! ## The pointer list as a sequence -/

/-- The pointers of `l` are chained in `m` as a doubly linked segment: the
first has `prev = p`, the last has `next = n`, and neighbours point at each
other. -/
def seg (m : Nat → Item) : Nat → List Nat → Nat → Prop
  | _, [], _ => True
  | p, x :: xs, n => x ≠ 0 ∧ (m x).prev = p ∧ (m x).next = xs.headD n ∧ seg m x xs n

instance seg.decide (m : Nat → Item) : ∀ (p : Nat) (l : List Nat) (n : Nat),
    Decidable (seg m p l n)
  | _, [], _ => isTrue trivial
  | p, x :: xs, n =>
    have := seg.decide m x xs n
    (inferInstance : Decidable (x ≠ 0 ∧ (m x).prev = p ∧ (m x).next = xs.headD n ∧ seg m x xs n))

/-- Class `c`'s list of state `s` is the sequence `l`, head first. -/
def listOk (s : State) (c : Nat) (l : List Nat) : Prop :=
  s.heads c = l.headD 0 ∧ s.tails c = l.getLastD 0 ∧ seg s.mem 0 l 0 ∧ l.Nodup

instance listOk.decide (s : State) (c : Nat) (l : List Nat) : Decidable (listOk s c l) :=
  (inferInstance : Decidable (_ ∧ _ ∧ _ ∧ _))

/-- The class lists of `s` are the sequences `L`, and the LINKED flag, the
allocator's record and the class tags agree with them. -/
structure Inv (s : State) (L : Nat → List Nat) : Prop where
  ok : ∀ c, listOk s c (L c)
  mem_iff : ∀ c x, x ∈ L c ↔ ((s.mem x).it_flags.linked = true ∧ (s.mem x).slabs_clsid = c)
  live : ∀ x, (s.mem x).it_flags.linked = true → s.slab_live x = true
  null : s.slab_live 0 = false
  cls : ∀ x, s.slab_live x = true → 0 < (s.mem x).slabs_clsid ∧ (s.mem x).slabs_clsid < LARGEST_ID
  slabbed : ∀ x, s.slab_live x = true → (s.mem x).it_flags.slabbed = false
  free_cls : ∀ x, s.slab_live x = false → (s.mem x).slabs_clsid = 0

theorem seg_congr {m m1 : Nat → Item} : ∀ (l : List Nat) (p n : Nat),
    (∀ x ∈ l, m1 x = m x) → seg m p l n → seg m1 p l n
  | [], _, _, _, _ => trivial
  | x :: xs, p, n, h, hs => by
    obtain ⟨h0, hp, hn, ht⟩ := hs
    have hx : m1 x = m x := h x (List.mem_cons_self _ _)
    exact ⟨h0, by rw [hx]; exact hp, by rw [hx]; exact hn,
      seg_congr xs x n (fun y hy => h y (List.mem_cons_of_mem _ hy)) ht⟩

theorem seg_ne_zero {m : Nat → Item} : ∀ (l : List Nat) (p n : Nat),
    seg m p l n → ∀ x ∈ l, x ≠ 0
  | [], _, _, _, x, hx => by simp at hx
  | y :: ys, p, n, hs, x, hx => by
    rcases List.mem_cons.1 hx with rfl | hx
    · exact hs.1
    · exact seg_ne_zero ys _ n hs.2.2.2 x hx

theorem seg_append {m : Nat → Item} (l1 l2 : List Nat) (p n : Nat) :
    seg m p (l1 ++ l2) n ↔ seg m p l1 (l2.headD n) ∧ seg m (l1.getLastD p) l2 n := by
  induction l1 generalizing p with
  | nil => simp [seg]
  | cons x xs ih =>
    cases xs with
    | nil =>
      cases l2 with
      | nil => simp [seg]
      | cons z zs => simp [seg]; tauto
    | cons y ys =>
      have ih1 := ih x
      simp only [List.cons_append, seg, List.headD_cons, List.getLastD_cons] at ih1 ⊢
      rw [ih1]
      tauto

/-- Redirect the `next` of the last pointer of a segment. -/
theorem seg_set_next {m m1 : Nat → Item} (n1 : Nat) : ∀ (l : List Nat) (a p n : Nat),
    seg m p (l ++ [a]) n → (∀ x ∈ l, m1 x = m x) → m1 a = { m a with next := n1 } →
    seg m1 p (l ++ [a]) n1
  | [], a, p, n, hs, _, ha => by
    obtain ⟨h0, hp, _, _⟩ := hs
    exact ⟨h0, by rw [ha]; exact hp, by rw [ha]; rfl, trivial⟩
  | x :: xs, a, p, n, hs, h, ha => by
    obtain ⟨h0, hp, hn, ht⟩ := hs
    have hx : m1 x = m x := h x (List.mem_cons_self _ _)
    refine ⟨h0, by rw [hx]; exact hp, ?_,
      seg_set_next n1 xs a x n ht (fun y hy => h y (List.mem_cons_of_mem _ hy)) ha⟩
    rw [hx, hn]
    cases xs <;> rfl

/-- Redirect the `prev` of the first pointer of a segment. -/
theorem seg_set_prev {m m1 : Nat → Item} (p1 : Nat) (a : Nat) (l : List Nat) (p n : Nat)
    (hs : seg m p (a :: l) n) (h : ∀ x ∈ l, m1 x = m x)
    (ha : m1 a = { m a with prev := p1 }) : seg m1 p1 (a :: l) n := by
  obtain ⟨h0, _, hn, ht⟩ := hs
  exact ⟨h0, by rw [ha], by rw [ha]; exact hn, seg_congr l a n h ht⟩

/-- Walking a well-formed segment that ends in `NULL` yields its sequence. -/
theorem walk_seg {m : Nat → Item} : ∀ (l : List Nat) (p : Nat) (fuel : Nat),
    seg m p l 0 → l.length ≤ fuel → walk m fuel (l.headD 0) = l
  | [], _, fuel, _, _ => by cases fuel <;> simp [walk]
  | x :: xs, p, 0, _, h => by simp at h
  | x :: xs, p, fuel + 1, hs, h => by
    obtain ⟨h0, _, hn, ht⟩ := hs
    simp only [List.headD_cons, walk, if_neg h0, hn]
    rw [walk_seg xs x fuel ht (by simpa using h)]

/-- What a queue operation on class `c` leaves alone: everything but the heap
and the tables, the table entries of the other classes, the items outside
`touched`, and every field of an item other than `next` and `prev`. -/
structure QFrame (s s1 : State) (c : Nat) (touched : List Nat) : Prop where
  other : s1 = { s with mem := s1.mem, heads := s1.heads, tails := s1.tails, sizes := s1.sizes }
  heads : ∀ c1, c1 ≠ c → s1.heads c1 = s.heads c1
  tails : ∀ c1, c1 ≠ c → s1.tails c1 = s.tails c1
  sizes : ∀ c1, c1 ≠ c → s1.sizes c1 = s.sizes c1
  mem_out : ∀ x, x ∉ touched → s1.mem x = s.mem x
  mem_in : ∀ x, s1.mem x = { s.mem x with next := (s1.mem x).next, prev := (s1.mem x).prev }

theorem store_same (m : Nat → Item) (p : Nat) (v : Item) : store m p v p = v := by
  simp [store]

theorem store_other (m : Nat → Item) (p q : Nat) (v : Item) (h : q ≠ p) :
    store m p v q = m q := by
  simp [store, h]

theorem put_same (t : Nat → Nat) (i v : Nat) : put t i v i = v := by simp [put]

theorem put_other (t : Nat → Nat) (i j v : Nat) (h : j ≠ i) : put t i v j = t j := by
  simp [put, h]

theorem item_link_q_ok (s : State) (it c : Nat) (l : List Nat)
    (hc : (s.mem it).slabs_clsid = c) (hl : listOk s c l) (hit : it ∉ l) (h0 : it ≠ 0)
    (hs : (s.mem it).it_flags.slabbed = false) :
    ∃ s1, item_link_q s it = .ok s1 ∧ listOk s1 c (it :: l) ∧ QFrame s s1 c (it :: l) ∧
      s1.sizes c = u32 (s.sizes c + 1) := by
  subst hc
  obtain ⟨hh, ht, hseg, hnd⟩ := hl
  cases l with
  | nil =>
    simp only [List.headD_nil, List.getLastD_nil] at hh ht
    refine ⟨_, by simp [item_link_q, hs, hh, ht, h0, store_same]; rfl, ?_, ?_, ?_⟩
    · refine ⟨by simp [put], by simp [put], ?_, by simp⟩
      simp [seg, h0, store_same]
    · refine ⟨rfl, ?_, ?_, ?_, ?_, ?_⟩
      · intro c1 h; simp [put, h]
      · intro c1 h; simp [put, h]
      · intro c1 h; simp [put, h]
      · intro x hx; simp at hx; simp [store, hx]
      · intro x
        by_cases hx : x = it
        · subst hx; simp [store]
        · simp [store, hx]
    · simp [put]
  | cons y ys =>
    simp only [List.headD_cons] at hh
    have hy0 : y ≠ 0 := hseg.1
    have hity : it ≠ y := fun h => hit (h ▸ List.mem_cons_self _ _)
    have hlast : (y :: ys).getLastD 0 ∈ y :: ys := by
      rw [List.getLastD_eq_getLast?, List.getLast?_eq_getLast _ (List.cons_ne_nil _ _)]
      exact List.getLast_mem _
    have ht0 : s.tails (s.mem it).slabs_clsid ≠ 0 := by
      rw [ht]; exact seg_ne_zero _ _ _ hseg _ hlast
    refine ⟨_, by simp [item_link_q, hs, hh, ht0, hy0, hity, store_same]; rfl, ?_, ?_, ?_⟩
    · refine ⟨by simp [put], by simp [ht0, ht], ?_, List.nodup_cons.2 ⟨hit, hnd⟩⟩
      refine ⟨h0, ?_, ?_, ?_⟩
      · simp [store, hity]
      · simp [store, hity]
      · apply seg_set_prev it y ys 0 0 hseg
        · intro x hx
          have hxy : x ≠ y := fun h => (List.nodup_cons.1 hnd).1 (h ▸ hx)
          have hxi : x ≠ it := fun h => hit (h ▸ List.mem_cons_of_mem _ hx)
          simp [store, hxy, hxi]
        · simp [store, hity.symm]
    · refine ⟨rfl, ?_, ?_, ?_, ?_, ?_⟩
      · intro c1 h; simp [put, h]
      · intro c1 h; simp [ht0]
      · intro c1 h; simp [put, h]
      · intro x hx
        simp only [List.mem_cons, not_or] at hx
        simp [store, hx.1, hx.2.1]
      · intro x
        by_cases hx : x = it
        · subst hx; simp [store, hity]
        · by_cases hxy : x = y
          · subst hxy; simp [store, hx]
          · simp [store, hx, hxy]
    · simp [put]

theorem getLastD_mem_of_ne_nil (l : List Nat) (d : Nat) (h : l ≠ []) : l.getLastD d ∈ l := by
  rw [List.getLastD_eq_getLast?, List.getLast?_eq_getLast _ h]
  exact List.getLast_mem _

theorem headD_mem_of_ne_nil (l : List Nat) (d : Nat) (h : l ≠ []) : l.headD d ∈ l := by
  cases l with
  | nil => exact absurd rfl h
  | cons x xs => simp

/-- The state `item_unlink_q` produces when none of its assertions fails. -/
theorem item_unlink_q_run (s : State) (it : Nat)
    (h177 : ¬ (s.heads (s.mem it).slabs_clsid = it ∧ (s.mem it).prev ≠ 0))
    (h181 : ¬ (s.tails (s.mem it).slabs_clsid = it ∧ (s.mem it).next ≠ 0))
    (h184 : (s.mem it).next ≠ it) (h185 : (s.mem it).prev ≠ it) :
    ∃ s1, item_unlink_q s it = .ok s1 ∧
      s1.heads = (if s.heads (s.mem it).slabs_clsid = it
        then put s.heads (s.mem it).slabs_clsid (s.mem it).next else s.heads) ∧
      s1.tails = (if s.tails (s.mem it).slabs_clsid = it
        then put s.tails (s.mem it).slabs_clsid (s.mem it).prev else s.tails) ∧
      s1.sizes = put s.sizes (s.mem it).slabs_clsid
        (u32 ((s.sizes (s.mem it).slabs_clsid : Int) - 1)) ∧
      s1 = { s with mem := s1.mem, heads := s1.heads, tails := s1.tails, sizes := s1.sizes } ∧
      (∀ x, (x = (s.mem it).prev → x = 0) → (x = (s.mem it).next → x = 0) →
        s1.mem x = s.mem x) ∧
      ((s.mem it).prev ≠ 0 → (s.mem it).prev ≠ (s.mem it).next →
        s1.mem (s.mem it).prev = { s.mem (s.mem it).prev with next := (s.mem it).next }) ∧
      ((s.mem it).next ≠ 0 → (s.mem it).prev ≠ (s.mem it).next →
        s1.mem (s.mem it).next = { s.mem (s.mem it).next with prev := (s.mem it).prev }) := by
  have hm1 : (if (s.mem it).next ≠ 0 then
      store s.mem (s.mem it).next { s.mem (s.mem it).next with prev := (s.mem it).prev }
      else s.mem) it = s.mem it := by
    split
    · exact store_other _ _ _ _ h184.symm
    · rfl
  refine ⟨_, by simp only [item_unlink_q, if_neg h177, if_neg h181, if_neg h184,
      if_neg h185]; rfl, rfl, rfl, rfl, rfl, ?_, ?_, ?_⟩
  · intro x hp hn
    simp only [hm1]
    by_cases hp0 : (s.mem it).prev = 0 <;> by_cases hn0 : (s.mem it).next = 0
    · simp [hp0, hn0]
    · have : x ≠ (s.mem it).next := fun h => hn0 (h ▸ hn h)
      simp [hp0, hn0, store, this]
    · have : x ≠ (s.mem it).prev := fun h => hp0 (h ▸ hp h)
      simp [hp0, hn0, store, this]
    · have h1 : x ≠ (s.mem it).next := fun h => hn0 (h ▸ hn h)
      have h2 : x ≠ (s.mem it).prev := fun h => hp0 (h ▸ hp h)
      simp [hp0, hn0, store, h1, h2]
  · intro hp0 hpn
    simp only [hm1]
    by_cases hn0 : (s.mem it).next = 0
    · simp [hp0, hn0, store]
    · simp [hp0, hn0, store, hpn]
  · intro hn0 hpn
    simp only [hm1]
    by_cases hp0 : (s.mem it).prev = 0
    · simp [hp0, hn0, store]
    · simp [hp0, hn0, store, Ne.symm hpn]

theorem item_unlink_q_ok (s : State) (it c : Nat) (l1 l2 : List Nat)
    (hc : (s.mem it).slabs_clsid = c) (hl : listOk s c (l1 ++ it :: l2)) :
    ∃ s1, item_unlink_q s it = .ok s1 ∧ listOk s1 c (l1 ++ l2) ∧ QFrame s s1 c (l1 ++ l2) ∧
      s1.sizes c = u32 ((s.sizes c : Int) - 1) := by
  subst hc
  obtain ⟨hh, ht, hseg, hnd⟩ := hl
  obtain ⟨hA, hi0, hpv, hnx, hB⟩ := (seg_append l1 (it :: l2) 0 0).1 hseg
  simp only [List.headD_cons] at hA
  obtain ⟨hnd1, hnd2, hdis⟩ := List.nodup_append.1 hnd
  obtain ⟨hit2, hnd2⟩ := List.nodup_cons.1 hnd2
  have hit1 : it ∉ l1 := fun h => hdis h (List.mem_cons_self _ _)
  have hd12 : ∀ x, x ∈ l1 → x ∉ l2 := fun x h1 h2 => hdis h1 (List.mem_cons_of_mem _ h2)
  have hpv_it : (s.mem it).prev ≠ it := by
    rw [hpv]; intro h
    by_cases hn : l1 = []
    · subst hn; exact hi0 h.symm
    · exact hit1 (h ▸ getLastD_mem_of_ne_nil l1 0 hn)
  have hnx_it : (s.mem it).next ≠ it := by
    rw [hnx]; intro h
    by_cases hn : l2 = []
    · subst hn; exact hi0 h.symm
    · exact hit2 (h ▸ headD_mem_of_ne_nil l2 0 hn)
  have h177 : ¬ (s.heads (s.mem it).slabs_clsid = it ∧ (s.mem it).prev ≠ 0) := by
    rintro ⟨h1, h2⟩
    cases l1 with
    | nil => exact h2 hpv
    | cons x xs =>
      simp only [List.cons_append, List.headD_cons] at hh
      exact hit1 (by rw [← h1, hh]; exact List.mem_cons_self _ _)
  have h181 : ¬ (s.tails (s.mem it).slabs_clsid = it ∧ (s.mem it).next ≠ 0) := by
    rintro ⟨h1, h2⟩
    cases l2 with
    | nil => exact h2 hnx
    | cons y ys =>
      have : (l1 ++ it :: y :: ys).getLastD 0 = (y :: ys).getLastD 0 := by
        rw [List.getLastD_eq_getLast?, List.getLastD_eq_getLast?,
          show l1 ++ it :: y :: ys = (l1 ++ [it]) ++ (y :: ys) by simp,
          List.getLast?_append_of_ne_nil _ (List.cons_ne_nil _ _)]
      rw [this] at ht
      exact hit2 (by rw [← h1, ht]; exact getLastD_mem_of_ne_nil _ 0 (List.cons_ne_nil _ _))
  have hpn : l1 ≠ [] → l2 ≠ [] → (s.mem it).prev ≠ (s.mem it).next := by
    intro h1 h2 h
    rw [hpv, hnx] at h
    exact hd12 _ (getLastD_mem_of_ne_nil l1 0 h1) (h ▸ headD_mem_of_ne_nil l2 0 h2)
  obtain ⟨s1, hrun, hH, hT, hS, hO, hMe, hMp, hMn⟩ :=
    item_unlink_q_run s it h177 h181 hnx_it hpv_it
  have hout : ∀ x, x ∉ l1 ++ l2 → s1.mem x = s.mem x := by
    intro x hx
    simp only [List.mem_append, not_or] at hx
    apply hMe
    · intro h
      by_contra hx0
      have hn : l1 ≠ [] := by
        rintro rfl
        exact hx0 (by rw [h, hpv]; rfl)
      exact hx.1 (by rw [h, hpv]; exact getLastD_mem_of_ne_nil l1 0 hn)
    · intro h
      by_contra hx0
      have hn : l2 ≠ [] := by
        rintro rfl
        exact hx0 (by rw [h, hnx]; rfl)
      exact hx.2 (by rw [h, hnx]; exact headD_mem_of_ne_nil l2 0 hn)
  refine ⟨s1, hrun, ⟨?_, ?_, ?_, ?_⟩, ⟨hO, ?_, ?_, ?_, hout, ?_⟩, ?_⟩
  · rw [hH]
    cases l1 with
    | nil =>
      simp only [List.nil_append, List.headD_cons] at hh
      simp [hh, put, hnx]
    | cons x xs =>
      simp only [List.cons_append, List.headD_cons] at hh
      have : x ≠ it := fun h => hit1 (h ▸ List.mem_cons_self _ _)
      simp [hh, this]
  · rw [hT]
    cases l2 with
    | nil =>
      have ht1 : s.tails (s.mem it).slabs_clsid = it := by
        rw [ht, List.getLastD_eq_getLast?]; simp
      simp [ht1, put, hpv]
    | cons y ys =>
      have e1 : (l1 ++ it :: y :: ys).getLastD 0 = (y :: ys).getLastD 0 := by
        rw [List.getLastD_eq_getLast?, List.getLastD_eq_getLast?,
          show l1 ++ it :: y :: ys = (l1 ++ [it]) ++ (y :: ys) by simp,
          List.getLast?_append_of_ne_nil _ (List.cons_ne_nil _ _)]
      have e2 : (l1 ++ y :: ys).getLastD 0 = (y :: ys).getLastD 0 := by
        rw [List.getLastD_eq_getLast?, List.getLastD_eq_getLast?,
          List.getLast?_append_of_ne_nil _ (List.cons_ne_nil _ _)]
      have hne : s.tails (s.mem it).slabs_clsid ≠ it := by
        rw [ht, e1]
        intro h
        exact hit2 (h ▸ getLastD_mem_of_ne_nil _ 0 (List.cons_ne_nil _ _))
      rw [if_neg hne, ht, e1, e2]
  · rw [seg_append]
    constructor
    · rcases List.eq_nil_or_concat l1 with rfl | ⟨l0, a, hl1⟩
      · trivial
      · rw [List.concat_eq_append] at hl1
        subst hl1
        have ha0 : a ≠ 0 := seg_ne_zero _ _ _ hA a (by simp)
        have hpa : (s.mem it).prev = a := by rw [hpv]; simp
        have hna : a ≠ (s.mem it).next := by
          intro h
          by_cases hn : l2 = []
          · subst hn; exact ha0 (by rw [h, hnx]; rfl)
          · exact hd12 a (by simp) (by rw [h, hnx]; exact headD_mem_of_ne_nil l2 0 hn)
        rw [← hnx]
        apply seg_set_next _ l0 a 0 it hA
        · intro x hx
          apply hMe
          · intro h
            exfalso
            have := List.nodup_append.1 hnd1
            exact this.2.2 hx (by rw [h, hpa]; simp)
          · intro h
            by_contra hx0
            have hn : l2 ≠ [] := by
              rintro rfl
              exact hx0 (by rw [h, hnx]; rfl)
            exact hd12 x (by simp [hx]) (by rw [h, hnx]; exact headD_mem_of_ne_nil l2 0 hn)
        · have := hMp (by rw [hpa]; exact ha0) (by rw [hpa]; exact hna)
          rw [hpa] at this
          exact this
    · cases l2 with
      | nil => trivial
      | cons y ys =>
        simp only [List.headD_cons] at hnx
        have hy0 : y ≠ 0 := hB.1
        have hpy : (s.mem it).prev ≠ y := by
          intro h
          by_cases hn : l1 = []
          · subst hn; exact hy0 (by rw [← h, hpv]; rfl)
          · exact hd12 _ (getLastD_mem_of_ne_nil l1 0 hn) (by rw [← hpv, h]; simp)
        rw [← hpv]
        apply seg_set_prev _ y ys it 0 hB
        · intro x hx
          have hxy : x ≠ y := fun h => (List.nodup_cons.1 hnd2).1 (h ▸ hx)
          apply hMe
          · intro h
            by_contra hx0
            have hn : l1 ≠ [] := by
              rintro rfl
              exact hx0 (by rw [h, hpv]; rfl)
            exact hd12 _ (getLastD_mem_of_ne_nil l1 0 hn)
              (by rw [← hpv, ← h]; exact List.mem_cons_of_mem _ hx)
          · intro h; exact absurd (h.trans hnx) hxy
        · have := hMn (by rw [hnx]; exact hy0) (by rw [hnx]; exact hpy)
          rw [hnx] at this
          exact this
  · exact List.nodup_append.2 ⟨hnd1, hnd2, fun x h1 h2 => hd12 x h1 h2⟩
  · intro c1 h
    rw [hH]; split <;> simp [put, h]
  · intro c1 h
    rw [hT]; split <;> simp [put, h]
  · intro c1 h
    rw [hS]; simp [put, h]
  · intro x
    have hp0 : (s.mem it).prev ≠ 0 → l1 ≠ [] := by
      rintro h rfl; exact h hpv
    have hn0 : (s.mem it).next ≠ 0 → l2 ≠ [] := by
      rintro h rfl; exact h hnx
    by_cases h1 : x = (s.mem it).prev ∧ x ≠ 0
    · obtain ⟨h1, h2⟩ := h1
      subst h1
      by_cases h3 : (s.mem it).prev = (s.mem it).next
      · exact absurd h3 (hpn (hp0 h2) (hn0 (h3 ▸ h2)))
      · rw [hMp h2 h3]
    · by_cases h2 : x = (s.mem it).next ∧ x ≠ 0
      · obtain ⟨h2, h3⟩ := h2
        subst h2
        by_cases h4 : (s.mem it).prev = (s.mem it).next
        · exact absurd h4 (hpn (hp0 (h4 ▸ h3)) (hn0 h3))
        · rw [hMn h3 h4]
      · rw [hMe x (fun h => by_contra fun h0 => h1 ⟨h, h0⟩)
          (fun h => by_contra fun h0 => h2 ⟨h, h0⟩)]
  · rw [hS]; simp [put]

theorem seg_congr_links {m m1 : Nat → Item} : ∀ (l : List Nat) (p n : Nat),
    (∀ x ∈ l, (m1 x).prev = (m x).prev ∧ (m1 x).next = (m x).next) → seg m p l n →
    seg m1 p l n
  | [], _, _, _, _ => trivial
  | x :: xs, p, n, h, hs => by
    obtain ⟨h0, hp, hn, ht⟩ := hs
    obtain ⟨hx1, hx2⟩ := h x (List.mem_cons_self _ _)
    exact ⟨h0, by rw [hx1]; exact hp, by rw [hx2]; exact hn,
      seg_congr_links xs x n (fun y hy => h y (List.mem_cons_of_mem _ hy)) ht⟩

theorem listOk_frame {s s1 : State} {c : Nat} {l : List Nat} (hl : listOk s c l)
    (hh : s1.heads c = s.heads c) (ht : s1.tails c = s.tails c)
    (hm : ∀ x ∈ l, (s1.mem x).prev = (s.mem x).prev ∧ (s1.mem x).next = (s.mem x).next) :
    listOk s1 c l :=
  ⟨hh.trans hl.1, ht.trans hl.2.1, seg_congr_links l 0 0 hm hl.2.2.1, hl.2.2.2⟩

theorem erase_mid (l1 l2 : List Nat) (it : Nat) (h : it ∉ l1) :
    (l1 ++ it :: l2).erase it = l1 ++ l2 := by
  rw [List.erase_append_right _ h, List.erase_cons_head]

theorem listOk_ne_zero {s : State} {c : Nat} {l : List Nat} (hl : listOk s c l) :
    ∀ x ∈ l, x ≠ 0 := seg_ne_zero l 0 0 hl.2.2.1

theorem Inv.not_mem_zero {s : State} {L : Nat → List Nat} (hI : Inv s L) (c : Nat) :
    0 ∉ L c := fun h => listOk_ne_zero (hI.ok c) 0 h rfl

theorem Inv.head_ne {s : State} {L : Nat → List Nat} (hI : Inv s L) (it c : Nat)
    (h0 : it ≠ 0) (hn : it ∉ L c) : it ≠ s.heads c := by
  intro h
  rw [(hI.ok c).1] at h
  by_cases hl : L c = []
  · rw [hl] at h; exact h0 h
  · exact hn (h ▸ headD_mem_of_ne_nil _ 0 hl)

theorem Inv.tail_ne {s : State} {L : Nat → List Nat} (hI : Inv s L) (it c : Nat)
    (h0 : it ≠ 0) (hn : it ∉ L c) : it ≠ s.tails c := by
  intro h
  rw [(hI.ok c).2.1] at h
  by_cases hl : L c = []
  · rw [hl] at h; exact h0 h
  · exact hn (h ▸ getLastD_mem_of_ne_nil _ 0 hl)

theorem Inv.ne_zero_of_live {s : State} {L : Nat → List Nat} (hI : Inv s L) (it : Nat)
    (h : s.slab_live it = true) : it ≠ 0 := by
  rintro rfl
  rw [hI.null] at h
  exact Bool.noConfusion h

/-- `item_free` on a handed-out item that is not LINKED and has no holder
succeeds and gives the buffer back. -/
theorem item_free_ok (env : Env) (s : State) (L : Nat → List Nat) (it : Nat) (hI : Inv s L)
    (hlive : s.slab_live it = true) (hlk : (s.mem it).it_flags.linked = false)
    (hrc : (s.mem it).refcount = 0) :
    ∃ s1, item_free env s it = .ok s1 ∧ Inv s1 L ∧
      s1 = { s with
        mem := store s.mem it { s.mem it with
          slabs_clsid := 0, it_flags := { (s.mem it).it_flags with slabbed := true } }
        slab_live := fun q => if q = it then false else s.slab_live q
        slab_frees := it :: s.slab_frees } := by
  have h0 := hI.ne_zero_of_live it hlive
  have hnot : ∀ c, it ∉ L c := fun c h => by
    have := ((hI.mem_iff c it).1 h).1
    rw [hlk] at this
    exact Bool.noConfusion this
  have h130 := hI.head_ne it _ h0 (hnot (s.mem it).slabs_clsid)
  have h131 := hI.tail_ne it _ h0 (hnot (s.mem it).slabs_clsid)
  refine ⟨_, by simp [item_free, hlk, h130, h131, hrc, slabs_free], ?_, rfl⟩
  refine ⟨?_, ?_, ?_, ?_, ?_, ?_, ?_⟩
  · intro c
    refine listOk_frame (hI.ok c) rfl rfl ?_
    intro x hx
    have : x ≠ it := fun h => hnot c (h ▸ hx)
    simp [store, this]
  · intro c x
    by_cases hx : x = it
    · subst hx
      simp [store, hlk, hnot c]
    · simp [store, hx, hI.mem_iff c x]
  · intro x
    by_cases hx : x = it
    · subst hx; simp [store, hlk]
    · simpa [store, hx] using hI.live x
  · simpa [Ne.symm h0] using hI.null
  · intro x
    by_cases hx : x = it
    · subst hx; simp
    · simpa [store, hx] using hI.cls x
  · intro x
    by_cases hx : x = it
    · subst hx; simp
    · simpa [store, hx] using hI.slabbed x
  · intro x
    by_cases hx : x = it
    · subst hx; simp [store]
    · simpa [store, hx] using hI.free_cls x

theorem QFrame.flags {s s1 : State} {c : Nat} {t : List Nat} (h : QFrame s s1 c t) (x : Nat) :
    (s1.mem x).it_flags = (s.mem x).it_flags ∧ (s1.mem x).slabs_clsid = (s.mem x).slabs_clsid ∧
    (s1.mem x).refcount = (s.mem x).refcount ∧ (s1.mem x).time = (s.mem x).time := by
  rw [h.mem_in x]; exact ⟨rfl, rfl, rfl, rfl⟩

theorem QFrame.live {s s1 : State} {c : Nat} {t : List Nat} (h : QFrame s s1 c t) :
    s1.slab_live = s.slab_live := by
  rw [h.other]

/-- The first half of `item_unlink` on a LINKED item: the flag is cleared, the
counters are lowered, and `item_unlink_q` takes the item out of its list. -/
theorem item_unlink_q_inv (s : State) (L : Nat → List Nat) (it cb ci : Nat) (hI : Inv s L)
    (hlk : (s.mem it).it_flags.linked = true) :
    ∃ s1, item_unlink_q { s with
        mem := store s.mem it
          { s.mem it with it_flags := { (s.mem it).it_flags with linked := false } }
        curr_bytes := cb, curr_items := ci } it = .ok s1 ∧
      Inv s1 (fun c => (L c).erase it) ∧
      QFrame { s with
        mem := store s.mem it
          { s.mem it with it_flags := { (s.mem it).it_flags with linked := false } }
        curr_bytes := cb, curr_items := ci } s1 (s.mem it).slabs_clsid
        ((L (s.mem it).slabs_clsid).erase it) ∧
      s1.sizes (s.mem it).slabs_clsid = u32 ((s.sizes (s.mem it).slabs_clsid : Int) - 1) := by
  have hin : it ∈ L (s.mem it).slabs_clsid := (hI.mem_iff _ it).2 ⟨hlk, rfl⟩
  obtain ⟨l1, l2, hL⟩ := List.append_of_mem hin
  have hnd := (hI.ok (s.mem it).slabs_clsid).2.2.2
  rw [hL] at hnd
  have hit1 : it ∉ l1 := fun h =>
    (List.nodup_append.1 hnd).2.2 h (List.mem_cons_self _ _)
  have hE : (L (s.mem it).slabs_clsid).erase it = l1 ++ l2 := by
    rw [hL]; exact erase_mid l1 l2 it hit1
  have hl0 : listOk { s with
        mem := store s.mem it
          { s.mem it with it_flags := { (s.mem it).it_flags with linked := false } }
        curr_bytes := cb, curr_items := ci } (s.mem it).slabs_clsid (l1 ++ it :: l2) := by
    rw [← hL]
    refine listOk_frame (hI.ok _) rfl rfl ?_
    intro x _
    by_cases hx : x = it
    · subst hx; simp [store]
    · simp [store, hx]
  obtain ⟨s1, hrun, hok, hq, hsz⟩ := item_unlink_q_ok _ it (s.mem it).slabs_clsid l1 l2
    (by simp [store]) hl0
  rw [← hE] at hok hq
  have hfl : ∀ x, x ≠ it → (s1.mem x).it_flags = (s.mem x).it_flags ∧
      (s1.mem x).slabs_clsid = (s.mem x).slabs_clsid := by
    intro x hx
    have := hq.flags x
    simp only [store, if_neg hx] at this
    exact ⟨this.1, this.2.1⟩
  have hfi : (s1.mem it).it_flags = { (s.mem it).it_flags with linked := false } ∧
      (s1.mem it).slabs_clsid = (s.mem it).slabs_clsid := by
    have := hq.flags it
    simp only [store, if_true] at this
    exact ⟨this.1, this.2.1⟩
  refine ⟨s1, hrun, ?_, hq, hsz⟩
  refine ⟨?_, ?_, ?_, ?_, ?_, ?_, ?_⟩
  · intro c
    by_cases hc : c = (s.mem it).slabs_clsid
    · subst hc; exact hok
    · have hnot : it ∉ L c := fun h => hc ((hI.mem_iff c it).1 h).2.symm
      show listOk s1 c ((L c).erase it)
      rw [List.erase_of_not_mem hnot]
      refine listOk_frame (hI.ok c) (hq.heads c hc) (hq.tails c hc) ?_
      intro x hx
      have hxc : (s.mem x).slabs_clsid = c := ((hI.mem_iff c x).1 hx).2
      have hxi : x ≠ it := fun h => hnot (h ▸ hx)
      have hxn : x ∉ (L (s.mem it).slabs_clsid).erase it := by
        intro h
        have := ((hI.mem_iff _ x).1 (List.mem_of_mem_erase h)).2
        exact hc (hxc.symm.trans this)
      rw [hq.mem_out x hxn]
      simp [store, hxi]
  · intro c x
    show x ∈ (L c).erase it ↔ _
    rw [(hI.ok c).2.2.2.mem_erase_iff]
    by_cases hx : x = it
    · subst hx; simp [hfi.1]
    · rw [(hfl x hx).1, (hfl x hx).2, hI.mem_iff c x]
      simp [hx]
  · intro x hx
    rw [hq.live]
    by_cases hxi : x = it
    · subst hxi; rw [hfi.1] at hx; exact Bool.noConfusion hx
    · rw [(hfl x hxi).1] at hx; exact hI.live x hx
  · rw [hq.live]; exact hI.null
  · intro x hx
    rw [hq.live] at hx
    by_cases hxi : x = it
    · subst hxi; rw [hfi.2]; exact hI.cls x hx
    · rw [(hfl x hxi).2]; exact hI.cls x hx
  · intro x hx
    rw [hq.live] at hx
    by_cases hxi : x = it
    · subst hxi; rw [hfi.1]; exact hI.slabbed x hx
    · rw [(hfl x hxi).1]; exact hI.slabbed x hx
  · intro x hx
    rw [hq.live] at hx
    by_cases hxi : x = it
    · subst hxi; rw [hfi.2]; exact hI.free_cls x hx
    · rw [(hfl x hxi).2]; exact hI.free_cls x hx

/-- `item_unlink` on a LINKED item, unfolded. -/
theorem item_unlink_linked_eq (env : Env) (s : State) (it : Nat)
    (hlk : (s.mem it).it_flags.linked = true) :
    item_unlink env s it =
      match item_unlink_q { s with
        mem := store s.mem it
          { s.mem it with it_flags := { (s.mem it).it_flags with linked := false } }
        curr_bytes := (s.curr_bytes + 2 ^ 64 - ITEM_ntotal env
          { s.mem it with it_flags := { (s.mem it).it_flags with linked := false } }) % 2 ^ 64
        curr_items := u32 ((s.curr_items : Int) - 1) } it with
      | .error e => .error e
      | .ok s1 => if (s1.mem it).refcount = 0 then item_free env s1 it else .ok s1 := by
  simp only [item_unlink, hlk, if_true]

/-- `item_unlink` on an item that is not LINKED, unfolded. -/
theorem item_unlink_unlinked_eq (env : Env) (s : State) (it : Nat)
    (hlk : (s.mem it).it_flags.linked = false) :
    item_unlink env s it =
      if (s.mem it).refcount = 0 then item_free env s it else .ok s := by
  simp [item_unlink, hlk]

/-- What `item_unlink` does to the state besides the lists. -/
structure UnlinkPost (env : Env) (s s1 : State) (it : Nat) : Prop where
  self : s1.mem it = if (s.mem it).refcount = 0
    then { s.mem it with
      slabs_clsid := 0
      it_flags := { (s.mem it).it_flags with linked := false, slabbed := true } }
    else { s.mem it with it_flags := { (s.mem it).it_flags with linked := false } }
  others : ∀ x, x ≠ it →
    s1.mem x = { s.mem x with next := (s1.mem x).next, prev := (s1.mem x).prev }
  frees : s1.slab_frees = if (s.mem it).refcount = 0 then it :: s.slab_frees else s.slab_frees
  livef : ∀ q, s1.slab_live q =
    if q = it ∧ (s.mem it).refcount = 0 then false else s.slab_live q
  rest : s1.slab_allocs = s.slab_allocs ∧ s1.current_time = s.current_time ∧
    s1.oldest_live = s.oldest_live ∧ s1.evict_to_free = s.evict_to_free ∧
    s1.total_items = s.total_items
  tables : ∀ c, c ≠ (s.mem it).slabs_clsid →
    s1.heads c = s.heads c ∧ s1.tails c = s.tails c ∧ s1.sizes c = s.sizes c
  unlinked : (s.mem it).it_flags.linked = false →
    s1.heads = s.heads ∧ s1.tails = s.tails ∧ s1.sizes = s.sizes ∧
    s1.curr_bytes = s.curr_bytes ∧ s1.curr_items = s.curr_items ∧
    ∀ x, x ≠ it → s1.mem x = s.mem x
  linked : (s.mem it).it_flags.linked = true →
    s1.sizes (s.mem it).slabs_clsid = u32 ((s.sizes (s.mem it).slabs_clsid : Int) - 1) ∧
    s1.curr_items = u32 ((s.curr_items : Int) - 1) ∧
    s1.curr_bytes = (s.curr_bytes + 2 ^ 64 - ITEM_ntotal env (s.mem it)) % 2 ^ 64

/-- `item_unlink` on a handed-out item succeeds; the item leaves its list, and
is given back to the allocator exactly when it has no holder. -/
theorem item_unlink_ok (env : Env) (s : State) (L : Nat → List Nat) (it : Nat) (hI : Inv s L)
    (hlive : s.slab_live it = true) :
    ∃ s1, item_unlink env s it = .ok s1 ∧ Inv s1 (fun c => (L c).erase it) ∧
      UnlinkPost env s s1 it := by
  by_cases hlk : (s.mem it).it_flags.linked = true
  · obtain ⟨s1, hrun, hI1, hq, hsz⟩ := item_unlink_q_inv s L it
      ((s.curr_bytes + 2 ^ 64 - ITEM_ntotal env
          { s.mem it with it_flags := { (s.mem it).it_flags with linked := false } }) % 2 ^ 64)
      (u32 ((s.curr_items : Int) - 1)) hI hlk
    have hnd := (hI.ok (s.mem it).slabs_clsid).2.2.2
    have hself : s1.mem it =
        { s.mem it with it_flags := { (s.mem it).it_flags with linked := false } } := by
      rw [hq.mem_out it (fun h => (hnd.mem_erase_iff.1 h).1 rfl)]
      simp [store]
    have hoth : ∀ x, x ≠ it →
        s1.mem x = { s.mem x with next := (s1.mem x).next, prev := (s1.mem x).prev } := by
      intro x hx
      have := hq.mem_in x
      simp only [store, if_neg hx] at this
      exact this
    have hO := hq.other
    have hrc : (s1.mem it).refcount = (s.mem it).refcount := by rw [hself]
    have htab : ∀ c, c ≠ (s.mem it).slabs_clsid →
        s1.heads c = s.heads c ∧ s1.tails c = s.tails c ∧ s1.sizes c = s.sizes c :=
      fun c hc => ⟨hq.heads c hc, hq.tails c hc, hq.sizes c hc⟩
    rw [item_unlink_linked_eq env s it hlk, hrun]
    by_cases h0 : (s.mem it).refcount = 0
    · obtain ⟨s2, hfree, hI2, hs2⟩ := item_free_ok env s1 _ it hI1
        (by rw [hq.live]; exact hlive) (by rw [hself]) (by rw [hrc]; exact h0)
      refine ⟨s2, by simp only [hrc, h0, if_true]; exact hfree, hI2, ?_⟩
      refine ⟨?_, ?_, ?_, ?_, ?_, ?_, ?_, ?_⟩
      · rw [hs2]; simp [store, h0, hself]
      · intro x hx
        rw [hs2]; simp only [store, if_neg hx]
        exact hoth x hx
      · rw [hs2, hO]; simp [h0]
      · intro q
        rw [hs2, hO]
        by_cases hq : q = it <;> simp [hq, h0]
      · rw [hs2, hO]; simp
      · intro c hc; rw [hs2]; exact htab c hc
      · intro h; rw [h] at hlk; exact Bool.noConfusion hlk
      · intro _
        rw [hs2]
        refine ⟨hsz, ?_, ?_⟩
        · rw [hO]
        · rw [hO]; rfl
    · refine ⟨s1, by simp only [hrc, h0, if_false], hI1, ?_⟩
      refine ⟨?_, hoth, ?_, ?_, ?_, htab, ?_, ?_⟩
      · rw [hself]; simp [h0]
      · rw [hO]; simp [h0]
      · intro q; rw [hO]; simp [h0]
      · rw [hO]; simp
      · intro h; rw [h] at hlk; exact Bool.noConfusion hlk
      · intro _
        refine ⟨hsz, ?_, ?_⟩
        · rw [hO]
        · rw [hO]; rfl
  · have hlk : (s.mem it).it_flags.linked = false := by simpa using hlk
    have hnot : ∀ c, it ∉ L c := fun c h => by
      have := ((hI.mem_iff c it).1 h).1
      rw [hlk] at this
      exact Bool.noConfusion this
    have hL : (fun c => (L c).erase it) = L := by
      funext c; exact List.erase_of_not_mem (hnot c)
    rw [item_unlink_unlinked_eq env s it hlk, hL]
    by_cases h0 : (s.mem it).refcount = 0
    · obtain ⟨s2, hfree, hI2, hs2⟩ := item_free_ok env s L it hI hlive hlk h0
      refine ⟨s2, by simp only [h0, if_true]; exact hfree, hI2, ?_⟩
      refine ⟨?_, ?_, ?_, ?_, ?_, ?_, ?_, ?_⟩
      · rw [hs2]; simp [store, h0, hlk]
      · intro x hx; rw [hs2]; simp [store, hx]
      · rw [hs2]; simp [h0]
      · intro q; rw [hs2]; by_cases hq : q = it <;> simp [hq, h0]
      · rw [hs2]; simp
      · intro c _; rw [hs2]; simp
      · intro _; rw [hs2]
        refine ⟨rfl, rfl, rfl, rfl, rfl, ?_⟩
        intro x hx; simp [store, hx]
      · intro h; rw [h] at hlk; exact Bool.noConfusion hlk
    · refine ⟨s, by simp only [h0, if_false], hI, ?_⟩
      refine ⟨?_, ?_, ?_, ?_, ?_, ?_, ?_, ?_⟩
      · simp only [h0, if_false]
        have : (s.mem it).it_flags = { (s.mem it).it_flags with linked := false } := by
          rw [← hlk]
        rw [← this]
      · intro x _; rfl
      · simp [h0]
      · intro q; simp [h0]
      · simp
      · intro c _; simp
      · intro _; exact ⟨rfl, rfl, rfl, rfl, rfl, fun _ _ => rfl⟩
      · intro h; rw [h] at hlk; exact Bool.noConfusion hlk

/-- `item_link` when its entry assertions hold, unfolded. -/
theorem item_link_eq (env : Env) (s : State) (it : Nat)
    (hlk : (s.mem it).it_flags.linked = false) (hsl : (s.mem it).it_flags.slabbed = false)
    (hnb : (s.mem it).nbytes < 1048576) :
    item_link env s it =
      match item_link_q { s with
        mem := store s.mem it { s.mem it with
          it_flags := { (s.mem it).it_flags with linked := true }, time := s.current_time }
        curr_bytes := (s.curr_bytes + ITEM_ntotal env { s.mem it with
          it_flags := { (s.mem it).it_flags with linked := true },
          time := s.current_time }) % 2 ^ 64
        curr_items := u32 (s.curr_items + 1)
        total_items := u32 (s.total_items + 1) } it with
      | .error e => .error e
      | .ok s2 => .ok (1, s2) := by
  simp only [item_link, hlk, hsl, hnb, not_true_eq_false, if_false, Bool.false_eq_true,
    or_self]

/-- What `item_link` does to the state besides the lists. -/
structure LinkPost (env : Env) (s s1 : State) (it : Nat) : Prop where
  self : s1.mem it = { s.mem it with
    it_flags := { (s.mem it).it_flags with linked := true }
    time := s.current_time, prev := 0, next := s.heads (s.mem it).slabs_clsid }
  others : ∀ x, x ≠ it →
    s1.mem x = { s.mem x with next := (s1.mem x).next, prev := (s1.mem x).prev }
  rest : s1.slab_allocs = s.slab_allocs ∧ s1.current_time = s.current_time ∧
    s1.oldest_live = s.oldest_live ∧ s1.evict_to_free = s.evict_to_free ∧
    s1.slab_frees = s.slab_frees ∧ s1.slab_live = s.slab_live
  tables : ∀ c, c ≠ (s.mem it).slabs_clsid →
    s1.heads c = s.heads c ∧ s1.tails c = s.tails c ∧ s1.sizes c = s.sizes c
  counts : s1.sizes (s.mem it).slabs_clsid = u32 (s.sizes (s.mem it).slabs_clsid + 1) ∧
    s1.curr_items = u32 (s.curr_items + 1) ∧ s1.total_items = u32 (s.total_items + 1) ∧
    s1.curr_bytes = (s.curr_bytes + ITEM_ntotal env (s.mem it)) % 2 ^ 64

/-- `item_link` on a handed-out item that is not LINKED and is below the size
cap succeeds and puts the item at the head of its class's list. -/
theorem item_link_ok (env : Env) (s : State) (L : Nat → List Nat) (it : Nat) (hI : Inv s L)
    (hlive : s.slab_live it = true) (hlk : (s.mem it).it_flags.linked = false)
    (hnb : (s.mem it).nbytes < 1048576) :
    ∃ s1, item_link env s it = .ok (1, s1) ∧
      Inv s1 (Function.update L (s.mem it).slabs_clsid (it :: L (s.mem it).slabs_clsid)) ∧
      LinkPost env s s1 it := by
  have h0 := hI.ne_zero_of_live it hlive
  have hsl := hI.slabbed it hlive
  have hnot : ∀ c, it ∉ L c := fun c h => by
    have := ((hI.mem_iff c it).1 h).1
    rw [hlk] at this
    exact Bool.noConfusion this
  have hl0 : listOk { s with
      mem := store s.mem it { s.mem it with
        it_flags := { (s.mem it).it_flags with linked := true }, time := s.current_time }
      curr_bytes := (s.curr_bytes + ITEM_ntotal env { s.mem it with
        it_flags := { (s.mem it).it_flags with linked := true },
        time := s.current_time }) % 2 ^ 64
      curr_items := u32 (s.curr_items + 1)
      total_items := u32 (s.total_items + 1) } (s.mem it).slabs_clsid
      (L (s.mem it).slabs_clsid) := by
    refine listOk_frame (hI.ok _) rfl rfl ?_
    intro x _
    by_cases hx : x = it
    · subst hx; simp [store]
    · simp [store, hx]
  obtain ⟨s1, hrun, hok, hq, hsz⟩ := item_link_q_ok _ it (s.mem it).slabs_clsid _
    (by simp [store]) hl0 (hnot _) h0 (by simp [store, hsl])
  have hO := hq.other
  have hfl : ∀ x, x ≠ it → (s1.mem x).it_flags = (s.mem x).it_flags ∧
      (s1.mem x).slabs_clsid = (s.mem x).slabs_clsid := by
    intro x hx
    have := hq.flags x
    simp only [store, if_neg hx] at this
    exact ⟨this.1, this.2.1⟩
  have hfi : (s1.mem it).it_flags = { (s.mem it).it_flags with linked := true } ∧
      (s1.mem it).slabs_clsid = (s.mem it).slabs_clsid := by
    have := hq.flags it
    simp only [store, if_true] at this
    exact ⟨this.1, this.2.1⟩
  have hhead : s1.heads (s.mem it).slabs_clsid = it := hok.1
  have hself : s1.mem it = { s.mem it with
      it_flags := { (s.mem it).it_flags with linked := true }
      time := s.current_time, prev := 0, next := s.heads (s.mem it).slabs_clsid } := by
    have h1 := hq.mem_in it
    have h2 : (s1.mem it).prev = 0 := hok.2.2.1.2.1
    have h3 : (s1.mem it).next = (L (s.mem it).slabs_clsid).headD 0 := hok.2.2.1.2.2.1
    rw [h1, h2, h3, (hI.ok _).1]
    simp [store]
  refine ⟨s1, by rw [item_link_eq env s it hlk hsl hnb, hrun], ?_, ?_⟩
  · refine ⟨?_, ?_, ?_, ?_, ?_, ?_, ?_⟩
    · intro c
      by_cases hc : c = (s.mem it).slabs_clsid
      · subst hc; simpa using hok
      · rw [Function.update_noteq hc]
        refine listOk_frame (hI.ok c) (hq.heads c hc) (hq.tails c hc) ?_
        intro x hx
        have hxc : (s.mem x).slabs_clsid = c := ((hI.mem_iff c x).1 hx).2
        have hxi : x ≠ it := fun h => hnot c (h ▸ hx)
        have hxn : x ∉ it :: L (s.mem it).slabs_clsid := by
          intro h
          rcases List.mem_cons.1 h with h | h
          · exact hxi h
          · exact hc (hxc.symm.trans ((hI.mem_iff _ x).1 h).2)
        rw [hq.mem_out x hxn]
        simp [store, hxi]
    · intro c x
      by_cases hx : x = it
      · subst hx
        rw [hfi.1, hfi.2]
        by_cases hc : c = (s.mem x).slabs_clsid
        · subst hc; simp
        · rw [Function.update_noteq hc]
          simp [hnot c, Ne.symm hc]
      · rw [(hfl x hx).1, (hfl x hx).2, ← hI.mem_iff c x]
        by_cases hc : c = (s.mem it).slabs_clsid
        · subst hc; simp [hx]
        · rw [Function.update_noteq hc]
    · intro x hx
      rw [hq.live]
      by_cases hxi : x = it
      · subst hxi; exact hlive
      · rw [(hfl x hxi).1] at hx; exact hI.live x hx
    · rw [hq.live]; exact hI.null
    · intro x hx
      rw [hq.live] at hx
      by_cases hxi : x = it
      · subst hxi; rw [hfi.2]; exact hI.cls x hx
      · rw [(hfl x hxi).2]; exact hI.cls x hx
    · intro x hx
      rw [hq.live] at hx
      by_cases hxi : x = it
      · subst hxi; rw [hfi.1]; exact hI.slabbed x hx
      · rw [(hfl x hxi).1]; exact hI.slabbed x hx
    · intro x hx
      rw [hq.live] at hx
      by_cases hxi : x = it
      · subst hxi; rw [hfi.2]; exact hI.free_cls x hx
      · rw [(hfl x hxi).2]; exact hI.free_cls x hx
  · refine ⟨hself, ?_, ?_, ?_, ?_⟩
    · intro x hx
      have := hq.mem_in x
      simp only [store, if_neg hx] at this
      exact this
    · rw [hO]; simp
    · intro c hc; exact ⟨hq.heads c hc, hq.tails c hc, hq.sizes c hc⟩
    · refine ⟨hsz, ?_, ?_, ?_⟩
      · rw [hO]
      · rw [hO]
      · rw [hO]; rfl

/-- The invariant reads only the tables, the heap and the allocator's record. -/
theorem Inv.congr {s s1 : State} {L : Nat → List Nat} (hI : Inv s L)
    (hh : s1.heads = s.heads) (ht : s1.tails = s.tails) (hm : s1.mem = s.mem)
    (hl : s1.slab_live = s.slab_live) : Inv s1 L := by
  refine ⟨?_, ?_, ?_, ?_, ?_, ?_, ?_⟩
  · intro c
    exact listOk_frame (hI.ok c) (by rw [hh]) (by rw [ht]) (fun x _ => by rw [hm]; exact ⟨rfl, rfl⟩)
  · intro c x; rw [hm]; exact hI.mem_iff c x
  · intro x; rw [hm, hl]; exact hI.live x
  · rw [hl]; exact hI.null
  · intro x; rw [hm, hl]; exact hI.cls x
  · intro x; rw [hm, hl]; exact hI.slabbed x
  · intro x; rw [hm, hl]; exact hI.free_cls x

/-- Overwriting fields of one item other than the links, the flags and the
class tag keeps the invariant. -/
theorem Inv.store {s : State} {L : Nat → List Nat} (hI : Inv s L) (s1 : State) (it : Nat)
    (v : Item) (hh : s1.heads = s.heads) (ht : s1.tails = s.tails)
    (hm : s1.mem = store s.mem it v) (hl : s1.slab_live = s.slab_live)
    (hv : v.next = (s.mem it).next ∧ v.prev = (s.mem it).prev ∧
      v.it_flags = (s.mem it).it_flags ∧ v.slabs_clsid = (s.mem it).slabs_clsid) :
    Inv s1 L := by
  have hx : ∀ x, (s1.mem x).next = (s.mem x).next ∧ (s1.mem x).prev = (s.mem x).prev ∧
      (s1.mem x).it_flags = (s.mem x).it_flags ∧
      (s1.mem x).slabs_clsid = (s.mem x).slabs_clsid := by
    intro x
    rw [hm]
    by_cases h : x = it
    · rw [h, store_same]; exact hv
    · rw [store_other _ _ _ _ h]; exact ⟨rfl, rfl, rfl, rfl⟩
  refine ⟨?_, ?_, ?_, ?_, ?_, ?_, ?_⟩
  · intro c
    exact listOk_frame (hI.ok c) (by rw [hh]) (by rw [ht])
      (fun x _ => ⟨(hx x).2.1, (hx x).1⟩)
  · intro c x; rw [(hx x).2.2.1, (hx x).2.2.2]; exact hI.mem_iff c x
  · intro x; rw [(hx x).2.2.1, hl]; exact hI.live x
  · rw [hl]; exact hI.null
  · intro x; rw [(hx x).2.2.2, hl]; exact hI.cls x
  · intro x; rw [(hx x).2.2.1, hl]; exact hI.slabbed x
  · intro x; rw [(hx x).2.2.2, hl]; exact hI.free_cls x

theorem Item.dec_zero (x : Item) (h : x.refcount = 0) :
    x = { x with refcount := x.refcount - 1 } := by
  cases x; simp at h; simp [h]

/-- `item_remove` when its assertions hold, unfolded. -/
theorem item_remove_eq (env : Env) (s : State) (it : Nat)
    (hsl : (s.mem it).it_flags.slabbed = false)
    (h223 : (s.mem it).it_flags.deleted = false ∨ (s.mem it).refcount - 1 ≠ 0) :
    item_remove env s it =
      if (s.mem it).refcount - 1 = 0 ∧ (s.mem it).it_flags.linked = false then
        item_free env { s with
          mem := store s.mem it { s.mem it with refcount := (s.mem it).refcount - 1 } } it
      else .ok { s with
          mem := store s.mem it { s.mem it with refcount := (s.mem it).refcount - 1 } } := by
  have hx : (if (s.mem it).refcount ≠ 0 then
      { s.mem it with refcount := (s.mem it).refcount - 1 } else s.mem it) =
      { s.mem it with refcount := (s.mem it).refcount - 1 } := by
    by_cases h : (s.mem it).refcount = 0
    · rw [if_neg (by simpa using h)]; exact Item.dec_zero _ h
    · rw [if_pos h]
  simp only [item_remove, hsl, hx]
  simp [h223]

theorem item_remove_ok (env : Env) (s : State) (L : Nat → List Nat) (it : Nat) (hI : Inv s L)
    (hlive : s.slab_live it = true)
    (h223 : (s.mem it).it_flags.deleted = false ∨ (s.mem it).refcount - 1 ≠ 0) :
    ∃ s1, item_remove env s it = .ok s1 ∧ Inv s1 L ∧
      s1 = (if (s.mem it).refcount - 1 = 0 ∧ (s.mem it).it_flags.linked = false then
        { s with
          mem := store s.mem it { s.mem it with
            refcount := (s.mem it).refcount - 1, slabs_clsid := 0
            it_flags := { (s.mem it).it_flags with slabbed := true } }
          slab_live := fun q => if q = it then false else s.slab_live q
          slab_frees := it :: s.slab_frees }
        else { s with
          mem := store s.mem it { s.mem it with refcount := (s.mem it).refcount - 1 } }) := by
  have hsl := hI.slabbed it hlive
  have hI1 : Inv { s with
      mem := store s.mem it { s.mem it with refcount := (s.mem it).refcount - 1 } } L :=
    hI.store _ it _ rfl rfl rfl rfl ⟨rfl, rfl, rfl, rfl⟩
  rw [item_remove_eq env s it hsl h223]
  by_cases hc : (s.mem it).refcount - 1 = 0 ∧ (s.mem it).it_flags.linked = false
  · obtain ⟨s2, hfree, hI2, hs2⟩ := item_free_ok env _ L it hI1 hlive
      (by simpa [store] using hc.2) (by simpa [store] using hc.1)
    refine ⟨s2, by rw [if_pos hc]; exact hfree, hI2, ?_⟩
    rw [hs2, if_pos hc]
    congr 1
    funext q
    by_cases hq : q = it <;> simp [store, hq]
  · exact ⟨_, by rw [if_neg hc], hI1, by rw [if_neg hc]⟩

/-- What a repositioning `item_update` does to the state besides the lists. -/
structure UpdatePost (s s1 : State) (it : Nat) : Prop where
  self : s1.mem it = { s.mem it with
    time := s.current_time, prev := 0, next := (s1.mem it).next }
  others : ∀ x, x ≠ it →
    s1.mem x = { s.mem x with next := (s1.mem x).next, prev := (s1.mem x).prev }
  rest : s1 = { s with mem := s1.mem, heads := s1.heads, tails := s1.tails, sizes := s1.sizes }
  tables : ∀ c, c ≠ (s.mem it).slabs_clsid →
    s1.heads c = s.heads c ∧ s1.tails c = s.tails c ∧ s1.sizes c = s.sizes c
  count : s1.sizes (s.mem it).slabs_clsid =
    u32 (u32 ((s.sizes (s.mem it).slabs_clsid : Int) - 1) + 1)

/-- `item_update` on a LINKED item whose time stamp is older than the
threshold of line 230: the item moves to the head of its class's list and its
time stamp becomes the current time. -/
theorem item_update_ok (s : State) (L : Nat → List Nat) (it : Nat) (hI : Inv s L)
    (hlk : (s.mem it).it_flags.linked = true)
    (hold : (s.mem it).time < u32 ((s.current_time : Int) - ITEM_UPDATE_INTERVAL)) :
    ∃ s1, item_update s it = .ok s1 ∧
      Inv s1 (Function.update L (s.mem it).slabs_clsid
        (it :: (L (s.mem it).slabs_clsid).erase it)) ∧
      UpdatePost s s1 it := by
  have hlive := hI.live it hlk
  have h0 := hI.ne_zero_of_live it hlive
  have hsl := hI.slabbed it hlive
  have hin : it ∈ L (s.mem it).slabs_clsid := (hI.mem_iff _ it).2 ⟨hlk, rfl⟩
  obtain ⟨l1, l2, hL⟩ := List.append_of_mem hin
  have hnd := (hI.ok (s.mem it).slabs_clsid).2.2.2
  have hnd' := hnd
  rw [hL] at hnd'
  have hit1 : it ∉ l1 := fun h =>
    (List.nodup_append.1 hnd').2.2 h (List.mem_cons_self _ _)
  have hE : (L (s.mem it).slabs_clsid).erase it = l1 ++ l2 := by
    rw [hL]; exact erase_mid l1 l2 it hit1
  have hitE : it ∉ (L (s.mem it).slabs_clsid).erase it := fun h => (hnd.mem_erase_iff.1 h).1 rfl
  obtain ⟨s1, hrun1, hok1, hq1, hsz1⟩ := item_unlink_q_ok s it (s.mem it).slabs_clsid l1 l2 rfl
    (hL ▸ hI.ok _)
  rw [← hE] at hok1 hq1
  have hs1it : s1.mem it = s.mem it := hq1.mem_out it hitE
  have hl1 : listOk { s1 with
      mem := store s1.mem it { s1.mem it with time := s1.current_time } }
      (s.mem it).slabs_clsid ((L (s.mem it).slabs_clsid).erase it) := by
    refine listOk_frame hok1 rfl rfl ?_
    intro x _
    by_cases hx : x = it
    · subst hx; simp [store]
    · simp [store, hx]
  obtain ⟨s2, hrun2, hok2, hq2, hsz2⟩ := item_link_q_ok _ it (s.mem it).slabs_clsid _
    (by simp [store, hs1it]) hl1 hitE h0 (by simp [store, hs1it, hsl])
  have hO1 := hq1.other
  have hO2 := hq2.other
  have hct : s1.current_time = s.current_time := by rw [hO1]
  have hfl : ∀ x, (s2.mem x).it_flags = (s.mem x).it_flags ∧
      (s2.mem x).slabs_clsid = (s.mem x).slabs_clsid := by
    intro x
    have h2 := hq2.flags x
    have h1 := hq1.flags x
    by_cases hx : x = it
    · subst hx
      simp only [store, if_true] at h2
      exact ⟨h2.1.trans h1.1, h2.2.1.trans h1.2.1⟩
    · simp only [store, if_neg hx] at h2
      exact ⟨h2.1.trans h1.1, h2.2.1.trans h1.2.1⟩
  have hlv : s2.slab_live = s.slab_live := by rw [hq2.live]; exact hq1.live
  have hoth : ∀ x, x ≠ it →
      s2.mem x = { s.mem x with next := (s2.mem x).next, prev := (s2.mem x).prev } := by
    intro x hx
    have h2 := hq2.mem_in x
    simp only [store, if_neg hx] at h2
    rw [h2, hq1.mem_in x]
  refine ⟨s2, ?_, ?_, ?_⟩
  · simp only [item_update, if_pos hold, hsl, Bool.false_eq_true, if_false, hrun1]
    exact hrun2
  · refine ⟨?_, ?_, ?_, ?_, ?_, ?_, ?_⟩
    · intro c
      by_cases hc : c = (s.mem it).slabs_clsid
      · subst hc; simpa using hok2
      · rw [Function.update_noteq hc]
        have hnot : it ∉ L c := fun h => hc ((hI.mem_iff c it).1 h).2.symm
        refine listOk_frame (hI.ok c) ((hq2.heads c hc).trans (hq1.heads c hc))
          ((hq2.tails c hc).trans (hq1.tails c hc)) ?_
        intro x hx
        have hxc : (s.mem x).slabs_clsid = c := ((hI.mem_iff c x).1 hx).2
        have hxi : x ≠ it := fun h => hnot (h ▸ hx)
        have hxn : x ∉ (L (s.mem it).slabs_clsid).erase it := by
          intro h
          exact hc (hxc.symm.trans ((hI.mem_iff _ x).1 (List.mem_of_mem_erase h)).2)
        have hxn2 : x ∉ it :: (L (s.mem it).slabs_clsid).erase it := by
          intro h
          rcases List.mem_cons.1 h with h | h
          · exact hxi h
          · exact hxn h
        rw [hq2.mem_out x hxn2]
        simp only [store, if_neg hxi]
        rw [hq1.mem_out x hxn]
        exact ⟨rfl, rfl⟩
    · intro c x
      rw [(hfl x).1, (hfl x).2, ← hI.mem_iff c x]
      by_cases hc : c = (s.mem it).slabs_clsid
      · subst hc
        simp only [Function.update_same, List.mem_cons, hnd.mem_erase_iff]
        by_cases hx : x = it
        · subst hx; simp [hin]
        · simp [hx]
      · rw [Function.update_noteq hc]
    · intro x hx; rw [hlv]; rw [(hfl x).1] at hx; exact hI.live x hx
    · rw [hlv]; exact hI.null
    · intro x hx; rw [hlv] at hx; rw [(hfl x).2]; exact hI.cls x hx
    · intro x hx; rw [hlv] at hx; rw [(hfl x).1]; exact hI.slabbed x hx
    · intro x hx; rw [hlv] at hx; rw [(hfl x).2]; exact hI.free_cls x hx
  · refine ⟨?_, hoth, ?_, ?_, ?_⟩
    · have h2 := hq2.mem_in it
      have hp : (s2.mem it).prev = 0 := hok2.2.2.1.2.1
      rw [h2, hp]
      simp [store, hs1it, hct]
    · rw [hO2]; simp only []; rw [hO1]
    · intro c hc
      exact ⟨(hq2.heads c hc).trans (hq1.heads c hc), (hq2.tails c hc).trans (hq1.tails c hc),
        (hq2.sizes c hc).trans (hq1.sizes c hc)⟩
    · rw [hsz2]; simp only []; rw [hsz1]

/-- The candidates of the eviction scan, nearest the tail first: the last
`tries` items of the list `l`. -/
def candidates (tries : Nat) (l : List Nat) : List Nat := l.reverse.take tries

/-- The first candidate without a holder. -/
def victim (s : State) (tries : Nat) (l : List Nat) : Option Nat :=
  (candidates tries l).find? (fun x => decide ((s.mem x).refcount = 0))

/-- The eviction scan, started at the last pointer of a segment, unlinks the
first item without a holder among the `tries` items nearest the end, and does
nothing when there is none. -/
theorem evict_scan_eq (env : Env) (s : State) : ∀ (tries : Nat) (l : List Nat) (n : Nat),
    seg s.mem 0 l n →
    evict_scan env s tries (l.getLastD 0) =
      match victim s tries l with
      | some v => item_unlink env s v
      | none => .ok s
  | 0, l, n, _ => by simp [evict_scan, victim, candidates]
  | tries + 1, l, n, hs => by
    rcases List.eq_nil_or_concat l with rfl | ⟨l0, a, hl⟩
    · simp [evict_scan, victim, candidates]
    · rw [List.concat_eq_append] at hl
      subst hl
      obtain ⟨hA, ha0, hpv, _, _⟩ := (seg_append l0 [a] 0 n).1 hs
      have hlast : (l0 ++ [a]).getLastD 0 = a := by simp
      rw [hlast]
      by_cases hr : (s.mem a).refcount = 0
      · simp [evict_scan, victim, candidates, ha0, hr]
      · have ih := evict_scan_eq env s tries l0 a hA
        simp only [evict_scan, if_neg ha0, if_neg hr, hpv, ih]
        simp [victim, candidates, hr]

/-- A fresh buffer from the allocator, initialised by `item_alloc`: the
assertions of lines 109 and 113 hold and the lists are untouched. -/
theorem alloc_fill_ok (s : State) (L : Nat → List Nat) (r id : Nat) (key : List Char)
    (nkey exptime : Nat) (nbytes : Int) (suffix : List Char) (nsuffix : Nat)
    (hI : Inv s L) (hr : r ≠ 0) (hfree : s.slab_live r = false)
    (hid : 0 < id ∧ id < LARGEST_ID) :
    ∃ s2, slabs_alloc s r = .ok (r, { s with
        slab_allocs := s.slab_allocs + 1
        slab_live := fun q => if q = r then true else s.slab_live q }) ∧
      item_alloc_fill { s with
        slab_allocs := s.slab_allocs + 1
        slab_live := fun q => if q = r then true else s.slab_live q } r id key nkey exptime
        nbytes suffix nsuffix = .ok (r, s2) ∧
      Inv s2 L ∧
      s2 = { s with
        slab_allocs := s.slab_allocs + 1
        slab_live := fun q => if q = r then true else s.slab_live q
        mem := store s.mem r { s.mem r with
          slabs_clsid := id % 256, next := 0, prev := 0, h_next := 0, refcount := 0,
          it_flags := ⟨false, false, false⟩, nkey := nkey % 256, nbytes := nbytes,
          key := key, exptime := exptime, suffix := suffix, nsuffix := nsuffix % 256 } } := by
  have hcl := hI.free_cls r hfree
  have hnot : ∀ c, r ∉ L c := fun c h => by
    have := hI.live r ((hI.mem_iff c r).1 h).1
    rw [hfree] at this
    exact Bool.noConfusion this
  have h113 := hI.head_ne r (id % 256) hr (hnot _)
  have hidm : id % 256 = id := Nat.mod_eq_of_lt (by have := hid.2; simp [LARGEST_ID] at this; omega)
  refine ⟨_, by simp [slabs_alloc, hr, hfree], by simp [item_alloc_fill, hcl, h113], ?_, rfl⟩
  refine ⟨?_, ?_, ?_, ?_, ?_, ?_, ?_⟩
  · intro c
    refine listOk_frame (hI.ok c) rfl rfl ?_
    intro x hx
    have : x ≠ r := fun h => hnot c (h ▸ hx)
    simp [store, this]
  · intro c x
    by_cases hx : x = r
    · subst hx; simp [store, hnot c]
    · simp [store, hx, hI.mem_iff c x]
  · intro x
    by_cases hx : x = r
    · subst hx; simp [store]
    · simpa [store, hx] using hI.live x
  · simpa [Ne.symm hr] using hI.null
  · intro x
    by_cases hx : x = r
    · subst hx; simp [store, hidm, hid.1, hid.2]
    · simpa [store, hx] using hI.cls x
  · intro x
    by_cases hx : x = r
    · subst hx; simp [store]
    · simpa [store, hx] using hI.slabbed x
  · intro x
    by_cases hx : x = r
    · subst hx; simp
    · simpa [store, hx] using hI.free_cls x

theorem Inv.bump {s : State} {L : Nat → List Nat} (hI : Inv s L) :
    Inv { s with slab_allocs := s.slab_allocs + 1 } L :=
  hI.congr rfl rfl rfl rfl

theorem victim_some {s : State} {tries : Nat} {l : List Nat} {v : Nat}
    (h : victim s tries l = some v) :
    v ∈ candidates tries l ∧ v ∈ l ∧ (s.mem v).refcount = 0 := by
  have h1 := List.find?_some h
  have h2 := List.mem_of_find?_eq_some h
  refine ⟨h2, ?_, by simpa using h1⟩
  exact List.mem_reverse.1 (List.mem_of_mem_take h2)

/-- The eviction scan of `item_alloc` on class `id`: either there is no
candidate without a holder and nothing changes, or the first such candidate is
unlinked (and, having no holder, given back). -/
theorem evict_phase (env : Env) (s : State) (L : Nat → List Nat) (id : Nat) (hI : Inv s L) :
    (victim s 50 (L id) = none ∧ evict_scan env s 50 (s.tails id) = .ok s) ∨
    (∃ v s2, victim s 50 (L id) = some v ∧ evict_scan env s 50 (s.tails id) = .ok s2 ∧
      Inv s2 (fun c => (L c).erase v) ∧ UnlinkPost env s s2 v) := by
  have hseg := (hI.ok id).2.2.1
  have ht := (hI.ok id).2.1
  have heq := evict_scan_eq env s 50 (L id) 0 hseg
  rw [← ht] at heq
  cases hv : victim s 50 (L id) with
  | none =>
    left
    rw [hv] at heq
    exact ⟨rfl, heq⟩
  | some v =>
    right
    rw [hv] at heq
    obtain ⟨_, hvl, _⟩ := victim_some hv
    have hlive : s.slab_live v = true := hI.live v ((hI.mem_iff id v).1 hvl).1
    obtain ⟨s2, hrun, hI2, hpost⟩ := item_unlink_ok env s L v hI hlive
    exact ⟨v, s2, rfl, heq.trans hrun, hI2, hpost⟩

theorem slabs_alloc_null (s : State) :
    slabs_alloc s 0 = .ok (0, { s with slab_allocs := s.slab_allocs + 1 }) := by
  simp [slabs_alloc]

theorem slabs_alloc_some (s : State) (r : Nat) (hr : r ≠ 0) (hfree : s.slab_live r = false) :
    slabs_alloc s r = .ok (r, { s with
      slab_allocs := s.slab_allocs + 1
      slab_live := fun q => if q = r then true else s.slab_live q }) := by
  simp [slabs_alloc, hr, hfree]

/-- One `slabs_alloc` call with answer `r`, followed, when the answer is a
buffer, by the initialisation of lines 109-124. -/
def alloc_step (s : State) (r id : Nat) (key : List Char) (nkey exptime : Nat)
    (nbytes : Int) (suffix : List Char) (nsuffix : Nat) : Except Nat (Nat × State) :=
  match slabs_alloc s r with
  | .error e => .error e
  | .ok (it2, s3) =>
    if it2 = 0 then .ok (0, s3)
    else item_alloc_fill s3 it2 id key nkey exptime nbytes suffix nsuffix

/-- The path of `item_alloc` after a first `slabs_alloc` that gave `NULL`. -/
theorem item_alloc_null_eq (env : Env) (s : State) (key : List Char) (nkey : Nat)
    (flags : Int) (exptime : Nat) (nbytes : Int) (r2 : Nat)
    (hid : env.slabs_clsid (item_make_header env (nkey + 1) flags nbytes).2.2 ≠ 0) :
    item_alloc env s key nkey flags exptime nbytes 0 r2 =
      if s.evict_to_free = false then .ok (0, { s with slab_allocs := s.slab_allocs + 1 })
      else if evict_guard (env.slabs_clsid (item_make_header env (nkey + 1) flags nbytes).2.2)
      then .ok (0, { s with slab_allocs := s.slab_allocs + 1 })
      else if s.tails (env.slabs_clsid (item_make_header env (nkey + 1) flags nbytes).2.2) = 0
      then .ok (0, { s with slab_allocs := s.slab_allocs + 1 })
      else
        match evict_scan env { s with slab_allocs := s.slab_allocs + 1 } 50
          (s.tails (env.slabs_clsid (item_make_header env (nkey + 1) flags nbytes).2.2)) with
        | .error e => .error e
        | .ok s2 =>
          alloc_step s2 r2
            (env.slabs_clsid (item_make_header env (nkey + 1) flags nbytes).2.2) key nkey
            exptime nbytes (item_make_header env (nkey + 1) flags nbytes).1
            (item_make_header env (nkey + 1) flags nbytes).2.1 := by
  simp only [item_alloc, if_neg hid, slabs_alloc_null, if_true, alloc_step]

/-- The path of `item_alloc` whose first `slabs_alloc` does not give `NULL`. -/
theorem item_alloc_first_eq (env : Env) (s : State) (key : List Char) (nkey : Nat)
    (flags : Int) (exptime : Nat) (nbytes : Int) (r1 r2 : Nat)
    (hid : env.slabs_clsid (item_make_header env (nkey + 1) flags nbytes).2.2 ≠ 0)
    (hr : r1 ≠ 0) :
    item_alloc env s key nkey flags exptime nbytes r1 r2 =
      alloc_step s r1
        (env.slabs_clsid (item_make_header env (nkey + 1) flags nbytes).2.2) key nkey
        exptime nbytes (item_make_header env (nkey + 1) flags nbytes).1
        (item_make_header env (nkey + 1) flags nbytes).2.1 := by
  by_cases hl : s.slab_live r1 = true
  · simp only [item_alloc, if_neg hid, alloc_step, slabs_alloc, if_neg hr, hl, if_true]
  · have hl : s.slab_live r1 = false := by simpa using hl
    simp only [item_alloc, if_neg hid, alloc_step, slabs_alloc_some s r1 hr hl, if_neg hr]

/-- What one allocator call of `item_alloc` changes. -/
structure AllocPost (s s1 : State) (r : Nat) : Prop where
  rest : s1 =
    { s with mem := s1.mem, slab_live := s1.slab_live, slab_allocs := s.slab_allocs + 1 }
  mem : ∀ x, x ≠ r → s1.mem x = s.mem x
  null : r = 0 → s1.mem = s.mem ∧ s1.slab_live = s.slab_live
  time : ∀ x, (s1.mem x).time = (s.mem x).time
  live : ∀ q, q ≠ r → s1.slab_live q = s.slab_live q

/-- An allocator call within its contract succeeds. -/
theorem alloc_step_ok (s : State) (L : Nat → List Nat) (r id : Nat) (key : List Char)
    (nkey exptime : Nat) (nbytes : Int) (suffix : List Char) (nsuffix : Nat)
    (hI : Inv s L) (hid : 0 < id ∧ id < LARGEST_ID)
    (hr : r = 0 ∨ s.slab_live r = false) :
    ∃ s1, alloc_step s r id key nkey exptime nbytes suffix nsuffix = .ok (r, s1) ∧
      Inv s1 L ∧ AllocPost s s1 r ∧
      (r ≠ 0 → s1.slab_live r = true ∧ s1.mem r = { s.mem r with
          slabs_clsid := id % 256, next := 0, prev := 0, h_next := 0, refcount := 0,
          it_flags := ⟨false, false, false⟩, nkey := nkey % 256, nbytes := nbytes,
          key := key, exptime := exptime, suffix := suffix, nsuffix := nsuffix % 256 }) := by
  by_cases h0 : r = 0
  · subst h0
    refine ⟨_, by simp [alloc_step, slabs_alloc_null], hI.bump, ⟨rfl, fun _ _ => rfl,
      fun _ => ⟨rfl, rfl⟩, fun _ => rfl, fun _ _ => rfl⟩, fun h => absurd rfl h⟩
  · have hfree : s.slab_live r = false := hr.resolve_left h0
    obtain ⟨s2, h1, h2, hI2, hs2⟩ := alloc_fill_ok s L r id key nkey exptime nbytes suffix
      nsuffix hI h0 hfree hid
    refine ⟨s2, by simp only [alloc_step, h1, if_neg h0]; exact h2, hI2, ?_, ?_⟩
    · rw [hs2]
      refine ⟨rfl, ?_, fun h => absurd h h0, ?_, ?_⟩
      · intro x hx; simp [store, hx]
      · intro x
        by_cases hx : x = r
        · subst hx; simp [store]
        · simp [store, hx]
      · intro q hq; simp [hq]
    · intro _
      rw [hs2]
      simp [store]

/-- An allocator call that returns went within the allocator's contract. -/
theorem alloc_step_inv (s : State) (r id : Nat) (key : List Char)
    (nkey exptime : Nat) (nbytes : Int) (suffix : List Char) (nsuffix : Nat)
    (it : Nat) (s1 : State)
    (hrun : alloc_step s r id key nkey exptime nbytes suffix nsuffix = .ok (it, s1)) :
    r = 0 ∨ s.slab_live r = false := by
  by_cases h0 : r = 0
  · exact Or.inl h0
  · right
    by_contra hl
    have hl : s.slab_live r = true := by simpa using hl
    simp [alloc_step, slabs_alloc, h0, hl] at hrun

theorem UnlinkPost.time {env : Env} {s s1 : State} {it : Nat} (h : UnlinkPost env s s1 it)
    (x : Nat) : (s1.mem x).time = (s.mem x).time ∧ (s1.mem x).refcount = (s.mem x).refcount := by
  by_cases hx : x = it
  · subst hx
    rw [h.self]
    split <;> exact ⟨rfl, rfl⟩
  · rw [h.others x hx]; exact ⟨rfl, rfl⟩

theorem AllocPost.fields {s s1 : State} {r : Nat} (h : AllocPost s s1 r) :
    s1.heads = s.heads ∧ s1.tails = s.tails ∧ s1.sizes = s.sizes ∧
    s1.current_time = s.current_time ∧ s1.oldest_live = s.oldest_live ∧
    s1.evict_to_free = s.evict_to_free ∧ s1.curr_bytes = s.curr_bytes ∧
    s1.curr_items = s.curr_items ∧ s1.total_items = s.total_items ∧
    s1.slab_frees = s.slab_frees ∧ s1.slab_allocs = s.slab_allocs + 1 := by
  have := h.rest
  refine ⟨?_, ?_, ?_, ?_, ?_, ?_, ?_, ?_, ?_, ?_, ?_⟩ <;> rw [this]

/-- Every returning `item_alloc` keeps the invariant: the lists are unchanged
or lose the one evicted item; at most two allocator calls are made. -/
theorem item_alloc_inv (env : Env) (s : State) (L : Nat → List Nat) (key : List Char)
    (nkey : Nat) (flags : Int) (exptime : Nat) (nbytes : Int) (r1 r2 it : Nat) (s1 : State)
    (hI : Inv s L)
    (hid : env.slabs_clsid (item_make_header env (nkey + 1) flags nbytes).2.2 < LARGEST_ID)
    (hrun : item_alloc env s key nkey flags exptime nbytes r1 r2 = .ok (it, s1)) :
    ∃ L1, Inv s1 L1 ∧
      (L1 = L ∨ ∃ v, r1 = 0 ∧ s.evict_to_free = true ∧
        victim s 50 (L (env.slabs_clsid (item_make_header env (nkey + 1) flags nbytes).2.2))
          = some v ∧ L1 = fun c => (L c).erase v) ∧
      (∀ x, (s1.mem x).time = (s.mem x).time) ∧ s1.current_time = s.current_time ∧
      s1.slab_allocs ≤ s.slab_allocs + 2 ∧
      (env.slabs_clsid (item_make_header env (nkey + 1) flags nbytes).2.2 ≠ 0 →
        s.slab_allocs + 1 ≤ s1.slab_allocs) := by
  by_cases hz : env.slabs_clsid (item_make_header env (nkey + 1) flags nbytes).2.2 = 0
  · simp only [item_alloc, if_pos hz] at hrun
    obtain ⟨_, rfl⟩ := Prod.mk.inj (Except.ok.inj hrun)
    exact ⟨L, hI, Or.inl rfl, fun _ => rfl, rfl, by omega, fun h => absurd hz h⟩
  have hid2 : 0 < env.slabs_clsid (item_make_header env (nkey + 1) flags nbytes).2.2 ∧
      env.slabs_clsid (item_make_header env (nkey + 1) flags nbytes).2.2 < LARGEST_ID :=
    ⟨Nat.pos_of_ne_zero hz, hid⟩
  by_cases hr1 : r1 = 0
  · subst hr1
    rw [item_alloc_null_eq env s key nkey flags exptime nbytes r2 hz] at hrun
    have hb : ∀ (t : State), t = { s with slab_allocs := s.slab_allocs + 1 } →
        ∃ L1, Inv t L1 ∧
        (L1 = L ∨ ∃ v, (0 : Nat) = 0 ∧ s.evict_to_free = true ∧
          victim s 50 (L (env.slabs_clsid (item_make_header env (nkey + 1) flags nbytes).2.2))
            = some v ∧ L1 = fun c => (L c).erase v) ∧
        (∀ x, (t.mem x).time = (s.mem x).time) ∧ t.current_time = s.current_time ∧
        t.slab_allocs ≤ s.slab_allocs + 2 ∧
        (env.slabs_clsid (item_make_header env (nkey + 1) flags nbytes).2.2 ≠ 0 →
          s.slab_allocs + 1 ≤ t.slab_allocs) := by
      rintro t rfl
      exact ⟨L, hI.bump, Or.inl rfl, fun _ => rfl, rfl, by simp, fun _ => le_refl _⟩
    by_cases he : s.evict_to_free = false
    · rw [if_pos he] at hrun
      exact hb _ (Prod.mk.inj (Except.ok.inj hrun)).2.symm
    rw [if_neg he] at hrun
    have he : s.evict_to_free = true := by simpa using he
    split at hrun
    · exact hb _ (Prod.mk.inj (Except.ok.inj hrun)).2.symm
    split at hrun
    · exact hb _ (Prod.mk.inj (Except.ok.inj hrun)).2.symm
    rcases evict_phase env { s with slab_allocs := s.slab_allocs + 1 } L
      (env.slabs_clsid (item_make_header env (nkey + 1) flags nbytes).2.2) hI.bump with
      ⟨hv, hscan⟩ | ⟨v, s2, hv, hscan, hI2, hpost⟩
    · rw [show (s.tails (env.slabs_clsid (item_make_header env (nkey + 1) flags nbytes).2.2))
        = ({ s with slab_allocs := s.slab_allocs + 1 } : State).tails
          (env.slabs_clsid (item_make_header env (nkey + 1) flags nbytes).2.2) from rfl,
        hscan] at hrun
      simp only [] at hrun
      have hc := alloc_step_inv _ _ _ _ _ _ _ _ _ _ _ hrun
      obtain ⟨s3, hrun3, hI3, hp3, _⟩ := alloc_step_ok _ L r2 _ key nkey exptime nbytes
        (item_make_header env (nkey + 1) flags nbytes).1
        (item_make_header env (nkey + 1) flags nbytes).2.1 hI.bump hid2 hc
      rw [hrun3] at hrun
      obtain ⟨_, rfl⟩ := Prod.mk.inj (Except.ok.inj hrun)
      have hf := hp3.fields
      exact ⟨L, hI3, Or.inl rfl, fun x => hp3.time x, hf.2.2.2.1,
        by rw [hf.2.2.2.2.2.2.2.2.2.2], fun _ => by
          rw [hf.2.2.2.2.2.2.2.2.2.2]; exact Nat.le_succ_of_le (le_refl _)⟩
    · rw [show (s.tails (env.slabs_clsid (item_make_header env (nkey + 1) flags nbytes).2.2))
        = ({ s with slab_allocs := s.slab_allocs + 1 } : State).tails
          (env.slabs_clsid (item_make_header env (nkey + 1) flags nbytes).2.2) from rfl,
        hscan] at hrun
      simp only [] at hrun
      have hc := alloc_step_inv _ _ _ _ _ _ _ _ _ _ _ hrun
      obtain ⟨s3, hrun3, hI3, hp3, _⟩ := alloc_step_ok _ _ r2 _ key nkey exptime nbytes
        (item_make_header env (nkey + 1) flags nbytes).1
        (item_make_header env (nkey + 1) flags nbytes).2.1 hI2 hid2 hc
      rw [hrun3] at hrun
      obtain ⟨_, rfl⟩ := Prod.mk.inj (Except.ok.inj hrun)
      have hf := hp3.fields
      refine ⟨_, hI3, Or.inr ⟨v, rfl, he, hv, rfl⟩, ?_, ?_, ?_, ?_⟩
      · intro x; rw [hp3.time x]; exact (hpost.time x).1
      · rw [hf.2.2.2.1]; exact hpost.rest.2.1
      · rw [hf.2.2.2.2.2.2.2.2.2.2, hpost.rest.1]
      · intro _
        rw [hf.2.2.2.2.2.2.2.2.2.2, hpost.rest.1]
        exact Nat.le_succ_of_le (le_refl _)
  · rw [item_alloc_first_eq env s key nkey flags exptime nbytes r1 r2 hz hr1] at hrun
    have hc := alloc_step_inv _ _ _ _ _ _ _ _ _ _ _ hrun
    obtain ⟨s3, hrun3, hI3, hp3, _⟩ := alloc_step_ok s L r1 _ key nkey exptime nbytes
      (item_make_header env (nkey + 1) flags nbytes).1
      (item_make_header env (nkey + 1) flags nbytes).2.1 hI hid2 hc
    rw [hrun3] at hrun
    obtain ⟨_, rfl⟩ := Prod.mk.inj (Except.ok.inj hrun)
    have hf := hp3.fields
    exact ⟨L, hI3, Or.inl rfl, fun x => hp3.time x, hf.2.2.2.1,
      by rw [hf.2.2.2.2.2.2.2.2.2.2]; omega, fun _ => by rw [hf.2.2.2.2.2.2.2.2.2.2]⟩

/-- The items the sweep takes: time stamp not older than `oldest_live`. -/
def recent (s : State) (x : Nat) : Bool := decide ((s.mem x).time ≥ s.oldest_live)

/-- What the expiry sweep keeps of the rest of the state. -/
structure SweepKeep (s s1 : State) : Prop where
  time : ∀ x, (s1.mem x).time = (s.mem x).time
  refcount : ∀ x, (s1.mem x).refcount = (s.mem x).refcount
  rest : s1.slab_allocs = s.slab_allocs ∧ s1.current_time = s.current_time ∧
    s1.oldest_live = s.oldest_live ∧ s1.evict_to_free = s.evict_to_free ∧
    s1.total_items = s.total_items

theorem SweepKeep.refl (s : State) : SweepKeep s s :=
  ⟨fun _ => rfl, fun _ => rfl, rfl, rfl, rfl, rfl, rfl⟩

theorem SweepKeep.trans {s s1 s2 : State} (h1 : SweepKeep s s1) (h2 : SweepKeep s1 s2) :
    SweepKeep s s2 :=
  ⟨fun x => (h2.time x).trans (h1.time x), fun x => (h2.refcount x).trans (h1.refcount x),
    h2.rest.1.trans h1.rest.1, h2.rest.2.1.trans h1.rest.2.1,
    h2.rest.2.2.1.trans h1.rest.2.2.1, h2.rest.2.2.2.1.trans h1.rest.2.2.2.1,
    h2.rest.2.2.2.2.trans h1.rest.2.2.2.2⟩

theorem UnlinkPost.keep {env : Env} {s s1 : State} {it : Nat} (h : UnlinkPost env s s1 it) :
    SweepKeep s s1 :=
  ⟨fun x => (h.time x).1, fun x => (h.time x).2, h.rest⟩

theorem recent_keep {s s1 : State} (h : SweepKeep s s1) : recent s1 = recent s := by
  funext x
  simp only [recent, h.time x, h.rest.2.2.1]

theorem Inv.erase_other {s : State} {L : Nat → List Nat} (hI : Inv s L) {c c1 x : Nat}
    (hx : x ∈ L c) (hc : c1 ≠ c) : (L c1).erase x = L c1 := by
  apply List.erase_of_not_mem
  intro h
  exact hc (((hI.mem_iff c1 x).1 h).2.symm.trans ((hI.mem_iff c x).1 hx).2)

/-- The inner loop of the sweep on class `c`, given enough fuel: it unlinks
the items at the front of the list for as long as they are recent, and stops at
the first one that is not. -/
theorem flush_class_ok (env : Env) (c : Nat) : ∀ (fuel : Nat) (s : State)
    (L : Nat → List Nat), Inv s L → (L c).length ≤ fuel →
    ∃ s1, flush_class env fuel s (s.heads c) = .ok s1 ∧
      Inv s1 (Function.update L c ((L c).dropWhile (recent s))) ∧ SweepKeep s s1
  | 0, s, L, hI, hlen => by
    have hnil : L c = [] := List.length_eq_zero.1 (Nat.le_zero.1 hlen)
    have hh : s.heads c = 0 := by rw [(hI.ok c).1, hnil]; rfl
    refine ⟨s, by simp [flush_class, hh], ?_, SweepKeep.refl s⟩
    have : (L c).dropWhile (recent s) = L c := by rw [hnil]; rfl
    rw [this, Function.update_eq_self]
    exact hI
  | fuel + 1, s, L, hI, hlen => by
    by_cases hnil : L c = []
    · have hh : s.heads c = 0 := by rw [(hI.ok c).1, hnil]; rfl
      refine ⟨s, by simp [flush_class, hh], ?_, SweepKeep.refl s⟩
      have : (L c).dropWhile (recent s) = L c := by rw [hnil]; rfl
      rw [this, Function.update_eq_self]
      exact hI
    · obtain ⟨x, xs, hL⟩ := List.exists_cons_of_ne_nil hnil
      have hh : s.heads c = x := by rw [(hI.ok c).1, hL]; rfl
      have hxin : x ∈ L c := by rw [hL]; exact List.mem_cons_self _ _
      have hx0 : x ≠ 0 := listOk_ne_zero (hI.ok c) x hxin
      have hlk := (hI.mem_iff c x).1 hxin
      have hlive := hI.live x hlk.1
      have hsl := hI.slabbed x hlive
      by_cases hrec : (s.mem x).time ≥ s.oldest_live
      · obtain ⟨s1, hrun, hI1, hpost⟩ := item_unlink_ok env s L x hI hlive
        have hE : (L c).erase x = xs := by rw [hL]; simp
        have hnext : (s.mem x).next = s1.heads c := by
          have h1 := (hI.ok c).2.2.1
          rw [hL] at h1
          rw [h1.2.2.1, (hI1.ok c).1]
          show xs.headD 0 = ((L c).erase x).headD 0
          rw [hE]
        have hlen1 : ((fun c => (L c).erase x) c).length ≤ fuel := by
          show ((L c).erase x).length ≤ fuel
          rw [hE]; rw [hL] at hlen; simpa using hlen
        obtain ⟨s2, hrun2, hI2, hk2⟩ := flush_class_ok env c fuel s1 _ hI1 hlen1
        refine ⟨s2, ?_, ?_, hpost.keep.trans hk2⟩
        · simp only [flush_class, hh, if_neg hx0, if_pos hrec, hsl, if_true, hrun, hnext]
          exact hrun2
        · have hupd : Function.update (fun c => (L c).erase x) c
              (((fun c => (L c).erase x) c).dropWhile (recent s1)) =
              Function.update L c ((L c).dropWhile (recent s)) := by
            funext c1
            by_cases hc : c1 = c
            · subst hc
              simp only [Function.update_same]
              rw [hE, recent_keep hpost.keep, hL, List.dropWhile_cons]
              simp [recent, hrec]
            · rw [Function.update_noteq hc, Function.update_noteq hc]
              exact hI.erase_other hxin hc
          rw [hupd] at hI2
          exact hI2
      · refine ⟨s, by simp [flush_class, hh, hx0, hrec], ?_, SweepKeep.refl s⟩
        have : (L c).dropWhile (recent s) = L c := by
          rw [hL, List.dropWhile_cons]
          simp [recent, hrec]
        rw [this, Function.update_eq_self]
        exact hI

/-- The outer loop of the sweep over the classes `cs`. -/
theorem flush_loop_ok (env : Env) (fuel : Nat) : ∀ (cs : List Nat) (s : State)
    (L : Nat → List Nat), Inv s L → (∀ c ∈ cs, (L c).length ≤ fuel) → cs.Nodup →
    ∃ s1, flush_loop env fuel cs s = .ok s1 ∧
      Inv s1 (fun c => if c ∈ cs then (L c).dropWhile (recent s) else L c) ∧ SweepKeep s s1
  | [], s, L, hI, _, _ => ⟨s, rfl, by simpa using hI, SweepKeep.refl s⟩
  | c :: cs, s, L, hI, hlen, hnd => by
    obtain ⟨s1, hrun1, hI1, hk1⟩ := flush_class_ok env c fuel s L hI
      (hlen c (List.mem_cons_self _ _))
    obtain ⟨hc, hnd⟩ := List.nodup_cons.1 hnd
    obtain ⟨s2, hrun2, hI2, hk2⟩ := flush_loop_ok env fuel cs s1 _ hI1 (by
      intro c1 h1
      have hne : c1 ≠ c := fun h => hc (h ▸ h1)
      rw [Function.update_noteq hne]
      exact hlen c1 (List.mem_cons_of_mem _ h1)) hnd
    refine ⟨s2, by simp only [flush_loop, hrun1]; exact hrun2, ?_, hk1.trans hk2⟩
    have : (fun c1 => if c1 ∈ cs then
        (Function.update L c ((L c).dropWhile (recent s)) c1).dropWhile (recent s1)
        else Function.update L c ((L c).dropWhile (recent s)) c1) =
        (fun c1 => if c1 ∈ c :: cs then (L c1).dropWhile (recent s) else L c1) := by
      funext c1
      by_cases h1 : c1 = c
      · subst h1
        simp [hc]
      · simp only [Function.update_noteq h1, List.mem_cons, h1, false_or, recent_keep hk1]
    rw [this] at hI2
    exact hI2

theorem Inv.nil_of_ge {s : State} {L : Nat → List Nat} (hI : Inv s L) (c : Nat)
    (hc : LARGEST_ID ≤ c) : L c = [] := by
  apply List.eq_nil_iff_forall_not_mem.2
  intro x hx
  have h := (hI.mem_iff c x).1 hx
  have := (hI.cls x (hI.live x h.1)).2
  rw [h.2] at this
  exact absurd this (Nat.not_lt.2 hc)

/-- More fuel does not change the result of a sweep that returned. -/
theorem flush_class_mono (env : Env) (k : Nat) : ∀ (fuel : Nat) (s : State) (iter : Nat)
    (s1 : State), flush_class env fuel s iter = .ok s1 →
    flush_class env (fuel + k) s iter = .ok s1
  | 0, s, iter, s1, h => by
    by_cases hi : iter = 0
    · subst hi
      simp only [flush_class, if_true] at h
      cases k <;> simpa [flush_class] using h
    · simp [flush_class, hi] at h
  | fuel + 1, s, iter, s1, h => by
    rw [show fuel + 1 + k = (fuel + k) + 1 by omega]
    simp only [flush_class] at h ⊢
    by_cases hi : iter = 0
    · rw [if_pos hi] at h ⊢; exact h
    · rw [if_neg hi] at h ⊢
      by_cases hr : (s.mem iter).time ≥ s.oldest_live
      · rw [if_pos hr] at h ⊢
        by_cases hsl : (s.mem iter).it_flags.slabbed = false
        · rw [if_pos hsl] at h ⊢
          cases hu : item_unlink env s iter with
          | error e => rw [hu] at h; simp at h
          | ok s2 =>
            rw [hu] at h
            simp only [] at h ⊢
            exact flush_class_mono env k fuel s2 _ s1 h
        · rw [if_neg hsl] at h ⊢
          exact flush_class_mono env k fuel s _ s1 h
      · rw [if_neg hr] at h ⊢; exact h

theorem flush_loop_mono (env : Env) (fuel k : Nat) : ∀ (cs : List Nat) (s s1 : State),
    flush_loop env fuel cs s = .ok s1 → flush_loop env (fuel + k) cs s = .ok s1
  | [], s, s1, h => h
  | c :: cs, s, s1, h => by
    simp only [flush_loop] at h ⊢
    cases hc : flush_class env fuel s (s.heads c) with
    | error e => rw [hc] at h; simp at h
    | ok s2 =>
      rw [hc] at h
      rw [flush_class_mono env k fuel s _ s2 hc]
      simp only [] at h ⊢
      exact flush_loop_mono env fuel k cs s2 s1 h

/-- The length of the longest class list. -/
def maxLen (L : Nat → List Nat) : Nat → Nat
  | 0 => 0
  | n + 1 => max (maxLen L n) (L n).length

theorem le_maxLen (L : Nat → List Nat) : ∀ (n c : Nat), c < n → (L c).length ≤ maxLen L n
  | 0, c, h => absurd h (Nat.not_lt_zero c)
  | n + 1, c, h => by
    rcases Nat.lt_succ_iff_lt_or_eq.1 h with h | h
    · exact le_trans (le_maxLen L n c h) (le_max_left _ _)
    · subst h; exact le_max_right _ _

/-- `item_flush_expired` with a cutoff set and enough fuel: every class list
loses its front items for as long as they are recent. -/
theorem item_flush_expired_ok (env : Env) (fuel : Nat) (s : State) (L : Nat → List Nat)
    (hI : Inv s L) (hfuel : ∀ c, (L c).length ≤ fuel) (hcut : s.oldest_live ≠ 0) :
    ∃ s1, item_flush_expired env fuel s = .ok s1 ∧
      Inv s1 (fun c => (L c).dropWhile (recent s)) ∧ SweepKeep s s1 := by
  obtain ⟨s1, hrun, hI1, hk⟩ := flush_loop_ok env fuel (List.range LARGEST_ID) s L hI
    (fun c _ => hfuel c) (List.nodup_range _)
  refine ⟨s1, by simp only [item_flush_expired, if_neg hcut]; exact hrun, ?_, hk⟩
  have : (fun c => if c ∈ List.range LARGEST_ID then (L c).dropWhile (recent s) else L c) =
      (fun c => (L c).dropWhile (recent s)) := by
    funext c
    by_cases hc : c < LARGEST_ID
    · simp [hc]
    · simp [hc, hI.nil_of_ge c (Nat.le_of_not_lt hc)]
  rw [this] at hI1
  exact hI1

/-- Every returning `item_flush_expired` keeps the invariant, whatever the fuel. -/
theorem item_flush_expired_inv (env : Env) (fuel : Nat) (s s1 : State) (L : Nat → List Nat)
    (hI : Inv s L) (hrun : item_flush_expired env fuel s = .ok s1) :
    SweepKeep s s1 ∧
    ((s.oldest_live = 0 ∧ s1 = s ∧ Inv s1 L) ∨
     (s.oldest_live ≠ 0 ∧ Inv s1 (fun c => (L c).dropWhile (recent s)))) := by
  by_cases hcut : s.oldest_live = 0
  · simp only [item_flush_expired, if_pos hcut] at hrun
    have := Except.ok.inj hrun
    subst this
    exact ⟨SweepKeep.refl _, Or.inl ⟨hcut, rfl, hI⟩⟩
  · have hfuel : ∀ c, (L c).length ≤ fuel + maxLen L LARGEST_ID := by
      intro c
      by_cases hc : c < LARGEST_ID
      · exact le_trans (le_maxLen L _ c hc) (Nat.le_add_left _ _)
      · rw [hI.nil_of_ge c (Nat.le_of_not_lt hc)]; exact Nat.zero_le _
    obtain ⟨s2, hrun2, hI2, hk⟩ := item_flush_expired_ok env _ s L hI hfuel hcut
    simp only [item_flush_expired, if_neg hcut] at hrun hrun2
    have := flush_loop_mono env fuel (maxLen L LARGEST_ID) _ s s1 hrun
    rw [this] at hrun2
    have := Except.ok.inj hrun2
    subst this
    exact ⟨hk, Or.inr ⟨hcut, hI2⟩⟩

/-- `item_update` is given LINKED items only. -/
def Op.linkedUpdate (s : State) : Op → Prop
  | .update it => (s.mem it).it_flags.linked = true
  | _ => True

/-- A call on handed-out items, `item_update` on a LINKED one. -/
def Op.proper (env : Env) (s : State) (op : Op) : Prop := op.valid env s ∧ op.linkedUpdate s

/-- How one call changes the sequences: each list is a sublist of the old one,
possibly with one item put in front whose time stamp is the current time; the
other time stamps are unchanged. -/
structure StepShape (s s1 : State) (L L1 : Nat → List Nat) : Prop where
  lists : ∀ c, ((L1 c).Sublist (L c) ∧ ∀ x ∈ L1 c, (s1.mem x).time = (s.mem x).time) ∨
    (∃ it l, L1 c = it :: l ∧ l.Sublist (L c) ∧ (s1.mem it).time = s.current_time ∧
      ∀ x ∈ l, (s1.mem x).time = (s.mem x).time)

theorem StepShape.same {s s1 : State} (L : Nat → List Nat)
    (h : ∀ x, (s1.mem x).time = (s.mem x).time) : StepShape s s1 L L :=
  ⟨fun _ => Or.inl ⟨List.Sublist.refl _, fun x _ => h x⟩⟩

theorem StepShape.erase {s s1 : State} (L : Nat → List Nat) (v : Nat)
    (h : ∀ x, (s1.mem x).time = (s.mem x).time) :
    StepShape s s1 L (fun c => (L c).erase v) :=
  ⟨fun _ => Or.inl ⟨List.erase_sublist _ _, fun x _ => h x⟩⟩

theorem step_link (env : Env) (s s1 : State) (L : Nat → List Nat) (it : Nat) (hI : Inv s L)
    (hv : s.slab_live it = true) (hrun : run env s (.link it) = .ok s1) :
    ∃ L1, Inv s1 L1 ∧ StepShape s s1 L L1 ∧ s1.current_time = s.current_time := by
  simp only [run] at hrun
  by_cases h194 : (s.mem it).it_flags.linked = true ∨ (s.mem it).it_flags.slabbed = true
  · simp [item_link, h194, Except.map] at hrun
  by_cases h195 : (s.mem it).nbytes < 1048576
  · have hlk : (s.mem it).it_flags.linked = false := by
      simpa using fun h => h194 (Or.inl h)
    obtain ⟨s2, h2, hI2, hp⟩ := item_link_ok env s L it hI hv hlk h195
    rw [h2] at hrun
    have := Except.ok.inj hrun
    simp only [] at this
    subst this
    refine ⟨_, hI2, ⟨?_⟩, hp.rest.2.1⟩
    intro c
    have htime : ∀ x, x ≠ it → (s2.mem x).time = (s.mem x).time := by
      intro x hx; rw [hp.others x hx]
    have hnot : ∀ c, it ∉ L c := fun c h => by
      have := ((hI.mem_iff c it).1 h).1
      rw [hlk] at this
      exact Bool.noConfusion this
    by_cases hc : c = (s.mem it).slabs_clsid
    · subst hc
      right
      refine ⟨it, L (s.mem it).slabs_clsid, by simp, List.Sublist.refl _, by rw [hp.self], ?_⟩
      intro x hx
      exact htime x (fun h => hnot _ (h ▸ hx))
    · left
      rw [Function.update_noteq hc]
      exact ⟨List.Sublist.refl _, fun x hx => htime x (fun h => hnot _ (h ▸ hx))⟩
  · simp [item_link, h194, h195, Except.map] at hrun

theorem step_unlink (env : Env) (s s1 : State) (L : Nat → List Nat) (it : Nat) (hI : Inv s L)
    (hv : s.slab_live it = true) (hrun : item_unlink env s it = .ok s1) :
    Inv s1 (fun c => (L c).erase it) ∧ UnlinkPost env s s1 it := by
  obtain ⟨s2, h2, hI2, hp⟩ := item_unlink_ok env s L it hI hv
  rw [h2] at hrun
  have := Except.ok.inj hrun
  subst this
  exact ⟨hI2, hp⟩

theorem step_remove (env : Env) (s s1 : State) (L : Nat → List Nat) (it : Nat) (hI : Inv s L)
    (hv : s.slab_live it = true) (hrun : item_remove env s it = .ok s1) :
    Inv s1 L ∧ (∀ x, (s1.mem x).time = (s.mem x).time) ∧ s1.current_time = s.current_time := by
  by_cases h223 : (s.mem it).it_flags.deleted = false ∨ (s.mem it).refcount - 1 ≠ 0
  · obtain ⟨s2, h2, hI2, hs2⟩ := item_remove_ok env s L it hI hv h223
    rw [h2] at hrun
    have := Except.ok.inj hrun
    subst this
    refine ⟨hI2, ?_, ?_⟩
    · intro x
      rw [hs2]
      split <;> by_cases hx : x = it <;> simp [store, hx]
    · rw [hs2]; split <;> rfl
  · exfalso
    have hsl := hI.slabbed it hv
    simp only [not_or, not_not] at h223
    have hd : (s.mem it).it_flags.deleted = true := by simpa using h223.1
    by_cases h0 : (s.mem it).refcount = 0
    · simp [item_remove, hsl, h0, hd] at hrun
    · have : (s.mem it).refcount - 1 = 0 := h223.2
      simp [item_remove, hsl, h0, hd, this] at hrun

theorem step_update (s s1 : State) (L : Nat → List Nat) (it : Nat) (hI : Inv s L)
    (hlk : (s.mem it).it_flags.linked = true) (hrun : item_update s it = .ok s1) :
    ∃ L1, Inv s1 L1 ∧ StepShape s s1 L L1 ∧ s1.current_time = s.current_time := by
  by_cases hold : (s.mem it).time < u32 ((s.current_time : Int) - ITEM_UPDATE_INTERVAL)
  · obtain ⟨s2, h2, hI2, hp⟩ := item_update_ok s L it hI hlk hold
    rw [h2] at hrun
    have := Except.ok.inj hrun
    subst this
    refine ⟨_, hI2, ⟨?_⟩, by rw [hp.rest]⟩
    have htime : ∀ x, x ≠ it → (s2.mem x).time = (s.mem x).time := by
      intro x hx; rw [hp.others x hx]
    have hnd := (hI.ok (s.mem it).slabs_clsid).2.2.2
    intro c
    by_cases hc : c = (s.mem it).slabs_clsid
    · subst hc
      right
      refine ⟨it, (L (s.mem it).slabs_clsid).erase it, by simp, List.erase_sublist _ _,
        by rw [hp.self], ?_⟩
      intro x hx
      exact htime x (hnd.mem_erase_iff.1 hx).1
    · left
      rw [Function.update_noteq hc]
      refine ⟨List.Sublist.refl _, fun x hx => htime x (fun h => ?_)⟩
      subst h
      exact hc ((hI.mem_iff c x).1 hx).2.symm
  · simp only [item_update, if_neg hold] at hrun
    have := Except.ok.inj hrun
    subst this
    exact ⟨L, hI, StepShape.same L (fun _ => rfl), rfl⟩

theorem step_replace (env : Env) (s s1 : State) (L : Nat → List Nat) (it new_it : Nat)
    (hI : Inv s L) (hv : s.slab_live it = true) (hn : s.slab_live new_it = true)
    (hrun : run env s (.replace it new_it) = .ok s1) :
    ∃ L1, Inv s1 L1 ∧ StepShape s s1 L L1 ∧ s1.current_time = s.current_time := by
  simp only [run, item_replace] at hrun
  have hsl := hI.slabbed it hv
  rw [if_neg (by simp [hsl])] at hrun
  obtain ⟨s2, h2, hI2, hp⟩ := item_unlink_ok env s L it hI hv
  rw [h2] at hrun
  simp only [] at hrun
  by_cases hsl2 : (s2.mem new_it).it_flags.slabbed = true
  · simp [item_link, hsl2, Except.map] at hrun
  have hlive2 : s2.slab_live new_it = true := by
    rw [hp.livef]
    by_cases hc : new_it = it ∧ (s.mem it).refcount = 0
    · exfalso
      apply hsl2
      rw [hc.1, hp.self, if_pos hc.2]
    · rw [if_neg hc]; exact hn
  obtain ⟨L1, hI1, hshape, hct⟩ := step_link env s2 s1 _ new_it hI2 hlive2 hrun
  refine ⟨L1, hI1, ⟨?_⟩, hct.trans hp.rest.2.1⟩
  intro c
  rcases hshape.lists c with ⟨h1, h2⟩ | ⟨x, l, h1, h2, h3, h4⟩
  · left
    exact ⟨h1.trans (List.erase_sublist _ _), fun x hx => (h2 x hx).trans (hp.time x).1⟩
  · right
    exact ⟨x, l, h1, h2.trans (List.erase_sublist _ _), h3.trans hp.rest.2.1,
      fun y hy => (h4 y hy).trans (hp.time y).1⟩

theorem step_flush (env : Env) (fuel : Nat) (s s1 : State) (L : Nat → List Nat)
    (hI : Inv s L) (hrun : item_flush_expired env fuel s = .ok s1) :
    ∃ L1, Inv s1 L1 ∧ StepShape s s1 L L1 ∧ s1.current_time = s.current_time := by
  obtain ⟨hk, h | h⟩ := item_flush_expired_inv env fuel s s1 L hI hrun
  · exact ⟨L, h.2.2, StepShape.same L hk.time, hk.rest.2.1⟩
  · exact ⟨_, h.2, ⟨fun c => Or.inl ⟨List.dropWhile_sublist _, fun x _ => hk.time x⟩⟩,
      hk.rest.2.1⟩

/-- One admitted call that returns keeps the invariant, and changes the
sequences only by dropping items and by putting one item in front. -/
theorem step_inv (env : Env) (s s1 : State) (L : Nat → List Nat) (op : Op) (hI : Inv s L)
    (hP : op.proper env s) (hrun : run env s op = .ok s1) :
    ∃ L1, Inv s1 L1 ∧ StepShape s s1 L L1 ∧
      ((∀ t, op ≠ .tick t) → s1.current_time = s.current_time) := by
  cases op with
  | alloc key nkey flags exptime nbytes r1 r2 =>
    simp only [run] at hrun
    cases ha : item_alloc env s key nkey flags exptime nbytes r1 r2 with
    | error e => rw [ha] at hrun; simp [Except.map] at hrun
    | ok p =>
      obtain ⟨it, s2⟩ := p
      rw [ha] at hrun
      have := Except.ok.inj hrun
      simp only [] at this
      subst this
      obtain ⟨L1, hI1, hL, ht, hc, _, _⟩ := item_alloc_inv env s L key nkey flags exptime nbytes
        r1 r2 it s2 hI hP.1 ha
      refine ⟨L1, hI1, ?_, fun _ => hc⟩
      rcases hL with rfl | ⟨v, _, _, _, rfl⟩
      · exact StepShape.same _ ht
      · exact StepShape.erase _ v ht
  | link it =>
    obtain ⟨L1, h1, h2, h3⟩ := step_link env s s1 L it hI hP.1 hrun
    exact ⟨L1, h1, h2, fun _ => h3⟩
  | unlink it =>
    obtain ⟨h1, h2⟩ := step_unlink env s s1 L it hI hP.1 hrun
    exact ⟨_, h1, StepShape.erase _ it (fun x => (h2.time x).1), fun _ => h2.rest.2.1⟩
  | remove it =>
    obtain ⟨h1, h2, h3⟩ := step_remove env s s1 L it hI hP.1 hrun
    exact ⟨L, h1, StepShape.same _ h2, fun _ => h3⟩
  | update it =>
    obtain ⟨L1, h1, h2, h3⟩ := step_update s s1 L it hI hP.2 hrun
    exact ⟨L1, h1, h2, fun _ => h3⟩
  | replace it new_it =>
    obtain ⟨L1, h1, h2, h3⟩ := step_replace env s s1 L it new_it hI hP.1.1 hP.1.2 hrun
    exact ⟨L1, h1, h2, fun _ => h3⟩
  | flush fuel =>
    obtain ⟨L1, h1, h2, h3⟩ := step_flush env fuel s s1 L hI hrun
    exact ⟨L1, h1, h2, fun _ => h3⟩
  | tick t =>
    have := Except.ok.inj hrun
    subst this
    exact ⟨L, hI.congr rfl rfl rfl rfl, StepShape.same _ (fun _ => rfl),
      fun h => absurd rfl (h t)⟩
  | hold it =>
    have := Except.ok.inj hrun
    subst this
    refine ⟨L, hI.store _ it _ rfl rfl rfl rfl ⟨rfl, rfl, rfl, rfl⟩, StepShape.same _ ?_,
      fun _ => rfl⟩
    intro x
    by_cases hx : x = it
    · subst hx; simp [store]
    · simp [store, hx]
  | set_oldest_live t =>
    have := Except.ok.inj hrun
    subst this
    exact ⟨L, hI.congr rfl rfl rfl rfl, StepShape.same _ (fun _ => rfl), fun _ => rfl⟩
  | set_evict_to_free b =>
    have := Except.ok.inj hrun
    subst this
    exact ⟨L, hI.congr rfl rfl rfl rfl, StepShape.same _ (fun _ => rfl), fun _ => rfl⟩

theorem inv_init : Inv (item_init startup) (fun _ => []) := by
  refine ⟨?_, ?_, ?_, rfl, ?_, ?_, ?_⟩
  · intro c
    refine ⟨?_, ?_, trivial, List.nodup_nil⟩
    · simp [item_init, startup]
    · simp [item_init, startup]
  · intro c x; simp [item_init, startup, Item.zero]
  · intro x h; simp [item_init, startup, Item.zero] at h
  · intro x h; simp [item_init, startup] at h
  · intro x _; rfl
  · intro x _; rfl

/-- In every state reached by admitted calls, each class list is a well-formed
sequence and the flags agree with it. -/
theorem reach_inv (env : Env) (P : State → Op → Prop)
    (hP : ∀ s op, P s op → op.proper env s) (s : State) (h : Reach env P s) :
    ∃ L, Inv s L := by
  induction h with
  | init => exact ⟨_, inv_init⟩
  | step s s1 op _ hp hrun ih =>
    obtain ⟨L, hI⟩ := ih
    obtain ⟨L1, hI1, _⟩ := step_inv env s s1 L op hI (hP s op hp) hrun
    exact ⟨L1, hI1⟩

/-- Run a sequence of calls. -/
def runs (env : Env) : State → List Op → Except Nat State
  | s, [] => .ok s
  | s, op :: ops =>
    match run env s op with
    | .error e => .error e
    | .ok s1 => runs env s1 ops

/-- The state after `item_init` at startup and a sequence of calls (the state
after `item_init` alone when an assertion fails on the way). -/
def stateAfter (env : Env) (ops : List Op) : State :=
  match runs env (item_init startup) ops with
  | .ok s => s
  | .error _ => item_init startup

/-- Every call of the sequence is admitted by `P` in the state it is made in,
and none fails. -/
def pathOk (env : Env) (P : State → Op → Prop) : State → List Op → Prop
  | _, [] => True
  | s, op :: ops =>
    P s op ∧
    match run env s op with
    | .error _ => False
    | .ok s1 => pathOk env P s1 ops

instance Op.valid.decide (env : Env) (s : State) : ∀ op : Op, Decidable (op.valid env s)
  | .alloc _ nkey flags _ nbytes _ _ =>
    (inferInstance : Decidable
      (env.slabs_clsid (item_make_header env (nkey + 1) flags nbytes).2.2 < LARGEST_ID))
  | .link it => (inferInstance : Decidable (s.slab_live it = true))
  | .unlink it => (inferInstance : Decidable (s.slab_live it = true))
  | .remove it => (inferInstance : Decidable (s.slab_live it = true))
  | .update it => (inferInstance : Decidable (s.slab_live it = true))
  | .replace it new_it =>
    (inferInstance : Decidable (s.slab_live it = true ∧ s.slab_live new_it = true))
  | .hold it => (inferInstance : Decidable (s.slab_live it = true))
  | .flush _ => isTrue trivial
  | .tick _ => isTrue trivial
  | .set_oldest_live _ => isTrue trivial
  | .set_evict_to_free _ => isTrue trivial

instance pathOk.decide (env : Env) (P : State → Op → Prop) [∀ s op, Decidable (P s op)] :
    ∀ (s : State) (ops : List Op), Decidable (pathOk env P s ops)
  | _, [] => isTrue trivial
  | s, op :: ops =>
    match h : run env s op with
    | .error e =>
      isFalse (fun hp => by
        have := hp.2
        rw [h] at this
        exact this)
    | .ok s1 =>
      match pathOk.decide env P s1 ops with
      | isTrue h1 =>
        if hP : P s op then isTrue ⟨hP, by rw [h]; exact h1⟩
        else isFalse (fun hp => hP hp.1)
      | isFalse h1 => isFalse (fun hp => by
        have := hp.2
        rw [h] at this
        exact h1 this)

theorem reach_runs (env : Env) (P : State → Op → Prop) : ∀ (ops : List Op) (s : State),
    Reach env P s → pathOk env P s ops →
    Reach env P (match runs env s ops with | .ok s1 => s1 | .error _ => item_init startup)
  | [], _, hs, _ => hs
  | op :: ops, s, hs, hp => by
    obtain ⟨hP, hrest⟩ := hp
    cases hr : run env s op with
    | error e => rw [hr] at hrest; exact hrest.elim
    | ok s1 =>
      rw [hr] at hrest
      have := reach_runs env P ops s1 (Reach.step s s1 op hs hP hr) hrest
      simpa only [runs, hr] using this

theorem reach_stateAfter (env : Env) (P : State → Op → Prop) (ops : List Op)
    (hp : pathOk env P (item_init startup) ops) : Reach env P (stateAfter env ops) :=
  reach_runs env P ops (item_init startup) Reach.init hp

/-- A small allocator for examples: one class for everything up to 1 MiB. -/
def env0 : Env :=
  { sizeof_item := 48, slabs_clsid := fun n => if 0 < n ∧ n ≤ 1048576 then 1 else 0 }

theorem alloc_step_err (s : State) (L : Nat → List Nat) (r id : Nat) (key : List Char)
    (nkey exptime : Nat) (nbytes : Int) (suffix : List Char) (nsuffix : Nat)
    (hI : Inv s L) (hid : 0 < id ∧ id < LARGEST_ID) (e : Nat)
    (hrun : alloc_step s r id key nkey exptime nbytes suffix nsuffix = .error e) : e = 1 := by
  by_cases hc : r = 0 ∨ s.slab_live r = false
  · obtain ⟨s1, h1, _⟩ := alloc_step_ok s L r id key nkey exptime nbytes suffix nsuffix hI hid hc
    rw [h1] at hrun
    exact Except.noConfusion hrun
  · simp only [not_or] at hc
    have hl : s.slab_live r = true := by simpa using hc.2
    simp only [alloc_step, slabs_alloc, if_neg hc.1, hl, if_true] at hrun
    exact (Except.error.inj hrun).symm

/-- Under the invariant `item_alloc` fails no assertion: the only error is an
answer of the allocator outside its contract. -/
theorem item_alloc_err (env : Env) (s : State) (L : Nat → List Nat) (key : List Char)
    (nkey : Nat) (flags : Int) (exptime : Nat) (nbytes : Int) (r1 r2 e : Nat)
    (hI : Inv s L)
    (hid : env.slabs_clsid (item_make_header env (nkey + 1) flags nbytes).2.2 < LARGEST_ID)
    (hrun : item_alloc env s key nkey flags exptime nbytes r1 r2 = .error e) : e = 1 := by
  by_cases hz : env.slabs_clsid (item_make_header env (nkey + 1) flags nbytes).2.2 = 0
  · simp only [item_alloc, if_pos hz] at hrun
    exact Except.noConfusion hrun
  have hid2 : 0 < env.slabs_clsid (item_make_header env (nkey + 1) flags nbytes).2.2 ∧
      env.slabs_clsid (item_make_header env (nkey + 1) flags nbytes).2.2 < LARGEST_ID :=
    ⟨Nat.pos_of_ne_zero hz, hid⟩
  by_cases hr1 : r1 = 0
  · subst hr1
    rw [item_alloc_null_eq env s key nkey flags exptime nbytes r2 hz] at hrun
    split at hrun
    · exact Except.noConfusion hrun
    split at hrun
    · exact Except.noConfusion hrun
    split at hrun
    · exact Except.noConfusion hrun
    rcases evict_phase env { s with slab_allocs := s.slab_allocs + 1 } L
      (env.slabs_clsid (item_make_header env (nkey + 1) flags nbytes).2.2) hI.bump with
      ⟨_, hscan⟩ | ⟨v, s2, _, hscan, hI2, _⟩
    · rw [show (s.tails (env.slabs_clsid (item_make_header env (nkey + 1) flags nbytes).2.2))
        = ({ s with slab_allocs := s.slab_allocs + 1 } : State).tails
          (env.slabs_clsid (item_make_header env (nkey + 1) flags nbytes).2.2) from rfl,
        hscan] at hrun
      exact alloc_step_err _ L _ _ _ _ _ _ _ _ hI.bump hid2 e hrun
    · rw [show (s.tails (env.slabs_clsid (item_make_header env (nkey + 1) flags nbytes).2.2))
        = ({ s with slab_allocs := s.slab_allocs + 1 } : State).tails
          (env.slabs_clsid (item_make_header env (nkey + 1) flags nbytes).2.2) from rfl,
        hscan] at hrun
      exact alloc_step_err _ _ _ _ _ _ _ _ _ _ hI2 hid2 e hrun
  · rw [item_alloc_first_eq env s key nkey flags exptime nbytes r1 r2 hz hr1] at hrun
    exact alloc_step_err _ L _ _ _ _ _ _ _ _ hI hid2 e hrun

theorem item_link_err (env : Env) (s : State) (L : Nat → List Nat) (it e : Nat) (hI : Inv s L)
    (hv : s.slab_live it = true) (hrun : item_link env s it = .error e) :
    e = 194 ∨ e = 195 := by
  by_cases h194 : (s.mem it).it_flags.linked = true ∨ (s.mem it).it_flags.slabbed = true
  · left
    simp only [item_link, if_pos h194] at hrun
    exact (Except.error.inj hrun).symm
  by_cases h195 : (s.mem it).nbytes < 1048576
  · have hlk : (s.mem it).it_flags.linked = false := by
      simpa using fun h => h194 (Or.inl h)
    obtain ⟨s2, h2, _⟩ := item_link_ok env s L it hI hv hlk h195
    rw [h2] at hrun
    exact Except.noConfusion hrun
  · right
    simp only [item_link, if_neg h194, h195, not_false_eq_true, if_true] at hrun
    exact (Except.error.inj hrun).symm

theorem item_remove_err (env : Env) (s : State) (L : Nat → List Nat) (it e : Nat)
    (hI : Inv s L) (hv : s.slab_live it = true) (hrun : item_remove env s it = .error e) :
    e = 223 := by
  by_cases h223 : (s.mem it).it_flags.deleted = false ∨ (s.mem it).refcount - 1 ≠ 0
  · obtain ⟨s2, h2, _⟩ := item_remove_ok env s L it hI hv h223
    rw [h2] at hrun
    exact Except.noConfusion hrun
  · have hsl := hI.slabbed it hv
    simp only [not_or, not_not] at h223
    have hd : (s.mem it).it_flags.deleted = true := by simpa using h223.1
    by_cases h0 : (s.mem it).refcount = 0
    · simp [item_remove, hsl, h0, hd] at hrun
      exact hrun.symm
    · have : (s.mem it).refcount - 1 = 0 := h223.2
      simp [item_remove, hsl, h0, hd, this] at hrun
      exact hrun.symm

theorem flush_class_inv (env : Env) (c fuel : Nat) (s s1 : State) (L : Nat → List Nat)
    (hI : Inv s L) (hrun : flush_class env fuel s (s.heads c) = .ok s1) :
    Inv s1 (Function.update L c ((L c).dropWhile (recent s))) ∧ SweepKeep s s1 := by
  obtain ⟨s2, h2, hI2, hk⟩ := flush_class_ok env c (fuel + (L c).length) s L hI
    (Nat.le_add_left _ _)
  rw [flush_class_mono env (L c).length fuel s _ s1 hrun] at h2
  have := Except.ok.inj h2
  subst this
  exact ⟨hI2, hk⟩

/-- Under the invariant the inner loop of the sweep fails no assertion; it can
only run out of fuel. -/
theorem flush_class_err (env : Env) (c e : Nat) : ∀ (fuel : Nat) (s : State)
    (L : Nat → List Nat), Inv s L →
    flush_class env fuel s (s.heads c) = .error e → e = 0
  | 0, s, L, _, hrun => by
    simp only [flush_class] at hrun
    split at hrun
    · exact Except.noConfusion hrun
    · exact (Except.error.inj hrun).symm
  | fuel + 1, s, L, hI, hrun => by
    by_cases hnil : L c = []
    · have hh : s.heads c = 0 := by rw [(hI.ok c).1, hnil]; rfl
      simp [flush_class, hh] at hrun
    · obtain ⟨x, xs, hL⟩ := List.exists_cons_of_ne_nil hnil
      have hh : s.heads c = x := by rw [(hI.ok c).1, hL]; rfl
      have hxin : x ∈ L c := by rw [hL]; exact List.mem_cons_self _ _
      have hx0 : x ≠ 0 := listOk_ne_zero (hI.ok c) x hxin
      have hlk := (hI.mem_iff c x).1 hxin
      have hlive := hI.live x hlk.1
      have hsl := hI.slabbed x hlive
      by_cases hrec : (s.mem x).time ≥ s.oldest_live
      · obtain ⟨s1, hrun1, hI1, _⟩ := item_unlink_ok env s L x hI hlive
        have hE : (L c).erase x = xs := by rw [hL]; simp
        have hnext : (s.mem x).next = s1.heads c := by
          have h1 := (hI.ok c).2.2.1
          rw [hL] at h1
          rw [h1.2.2.1, (hI1.ok c).1]
          show xs.headD 0 = ((L c).erase x).headD 0
          rw [hE]
        simp only [flush_class, hh, if_neg hx0, if_pos hrec, hsl, if_true, hrun1, hnext]
          at hrun
        exact flush_class_err env c e fuel s1 _ hI1 hrun
      · simp [flush_class, hh, hx0, hrec] at hrun

theorem flush_loop_err (env : Env) (fuel e : Nat) : ∀ (cs : List Nat) (s : State)
    (L : Nat → List Nat), Inv s L → flush_loop env fuel cs s = .error e → e = 0
  | [], _, _, _, hrun => Except.noConfusion hrun
  | c :: cs, s, L, hI, hrun => by
    simp only [flush_loop] at hrun
    cases hc : flush_class env fuel s (s.heads c) with
    | error e1 =>
      rw [hc] at hrun
      have := Except.error.inj hrun
      subst this
      exact flush_class_err env c _ fuel s L hI hc
    | ok s1 =>
      rw [hc] at hrun
      exact flush_loop_err env fuel e cs s1 _ (flush_class_inv env c fuel s s1 L hI hc).1 hrun

/-- The errors an admitted call can end in, under the invariant: out of fuel
(0), an allocator answer outside its contract (1), or an entry assertion of
`item_link` (194, 195) or of `item_remove` (223). -/
theorem run_err (env : Env) (s : State) (L : Nat → List Nat) (op : Op) (e : Nat)
    (hI : Inv s L) (hP : op.proper env s) (hrun : run env s op = .error e) :
    e = 0 ∨ e = 1 ∨ e = 194 ∨ e = 195 ∨ e = 223 := by
  cases op with
  | alloc key nkey flags exptime nbytes r1 r2 =>
    simp only [run] at hrun
    cases ha : item_alloc env s key nkey flags exptime nbytes r1 r2 with
    | error e1 =>
      rw [ha] at hrun
      have := Except.error.inj hrun
      subst this
      exact Or.inr (Or.inl (item_alloc_err env s L key nkey flags exptime nbytes r1 r2 _
        hI hP.1 ha))
    | ok p => rw [ha] at hrun; exact Except.noConfusion hrun
  | link it =>
    simp only [run] at hrun
    cases ha : item_link env s it with
    | error e1 =>
      rw [ha] at hrun
      have := Except.error.inj hrun
      subst this
      rcases item_link_err env s L it _ hI hP.1 ha with h | h
      · exact Or.inr (Or.inr (Or.inl h))
      · exact Or.inr (Or.inr (Or.inr (Or.inl h)))
    | ok p => rw [ha] at hrun; exact Except.noConfusion hrun
  | unlink it =>
    obtain ⟨s1, h1, _⟩ := item_unlink_ok env s L it hI hP.1
    simp only [run, h1] at hrun
    exact Except.noConfusion hrun
  | remove it =>
    exact Or.inr (Or.inr (Or.inr (Or.inr (item_remove_err env s L it e hI hP.1 hrun))))
  | update it =>
    simp only [run] at hrun
    by_cases hold : (s.mem it).time < u32 ((s.current_time : Int) - ITEM_UPDATE_INTERVAL)
    · obtain ⟨s1, h1, _⟩ := item_update_ok s L it hI hP.2 hold
      rw [h1] at hrun
      exact Except.noConfusion hrun
    · simp only [item_update, if_neg hold] at hrun
      exact Except.noConfusion hrun
  | replace it new_it =>
    simp only [run, item_replace] at hrun
    have hsl := hI.slabbed it hP.1.1
    rw [if_neg (by simp [hsl])] at hrun
    obtain ⟨s2, h2, hI2, hp⟩ := item_unlink_ok env s L it hI hP.1.1
    rw [h2] at hrun
    simp only [] at hrun
    cases ha : item_link env s2 new_it with
    | error e1 =>
      rw [ha] at hrun
      have := Except.error.inj hrun
      subst this
      by_cases hsl2 : (s2.mem new_it).it_flags.slabbed = true
      · simp only [item_link, hsl2, or_true, if_true] at ha
        exact Or.inr (Or.inr (Or.inl (Except.error.inj ha).symm))
      · have hlive2 : s2.slab_live new_it = true := by
          rw [hp.livef]
          by_cases hc : new_it = it ∧ (s.mem it).refcount = 0
          · exfalso
            apply hsl2
            rw [hc.1, hp.self, if_pos hc.2]
          · rw [if_neg hc]; exact hP.1.2
        rcases item_link_err env s2 _ new_it _ hI2 hlive2 ha with h | h
        · exact Or.inr (Or.inr (Or.inl h))
        · exact Or.inr (Or.inr (Or.inr (Or.inl h)))
    | ok p => rw [ha] at hrun; exact Except.noConfusion hrun
  | flush fuel =>
    simp only [run, item_flush_expired] at hrun
    split at hrun
    · exact Except.noConfusion hrun
    · exact Or.inl (flush_loop_err env fuel e _ s L hI hrun)
  | tick t => exact Except.noConfusion hrun
  | hold it => exact Except.noConfusion hrun
  | set_oldest_live t => exact Except.noConfusion hrun
  | set_evict_to_free b => exact Except.noConfusion hrun

instance Op.linkedUpdate.decide (s : State) : ∀ op : Op, Decidable (op.linkedUpdate s)
  | .update it => (inferInstance : Decidable ((s.mem it).it_flags.linked = true))
  | .alloc _ _ _ _ _ _ _ => isTrue trivial
  | .link _ => isTrue trivial
  | .unlink _ => isTrue trivial
  | .remove _ => isTrue trivial
  | .replace _ _ => isTrue trivial
  | .hold _ => isTrue trivial
  | .flush _ => isTrue trivial
  | .tick _ => isTrue trivial
  | .set_oldest_live _ => isTrue trivial
  | .set_evict_to_free _ => isTrue trivial

instance Op.proper.decide (env : Env) (s : State) (op : Op) : Decidable (op.proper env s) :=
  (inferInstance : Decidable (op.valid env s ∧ op.linkedUpdate s))

/-- Example calls: a fresh item is given to `item_update` at time 100. -/
def opsFreshUpdate : List Op := [.alloc ['k'] 1 0 0 10 1 0, .tick 100, .update 1]

/-- Example calls: an item is allocated and linked. -/
def opsLinked : List Op := [.alloc ['k'] 1 0 0 10 1 0, .link 1]

/-- Example calls: two items are linked; the first is unlinked while held. -/
def opsOrphan : List Op :=
  [.alloc ['a'] 1 0 0 10 1 0, .link 1, .alloc ['b'] 1 0 0 10 2 0, .link 2, .hold 1, .unlink 1]

/-! ## `item_update` of an unlinked item and the assertions of `item_free` -/

/-- A fresh item given to `item_update` (no entry assertion of which fails) is
put at the head of its class's list with LINKED clear; the next `item_remove`
calls `item_free` on it with refcount 0 and LINKED clear, and the assertion of
line 130 (`it != heads[...]`) fails. -/
theorem fresh_update_remove_fails_130 :
    Reach env0 (Op.valid env0)
      (stateAfter env0 opsFreshUpdate) ∧
    Op.valid env0 (stateAfter env0 opsFreshUpdate)
      (.remove 1) ∧
    ((stateAfter env0 opsFreshUpdate).mem 1).refcount = 0 ∧
    ((stateAfter env0 opsFreshUpdate).mem 1).it_flags.linked
      = false ∧
    run env0 (stateAfter env0 opsFreshUpdate) (.remove 1)
      = .error 130 :=
  ⟨reach_stateAfter _ _ _ (by decide), by decide, by decide, by decide, rfl⟩

/-- In every state reachable from `item_init` by calls on handed-out items
whose assertions hold, `item_update` being given LINKED items only, no call
makes an assertion at the top of `item_free` fail (lines 129 to 132): the item
handed to `item_free` has refcount 0 and LINKED clear, and is neither the head
nor the tail of its class's list. -/
theorem item_free_asserts_proper (env : Env) (s : State) (op : Op)
    (hs : Reach env (Op.proper env) s) (hop : op.proper env s) :
    run env s op ≠ .error 129 ∧ run env s op ≠ .error 130 ∧
    run env s op ≠ .error 131 ∧ run env s op ≠ .error 132 := by
  obtain ⟨L, hI⟩ := reach_inv env _ (fun _ _ h => h) s hs
  have h := fun e => run_err env s L op e hI hop
  refine ⟨fun hr => ?_, fun hr => ?_, fun hr => ?_, fun hr => ?_⟩ <;>
    · have := h _ hr
      omega

/-! ## C2: LINKED equals list membership -/

/-- C2, as stated, fails: after `item_alloc` and an `item_update` of the fresh
item (no assertion fails), the item is the one member of the list of its class
and its LINKED flag is clear. -/
theorem C2_counterexample :
    Reach env0 (Op.valid env0)
      (stateAfter env0 opsFreshUpdate) ∧
    listOk (stateAfter env0 opsFreshUpdate) 1 [1] ∧
    ((stateAfter env0 opsFreshUpdate).mem 1).slabs_clsid
      = 1 ∧
    ((stateAfter env0 opsFreshUpdate).mem 1).it_flags.linked
      = false :=
  ⟨reach_stateAfter _ _ _ (by decide), by decide, by decide, by decide⟩

/-- C2, amended: in every state reachable from `item_init` by calls on
handed-out items whose assertions hold, `item_update` being given LINKED items
only, every class's list is a well-formed sequence (the one a walk from the
head yields), and an item is a member of the list of its own class exactly
when its LINKED flag is set, and a member of no other class's list. -/
theorem C2_linked_iff_member (env : Env) (s : State) (hs : Reach env (Op.proper env) s) :
    ∃ L : Nat → List Nat,
      (∀ c, listOk s c (L c) ∧ walk s.mem (L c).length (s.heads c) = L c) ∧
      ∀ x, (x ∈ L (s.mem x).slabs_clsid ↔ (s.mem x).it_flags.linked = true) ∧
        ∀ c, c ≠ (s.mem x).slabs_clsid → x ∉ L c := by
  obtain ⟨L, hI⟩ := reach_inv env _ (fun _ _ h => h) s hs
  refine ⟨L, fun c => ⟨hI.ok c, ?_⟩, fun x => ⟨?_, ?_⟩⟩
  · rw [(hI.ok c).1]
    exact walk_seg (L c) 0 _ (hI.ok c).2.2.1 (le_refl _)
  · rw [hI.mem_iff]
    exact ⟨fun h => h.1, fun h => ⟨h, rfl⟩⟩
  · intro c hc h
    exact hc ((hI.mem_iff c x).1 h).2.symm

/-- C2, amended, at a concrete state: two items linked, one of them unlinked
again while held. -/
theorem C2_witness :
    Reach env0 (Op.proper env0) (stateAfter env0 opsOrphan) ∧
    ∃ L : Nat → List Nat,
      (∀ c, listOk (stateAfter env0 opsOrphan) c (L c) ∧
        walk (stateAfter env0 opsOrphan).mem (L c).length
          ((stateAfter env0 opsOrphan).heads c) = L c) ∧
      ∀ x, (x ∈ L ((stateAfter env0 opsOrphan).mem x).slabs_clsid ↔
          ((stateAfter env0 opsOrphan).mem x).it_flags.linked = true) ∧
        ∀ c, c ≠ ((stateAfter env0 opsOrphan).mem x).slabs_clsid → x ∉ L c :=
  ⟨reach_stateAfter _ _ _ (by decide),
    C2_linked_iff_member env0 _ (reach_stateAfter _ _ _ (by decide))⟩

/-! ## C3: recency order -/

/-- The clock does not go back (and stays within `rel_time_t`). -/
def Op.clockMono (s : State) : Op → Prop
  | .tick t => s.current_time ≤ t ∧ t < 4294967296
  | _ => True

instance Op.clockMono.decide (s : State) : ∀ op : Op, Decidable (op.clockMono s)
  | .tick t => (inferInstance : Decidable (s.current_time ≤ t ∧ t < 4294967296))
  | .alloc _ _ _ _ _ _ _ => isTrue trivial
  | .link _ => isTrue trivial
  | .unlink _ => isTrue trivial
  | .remove _ => isTrue trivial
  | .update _ => isTrue trivial
  | .replace _ _ => isTrue trivial
  | .hold _ => isTrue trivial
  | .flush _ => isTrue trivial
  | .set_oldest_live _ => isTrue trivial
  | .set_evict_to_free _ => isTrue trivial

/-- The time stamps along a sequence do not increase. -/
def nonIncreasing (s : State) (l : List Nat) : Prop :=
  l.Pairwise (fun a b => (s.mem b).time ≤ (s.mem a).time)

instance nonIncreasing.decide (s : State) (l : List Nat) : Decidable (nonIncreasing s l) :=
  (inferInstance : Decidable (l.Pairwise (fun a b => (s.mem b).time ≤ (s.mem a).time)))

/-- Every list is in non-increasing time order and no time stamp of a list
member is ahead of the clock. -/
structure Ordered (s : State) (L : Nat → List Nat) : Prop where
  sorted : ∀ c, nonIncreasing s (L c)
  bound : ∀ c x, x ∈ L c → (s.mem x).time ≤ s.current_time

theorem step_ordered (s s1 : State) (L L1 : Nat → List Nat) (hO : Ordered s L)
    (hS : StepShape s s1 L L1) (hct : s.current_time ≤ s1.current_time) : Ordered s1 L1 := by
  refine ⟨fun c => ?_, fun c x hx => ?_⟩
  · rcases hS.lists c with ⟨h1, h2⟩ | ⟨it, l, h1, h2, h3, h4⟩
    · refine List.Pairwise.imp_of_mem ?_ ((hO.sorted c).sublist h1)
      intro a b ha hb hab
      rw [h2 a ha, h2 b hb]; exact hab
    · show (L1 c).Pairwise _
      rw [h1]
      refine List.pairwise_cons.2 ⟨?_, ?_⟩
      · intro x hx
        rw [h3, h4 x hx]
        exact hO.bound c x (h2.subset hx)
      · refine List.Pairwise.imp_of_mem ?_ ((hO.sorted c).sublist h2)
        intro a b ha hb hab
        rw [h4 a ha, h4 b hb]; exact hab
  · rcases hS.lists c with ⟨h1, h2⟩ | ⟨it, l, h1, h2, h3, h4⟩
    · rw [h2 x hx]
      exact le_trans (hO.bound c x (h1.subset hx)) hct
    · rw [h1] at hx
      rcases List.mem_cons.1 hx with rfl | hx
      · rw [h3]; exact hct
      · rw [h4 x hx]
        exact le_trans (hO.bound c x (h2.subset hx)) hct

theorem reach_ordered (env : Env) (s : State)
    (hs : Reach env (fun s op => op.proper env s ∧ op.clockMono s) s) :
    ∃ L, Inv s L ∧ Ordered s L := by
  induction hs with
  | init =>
    exact ⟨_, inv_init, ⟨fun _ => List.Pairwise.nil, fun c x hx => by simp at hx⟩⟩
  | step s s1 op _ hp hrun ih =>
    obtain ⟨L, hI, hO⟩ := ih
    obtain ⟨L1, hI1, hS, hct⟩ := step_inv env s s1 L op hI hp.1 hrun
    refine ⟨L1, hI1, step_ordered s s1 L L1 hO hS ?_⟩
    by_cases ht : ∃ t, op = .tick t
    · obtain ⟨t, rfl⟩ := ht
      have h1 := Except.ok.inj hrun
      have h2 : s.current_time ≤ t ∧ t < 4294967296 := hp.2
      rw [← h1]
      show s.current_time ≤ t % 4294967296
      rw [Nat.mod_eq_of_lt h2.2]
      exact h2.1
    · rw [hct (fun t h => ht ⟨t, h⟩)]

/-- A walk of at most `fuel` steps over a well-formed segment yields its first
`fuel` items. -/
theorem walk_seg_take {m : Nat → Item} : ∀ (l : List Nat) (p : Nat) (fuel : Nat),
    seg m p l 0 → walk m fuel (l.headD 0) = l.take fuel
  | _, _, 0, _ => by simp [walk]
  | [], _, fuel + 1, _ => by simp [walk]
  | x :: xs, p, fuel + 1, hs => by
    obtain ⟨h0, _, hn, ht⟩ := hs
    simp only [List.headD_cons, walk, if_neg h0, hn, List.take_succ_cons]
    rw [walk_seg_take xs x fuel ht]

/-- Example calls: an item given to `item_update` before it is linked, and
linked later, after another item. -/
def opsCycle : List Op :=
  [.alloc ['a'] 1 0 0 10 1 0, .link 1, .alloc ['b'] 1 0 0 10 2 0, .tick 100, .update 2,
    .alloc ['c'] 1 0 0 10 3 0, .link 3, .tick 200, .link 2]

/-- C3, as stated, fails: with a clock that never goes back, `item_update` of
an item that is not linked yet, then `item_link` of another item and of that
item (no assertion fails) give a list whose walk from the head is 2, 3, 2 with
time stamps 200, 100, 200. -/
theorem C3_counterexample :
    Reach env0 (fun s op => op.valid env0 s ∧ op.clockMono s) (stateAfter env0 opsCycle) ∧
    walk (stateAfter env0 opsCycle).mem 3 ((stateAfter env0 opsCycle).heads 1) = [2, 3, 2] ∧
    ((stateAfter env0 opsCycle).mem 2).time = 200 ∧
    ((stateAfter env0 opsCycle).mem 3).time = 100 ∧
    ¬ nonIncreasing (stateAfter env0 opsCycle)
      (walk (stateAfter env0 opsCycle).mem 3 ((stateAfter env0 opsCycle).heads 1)) :=
  ⟨reach_stateAfter _ _ _ (by decide), by decide, by decide, by decide, by decide⟩

/-- C3, amended: if the clock never goes back, then in every state reachable
from `item_init` by calls on handed-out items whose assertions hold,
`item_update` being given LINKED items only, a walk of any length from the head
of any class's list yields non-increasing time stamps. -/
theorem C3_recency_order (env : Env) (s : State)
    (hs : Reach env (fun s op => op.proper env s ∧ op.clockMono s) s) (c fuel : Nat) :
    nonIncreasing s (walk s.mem fuel (s.heads c)) := by
  obtain ⟨L, hI, hO⟩ := reach_ordered env s hs
  rw [(hI.ok c).1, walk_seg_take (L c) 0 fuel (hI.ok c).2.2.1]
  exact (hO.sorted c).sublist (List.take_sublist _ _)

/-- Example calls: three items linked at different times, the oldest touched
later. -/
def opsTouched : List Op :=
  [.alloc ['a'] 1 0 0 10 1 0, .link 1, .tick 50, .alloc ['b'] 1 0 0 10 2 0, .link 2,
    .tick 90, .alloc ['c'] 1 0 0 10 3 0, .link 3, .tick 200, .update 1]

/-- C3, amended, at a concrete state. -/
theorem C3_witness :
    Reach env0 (fun s op => op.proper env0 s ∧ op.clockMono s) (stateAfter env0 opsTouched) ∧
    walk (stateAfter env0 opsTouched).mem 5 ((stateAfter env0 opsTouched).heads 1)
      = [1, 3, 2] ∧
    nonIncreasing (stateAfter env0 opsTouched)
      (walk (stateAfter env0 opsTouched).mem 5 ((stateAfter env0 opsTouched).heads 1)) :=
  ⟨reach_stateAfter _ _ _ (by decide), by decide,
    C3_recency_order env0 _ (reach_stateAfter _ _ _ (by decide)) 1 5⟩

theorem listOk_unique {s : State} {c : Nat} {l l1 : List Nat} (h : listOk s c l)
    (h1 : listOk s c l1) : l = l1 := by
  have e := walk_seg l 0 (max l.length l1.length) h.2.2.1 (le_max_left _ _)
  have e1 := walk_seg l1 0 (max l.length l1.length) h1.2.2.1 (le_max_right _ _)
  rw [← h.1] at e
  rw [← h1.1] at e1
  exact e.symm.trans e1

/-- In a reachable state, sequences that describe the lists of the classes
below `LARGEST_ID` are the sequences of the invariant. -/
theorem inv_of_reach (env : Env) (s : State) (hs : Reach env (Op.proper env) s)
    (L : Nat → List Nat) (hL : ∀ c, c < LARGEST_ID → listOk s c (L c)) :
    Inv s (fun c => if c < LARGEST_ID then L c else []) := by
  obtain ⟨L1, hI⟩ := reach_inv env _ (fun _ _ h => h) s hs
  have : (fun c => if c < LARGEST_ID then L c else []) = L1 := by
    funext c
    by_cases hc : c < LARGEST_ID
    · simp only [hc, if_true]
      exact listOk_unique (hL c hc) (hI.ok c)
    · simp only [hc, if_false]
      exact (hI.nil_of_ge c (Nat.le_of_not_lt hc)).symm
  rw [this]
  exact hI

/-- Sequences for examples with class 1 only. -/
def only1 (l : List Nat) : Nat → List Nat := fun c => if c = 1 then l else []

theorem inv_example (ops : List Op) (l : List Nat)
    (hp : pathOk env0 (Op.proper env0) (item_init startup) ops)
    (hl : ∀ c, c < LARGEST_ID → listOk (stateAfter env0 ops) c (only1 l c)) :
    Inv (stateAfter env0 ops) (only1 l) := by
  have := inv_of_reach env0 _ (reach_stateAfter _ _ _ hp) (only1 l) hl
  have e : (fun c => if c < LARGEST_ID then only1 l c else []) = only1 l := by
    funext c
    by_cases hc : c < LARGEST_ID
    · simp [hc]
    · have : c ≠ 1 := fun h => hc (by rw [h]; decide)
      simp [hc, only1, this]
  rw [e] at this
  exact this

/-! ## C4: the touch threshold -/

theorem u32_sub_interval (t : Nat) (h1 : ITEM_UPDATE_INTERVAL ≤ t) (h2 : t < 4294967296) :
    u32 ((t : Int) - ITEM_UPDATE_INTERVAL) = t - 60 := by
  simp only [u32, ITEM_UPDATE_INTERVAL] at *
  omega

/-- Example calls: an item linked at time 0, the clock then at 60. -/
def opsAtSixty : List Op := [.alloc ['k'] 1 0 0 10 1 0, .link 1, .tick 60]

/-- C4, as stated, fails at the boundary: for a linked item with time stamp 0
and the clock at 60, `now - last_touch >= 60` holds and `item_update` changes
nothing. -/
theorem C4_counterexample :
    ((stateAfter env0 opsAtSixty).mem 1).it_flags.linked = true ∧
    (stateAfter env0 opsAtSixty).current_time - ((stateAfter env0 opsAtSixty).mem 1).time
      ≥ 60 ∧
    item_update (stateAfter env0 opsAtSixty) 1 = .ok (stateAfter env0 opsAtSixty) :=
  ⟨by decide, by decide, rfl⟩

/-- C4, amended: for every linked item of a well-formed state and every clock
value `now` with `60 <= now`, `item_update` moves the item to the head of its
class's list and sets its time stamp to `now` if `now - last_touch > 60`, and
changes nothing at all if `now - last_touch <= 60`. -/
theorem C4_touch_threshold (s : State) (L : Nat → List Nat) (it : Nat) (hI : Inv s L)
    (hlk : (s.mem it).it_flags.linked = true) (hnow : ITEM_UPDATE_INTERVAL ≤ s.current_time)
    (hclk : s.current_time < 4294967296) :
    ((s.mem it).time + 60 < s.current_time →
      ∃ s1, item_update s it = .ok s1 ∧
        Inv s1 (Function.update L (s.mem it).slabs_clsid
          (it :: (L (s.mem it).slabs_clsid).erase it)) ∧
        s1.heads (s.mem it).slabs_clsid = it ∧ (s1.mem it).time = s.current_time) ∧
    (s.current_time ≤ (s.mem it).time + 60 → item_update s it = .ok s) := by
  have hu := u32_sub_interval s.current_time hnow hclk
  constructor
  · intro h
    have hold : (s.mem it).time < u32 ((s.current_time : Int) - ITEM_UPDATE_INTERVAL) := by
      rw [hu]; omega
    obtain ⟨s1, h1, hI1, hp⟩ := item_update_ok s L it hI hlk hold
    refine ⟨s1, h1, hI1, ?_, by rw [hp.self]⟩
    have := (hI1.ok (s.mem it).slabs_clsid).1
    simpa using this
  · intro h
    have hold : ¬ (s.mem it).time < u32 ((s.current_time : Int) - ITEM_UPDATE_INTERVAL) := by
      rw [hu]; omega
    simp only [item_update, if_neg hold]

/-- Example calls: three items linked at times 0, 50 and 90; the clock at 200. -/
def opsThree : List Op :=
  [.alloc ['a'] 1 0 0 10 1 0, .link 1, .tick 50, .alloc ['b'] 1 0 0 10 2 0, .link 2,
    .tick 90, .alloc ['c'] 1 0 0 10 3 0, .link 3, .tick 200]

set_option maxRecDepth 100000 in
/-- C4, amended, at a concrete state: the list is 3, 2, 1 and item 1 is
touched at time 200. -/
theorem C4_witness :
    Inv (stateAfter env0 opsThree) (only1 [3, 2, 1]) ∧
    ((stateAfter env0 opsThree).mem 1).it_flags.linked = true ∧
    ITEM_UPDATE_INTERVAL ≤ (stateAfter env0 opsThree).current_time ∧
    (stateAfter env0 opsThree).current_time < 4294967296 ∧
    ((((stateAfter env0 opsThree).mem 1).time + 60 < (stateAfter env0 opsThree).current_time →
      ∃ s1, item_update (stateAfter env0 opsThree) 1 = .ok s1 ∧
        Inv s1 (Function.update (only1 [3, 2, 1])
          ((stateAfter env0 opsThree).mem 1).slabs_clsid
          (1 :: (only1 [3, 2, 1] ((stateAfter env0 opsThree).mem 1).slabs_clsid).erase 1)) ∧
        s1.heads ((stateAfter env0 opsThree).mem 1).slabs_clsid = 1 ∧
        (s1.mem 1).time = (stateAfter env0 opsThree).current_time) ∧
    ((stateAfter env0 opsThree).current_time ≤ ((stateAfter env0 opsThree).mem 1).time + 60 →
      item_update (stateAfter env0 opsThree) 1 = .ok (stateAfter env0 opsThree))) :=
  ⟨inv_example _ _ (by decide) (by decide), by decide, by decide, by decide,
    C4_touch_threshold _ _ 1 (inv_example _ _ (by decide) (by decide)) (by decide)
      (by decide) (by decide)⟩

/-! ## C5: the throttle law -/

/-- Example calls: an item linked at time 0 and touched at time 10. -/
def opsTouchTen : List Op := [.alloc ['k'] 1 0 0 10 1 0, .link 1, .tick 10, .update 1]

/-- Example calls: the same item touched again at time 20. -/
def opsTouchTwenty : List Op :=
  [.alloc ['k'] 1 0 0 10 1 0, .link 1, .tick 10, .update 1, .tick 20, .update 1]

/-- C5, the code at the failing input: the clock is below 60, so
`current_time - ITEM_UPDATE_INTERVAL` wraps around in `rel_time_t`; two
`item_update` calls on one linked item at times 10 and 20 both take the
repositioning branch and both rewrite the time stamp (to 10, then to 20). -/
theorem C5_wraparound_repositions_twice :
    pathOk env0 (Op.proper env0) (item_init startup) opsTouchTwenty ∧
    u32 ((10 : Int) - ITEM_UPDATE_INTERVAL) = 4294967246 ∧
    ((stateAfter env0 opsLinked).mem 1).time = 0 ∧
    ((stateAfter env0 opsTouchTen).mem 1).time = 10 ∧
    ((stateAfter env0 opsTouchTwenty).mem 1).time = 20 :=
  ⟨by decide, by decide, by decide, by decide, by decide⟩

/-! ## C6: eviction picks the coldest item without a holder -/

theorem victim_tail (s : State) (l : List Nat) (tries : Nat) (hl : l ≠ [])
    (h0 : (s.mem (l.getLastD 0)).refcount = 0) : victim s (tries + 1) l = some (l.getLastD 0) := by
  rcases List.eq_nil_or_concat l with rfl | ⟨l0, a, hla⟩
  · exact absurd rfl hl
  · rw [List.concat_eq_append] at hla
    subst hla
    have e : (l0 ++ [a]).getLastD 0 = a := by simp
    rw [e] at h0 ⊢
    simp [victim, candidates, h0]

/-- C6: when the first allocation attempt fails, eviction is enabled, and one
of the 50 items nearest the tail of the needed class has no holder, then
`item_alloc` returns, having unlinked exactly one item `v`: the candidates,
nearest the tail first, are `pre ++ v :: post` with every item of `pre` held
and `v` not held; every list is the old one without `v`, in the old order (so
all other items stay linked); and if the tail itself has no holder, `v` is the
tail.  The second answer `r2` of the allocator is `NULL`, a free buffer, or the
buffer of the evicted item. -/
theorem C6_evicts_coldest_unpinned (env : Env) (s : State) (L : Nat → List Nat)
    (key : List Char) (nkey : Nat) (flags : Int) (exptime : Nat) (nbytes : Int) (r2 : Nat)
    (hI : Inv s L)
    (hid : 0 < env.slabs_clsid (item_make_header env (nkey + 1) flags nbytes).2.2 ∧
      env.slabs_clsid (item_make_header env (nkey + 1) flags nbytes).2.2 < LARGEST_ID)
    (hev : s.evict_to_free = true)
    (hex : ∃ x, x ∈ candidates 50
      (L (env.slabs_clsid (item_make_header env (nkey + 1) flags nbytes).2.2)) ∧
      (s.mem x).refcount = 0)
    (hr2 : r2 = 0 ∨ s.slab_live r2 = false ∨
      victim s 50 (L (env.slabs_clsid (item_make_header env (nkey + 1) flags nbytes).2.2))
        = some r2) :
    ∃ v pre post s1,
      candidates 50 (L (env.slabs_clsid (item_make_header env (nkey + 1) flags nbytes).2.2))
        = pre ++ v :: post ∧
      (∀ x ∈ pre, (s.mem x).refcount ≠ 0) ∧ (s.mem v).refcount = 0 ∧
      item_alloc env s key nkey flags exptime nbytes 0 r2 = .ok (r2, s1) ∧
      Inv s1 (fun c => (L c).erase v) ∧
      (s1.mem v).it_flags.linked = false ∧
      ((s.mem (s.tails (env.slabs_clsid
          (item_make_header env (nkey + 1) flags nbytes).2.2))).refcount = 0 →
        v = s.tails (env.slabs_clsid (item_make_header env (nkey + 1) flags nbytes).2.2)) := by
  have hz : env.slabs_clsid (item_make_header env (nkey + 1) flags nbytes).2.2 ≠ 0 :=
    Nat.pos_iff_ne_zero.1 hid.1
  rcases evict_phase env { s with slab_allocs := s.slab_allocs + 1 } L
    (env.slabs_clsid (item_make_header env (nkey + 1) flags nbytes).2.2) hI.bump with
    ⟨hv, _⟩ | ⟨v, s2, hv, hscan, hI2, hpost⟩
  · exfalso
    obtain ⟨x, hx, hx0⟩ := hex
    have := List.find?_eq_none.1 hv x hx
    simp [hx0] at this
  have hv' : victim s 50 (L (env.slabs_clsid (item_make_header env (nkey + 1) flags
      nbytes).2.2)) = some v := hv
  obtain ⟨hvc, hvl, hv0⟩ := victim_some hv'
  obtain ⟨_, pre, post, hsplit, hpre⟩ := List.find?_eq_some.1 hv'
  have hne : L (env.slabs_clsid (item_make_header env (nkey + 1) flags nbytes).2.2) ≠ [] :=
    List.ne_nil_of_mem hvl
  have htail : s.tails (env.slabs_clsid (item_make_header env (nkey + 1) flags nbytes).2.2)
      ≠ 0 := by
    rw [(hI.ok _).2.1]
    exact listOk_ne_zero (hI.ok _) _ (getLastD_mem_of_ne_nil _ 0 hne)
  have hguard : evict_guard (env.slabs_clsid (item_make_header env (nkey + 1) flags
      nbytes).2.2) = false := by
    simp only [evict_guard, decide_eq_false_iff_not, not_lt]
    exact Nat.le_of_lt hid.2
  have hlive2 : r2 = 0 ∨ s2.slab_live r2 = false := by
    rcases hr2 with h | h | h
    · exact Or.inl h
    · right
      rw [hpost.livef]
      split
      · rfl
      · exact h
    · right
      rw [h] at hv'
      have := Option.some.inj hv'
      subst this
      rw [hpost.livef]
      simp [show ({ s with slab_allocs := s.slab_allocs + 1 } : State).mem r2 = s.mem r2
        from rfl, hv0]
  obtain ⟨s3, hrun3, hI3, hp3, _⟩ := alloc_step_ok s2 _ r2
    (env.slabs_clsid (item_make_header env (nkey + 1) flags nbytes).2.2) key nkey exptime
    nbytes (item_make_header env (nkey + 1) flags nbytes).1
    (item_make_header env (nkey + 1) flags nbytes).2.1 hI2 hid hlive2
  refine ⟨v, pre, post, s3, hsplit, ?_, hv0, ?_, hI3, ?_, ?_⟩
  · intro x hx
    have := hpre x hx
    simpa using this
  · rw [item_alloc_null_eq env s key nkey flags exptime nbytes r2 hz]
    rw [if_neg (by rw [hev]; exact Bool.noConfusion), if_neg (by rw [hguard]; exact Bool.noConfusion),
      if_neg htail]
    have hscan1 : evict_scan env { s with slab_allocs := s.slab_allocs + 1 } 50
        (s.tails (env.slabs_clsid (item_make_header env (nkey + 1) flags nbytes).2.2))
        = .ok s2 := hscan
    rw [hscan1]
    exact hrun3
  · have hnot : v ∉ (L (s3.mem v).slabs_clsid).erase v := fun h =>
      (((hI.ok _).2.2.2).mem_erase_iff.1 h).1 rfl
    by_contra hl
    have hl : (s3.mem v).it_flags.linked = true := by simpa using hl
    exact hnot ((hI3.mem_iff _ v).2 ⟨hl, rfl⟩)
  · intro h
    rw [(hI.ok _).2.1] at h ⊢
    have := victim_tail s _ 49 hne h
    rw [hv'] at this
    exact Option.some.inj this

/-- Example calls: three items linked, the oldest one (the tail) held. -/
def opsPinnedTail : List Op :=
  [.alloc ['a'] 1 0 0 10 1 0, .link 1, .hold 1, .alloc ['b'] 1 0 0 10 2 0, .link 2,
    .alloc ['c'] 1 0 0 10 3 0, .link 3]

set_option maxRecDepth 100000 in
/-- C6 at a concrete state: the list is 3, 2, 1 with the tail 1 held; the
allocator is exhausted and answers the retry with the evicted buffer; item 2 is
evicted. -/
theorem C6_witness :
    Inv (stateAfter env0 opsPinnedTail) (only1 [3, 2, 1]) ∧
    candidates 50 (only1 [3, 2, 1] 1) = [1, 2, 3] ∧
    victim (stateAfter env0 opsPinnedTail) 50 (only1 [3, 2, 1] 1) = some 2 ∧
    ∃ v pre post s1,
      candidates 50 (only1 [3, 2, 1] 1) = pre ++ v :: post ∧
      (∀ x ∈ pre, ((stateAfter env0 opsPinnedTail).mem x).refcount ≠ 0) ∧
      ((stateAfter env0 opsPinnedTail).mem v).refcount = 0 ∧
      item_alloc env0 (stateAfter env0 opsPinnedTail) ['d'] 1 0 0 10 0 2 = .ok (2, s1) ∧
      Inv s1 (fun c => (only1 [3, 2, 1] c).erase v) ∧
      (s1.mem v).it_flags.linked = false ∧
      (((stateAfter env0 opsPinnedTail).mem
          ((stateAfter env0 opsPinnedTail).tails 1)).refcount = 0 →
        v = (stateAfter env0 opsPinnedTail).tails 1) :=
  ⟨inv_example _ _ (by decide) (by decide), by decide, by decide,
    C6_evicts_coldest_unpinned env0 (stateAfter env0 opsPinnedTail) (only1 [3, 2, 1]) ['d'] 1 0 0
      10 2 (inv_example _ _ (by decide) (by decide)) (by decide) (by decide)
      ⟨2, by decide, by decide⟩ (Or.inr (Or.inr (by decide)))⟩

/-! ## C7: the eviction bound -/

/-- C7: in a well-formed state, every returning `item_alloc` has called the
allocator at most twice and has unlinked at most one item (each list is the old
one, or the old one without one item `v`); and when the allocator reports
exhaustion (both answers `NULL`) and eviction is disabled or every candidate
among the 50 items nearest the tail is held (which covers the empty list),
`item_alloc` returns failure and the state is the old one but for the count of
allocator calls, which has grown by at most 2. -/
theorem C7_eviction_bound (env : Env) (s : State) (L : Nat → List Nat) (key : List Char)
    (nkey : Nat) (flags : Int) (exptime : Nat) (nbytes : Int) (hI : Inv s L)
    (hid : env.slabs_clsid (item_make_header env (nkey + 1) flags nbytes).2.2 < LARGEST_ID) :
    (∀ r1 r2 it s1, item_alloc env s key nkey flags exptime nbytes r1 r2 = .ok (it, s1) →
      s1.slab_allocs ≤ s.slab_allocs + 2 ∧
      ∃ L1, Inv s1 L1 ∧ (L1 = L ∨ ∃ v, L1 = fun c => (L c).erase v)) ∧
    (env.slabs_clsid (item_make_header env (nkey + 1) flags nbytes).2.2 ≠ 0 →
      (s.evict_to_free = false ∨ ∀ x, x ∈ candidates 50
        (L (env.slabs_clsid (item_make_header env (nkey + 1) flags nbytes).2.2)) →
        (s.mem x).refcount ≠ 0) →
      ∃ k, k ≤ 2 ∧ item_alloc env s key nkey flags exptime nbytes 0 0 =
        .ok (0, { s with slab_allocs := s.slab_allocs + k })) := by
  constructor
  · intro r1 r2 it s1 hrun
    obtain ⟨L1, hI1, hL, _, _, hn, _⟩ := item_alloc_inv env s L key nkey flags exptime nbytes
      r1 r2 it s1 hI hid hrun
    refine ⟨hn, L1, hI1, ?_⟩
    rcases hL with h | ⟨v, _, _, _, h⟩
    · exact Or.inl h
    · exact Or.inr ⟨v, h⟩
  · intro hz hcase
    rw [item_alloc_null_eq env s key nkey flags exptime nbytes 0 hz]
    by_cases he : s.evict_to_free = false
    · exact ⟨1, by omega, by rw [if_pos he]⟩
    rw [if_neg he]
    split
    · exact ⟨1, by omega, rfl⟩
    split
    · exact ⟨1, by omega, rfl⟩
    have hall := hcase.resolve_left he
    rcases evict_phase env { s with slab_allocs := s.slab_allocs + 1 } L
      (env.slabs_clsid (item_make_header env (nkey + 1) flags nbytes).2.2) hI.bump with
      ⟨_, hscan⟩ | ⟨v, s2, hv, _, _, _⟩
    · have hscan1 : evict_scan env { s with slab_allocs := s.slab_allocs + 1 } 50
          (s.tails (env.slabs_clsid (item_make_header env (nkey + 1) flags nbytes).2.2))
          = .ok { s with slab_allocs := s.slab_allocs + 1 } := hscan
      rw [hscan1]
      exact ⟨2, le_refl _, by simp [alloc_step, slabs_alloc_null]⟩
    · exfalso
      obtain ⟨hvc, _, hv0⟩ := victim_some hv
      exact hall v hvc hv0

/-- Example calls: one item linked and held. -/
def opsAllPinned : List Op := [.alloc ['a'] 1 0 0 10 1 0, .link 1, .hold 1]

set_option maxRecDepth 100000 in
/-- C7 at a concrete state: the only item of the class is held. -/
theorem C7_witness :
    Inv (stateAfter env0 opsAllPinned) (only1 [1]) ∧
    (∀ r1 r2 it s1,
      item_alloc env0 (stateAfter env0 opsAllPinned) ['d'] 1 0 0 10 r1 r2 = .ok (it, s1) →
      s1.slab_allocs ≤ (stateAfter env0 opsAllPinned).slab_allocs + 2 ∧
      ∃ L1, Inv s1 L1 ∧ (L1 = only1 [1] ∨ ∃ v, L1 = fun c => (only1 [1] c).erase v)) ∧
    (env0.slabs_clsid (item_make_header env0 (1 + 1) 0 10).2.2 ≠ 0 →
      ((stateAfter env0 opsAllPinned).evict_to_free = false ∨ ∀ x, x ∈ candidates 50
        (only1 [1] (env0.slabs_clsid (item_make_header env0 (1 + 1) 0 10).2.2)) →
        ((stateAfter env0 opsAllPinned).mem x).refcount ≠ 0) →
      ∃ k, k ≤ 2 ∧ item_alloc env0 (stateAfter env0 opsAllPinned) ['d'] 1 0 0 10 0 0 =
        .ok (0, { stateAfter env0 opsAllPinned with
          slab_allocs := (stateAfter env0 opsAllPinned).slab_allocs + k })) :=
  ⟨inv_example _ _ (by decide) (by decide),
    C7_eviction_bound env0 (stateAfter env0 opsAllPinned) (only1 [1]) ['d'] 1 0 0 10
      (inv_example _ _ (by decide) (by decide)) (by decide)⟩

/-! ## C8: `item_size_ok` agrees with `item_alloc` -/

/-- C8: `item_size_ok` is true exactly when the size computed by
`item_make_header` maps to a non-zero class; `item_alloc` classifies the same
size: when `item_size_ok` is false it returns failure with the state untouched
(no allocator call), and when `item_size_ok` is true every returning
`item_alloc` has called the allocator, and it succeeds when the allocator
answers with a free buffer. -/
theorem C8_size_ok_agrees (env : Env) (s : State) (L : Nat → List Nat) (key : List Char)
    (nkey : Nat) (flags : Int) (exptime : Nat) (nbytes : Int) (r1 r2 : Nat) (hI : Inv s L)
    (hid : env.slabs_clsid (item_make_header env (nkey + 1) flags nbytes).2.2 < LARGEST_ID) :
    (item_size_ok env nkey flags nbytes = true ↔
      env.slabs_clsid (item_make_header env (nkey + 1) flags nbytes).2.2 ≠ 0) ∧
    (item_size_ok env nkey flags nbytes = false →
      item_alloc env s key nkey flags exptime nbytes r1 r2 = .ok (0, s)) ∧
    (item_size_ok env nkey flags nbytes = true →
      (∀ it s1, item_alloc env s key nkey flags exptime nbytes r1 r2 = .ok (it, s1) →
        s.slab_allocs + 1 ≤ s1.slab_allocs) ∧
      (r1 ≠ 0 → s.slab_live r1 = false →
        ∃ s1, item_alloc env s key nkey flags exptime nbytes r1 r2 = .ok (r1, s1))) := by
  have hiff : item_size_ok env nkey flags nbytes = true ↔
      env.slabs_clsid (item_make_header env (nkey + 1) flags nbytes).2.2 ≠ 0 := by
    simp [item_size_ok]
  refine ⟨hiff, ?_, ?_⟩
  · intro h
    have hz : env.slabs_clsid (item_make_header env (nkey + 1) flags nbytes).2.2 = 0 := by
      by_contra hne
      rw [hiff.2 hne] at h
      exact Bool.noConfusion h
    simp only [item_alloc, if_pos hz]
  · intro h
    have hz := hiff.1 h
    refine ⟨fun it s1 hrun => ?_, fun hr hfree => ?_⟩
    · obtain ⟨_, _, _, _, _, _, hlow⟩ := item_alloc_inv env s L key nkey flags exptime nbytes
        r1 r2 it s1 hI hid hrun
      exact hlow hz
    · rw [item_alloc_first_eq env s key nkey flags exptime nbytes r1 r2 hz hr]
      obtain ⟨s1, h1, _⟩ := alloc_step_ok s L r1
        (env.slabs_clsid (item_make_header env (nkey + 1) flags nbytes).2.2) key nkey exptime
        nbytes (item_make_header env (nkey + 1) flags nbytes).1
        (item_make_header env (nkey + 1) flags nbytes).2.1 hI ⟨Nat.pos_of_ne_zero hz, hid⟩
        (Or.inr hfree)
      exact ⟨s1, h1⟩

set_option maxRecDepth 100000 in
/-- C8 at a concrete state and an oversized request (payload of 2 MiB). -/
theorem C8_witness :
    Inv (stateAfter env0 opsAllPinned) (only1 [1]) ∧
    item_size_ok env0 1 0 2097152 = false ∧
    item_alloc env0 (stateAfter env0 opsAllPinned) ['d'] 1 0 0 2097152 5 0
      = .ok (0, stateAfter env0 opsAllPinned) :=
  ⟨inv_example _ _ (by decide) (by decide), by decide,
    (C8_size_ok_agrees env0 (stateAfter env0 opsAllPinned) (only1 [1]) ['d'] 1 0 0 2097152 5 0
      (inv_example _ _ (by decide) (by decide)) (by decide)).2.1 (by decide)⟩

/-! ## C9: deferred reclamation of a held item -/

/-- `k` successive `item_remove` calls on the item `it`. -/
def removes (env : Env) : Nat → State → Nat → Except Nat State
  | 0, s, _ => .ok s
  | k + 1, s, it =>
    match item_remove env s it with
    | .error e => .error e
    | .ok s1 => removes env k s1 it

/-- `k` releases of an unlinked item with `m` holders, `k <= m`: the item is
given back at the `m`-th one and at none before. -/
theorem removes_spec (env : Env) (L : Nat → List Nat) (it : Nat) : ∀ (k m : Nat) (s : State),
    Inv s L → s.slab_live it = true → (s.mem it).it_flags.linked = false →
    (s.mem it).it_flags.deleted = false → (s.mem it).refcount = m → 0 < m → k ≤ m →
    ∃ s2, removes env k s it = .ok s2 ∧ Inv s2 L ∧
      (k = m → s2.slab_frees = it :: s.slab_frees ∧ s2.slab_live it = false) ∧
      (k < m → s2.slab_frees = s.slab_frees ∧ s2.slab_live it = true ∧
        (s2.mem it).refcount = m - k)
  | 0, m, s, hI, hlive, _, _, hrc, hm, _ =>
    ⟨s, rfl, hI, fun h => absurd h.symm (Nat.ne_of_gt hm), fun _ => ⟨rfl, hlive, hrc⟩⟩
  | k + 1, m, s, hI, hlive, hlk, hdel, hrc, hm, hk => by
    obtain ⟨s1, hrun, hI1, hs1⟩ := item_remove_ok env s L it hI hlive (Or.inl hdel)
    by_cases h1 : m = 1
    · have hk0 : k = 0 := by omega
      subst hk0
      have hc : (s.mem it).refcount - 1 = 0 ∧ (s.mem it).it_flags.linked = false :=
        ⟨by rw [hrc, h1], hlk⟩
      rw [if_pos hc] at hs1
      refine ⟨s1, by simp only [removes, hrun], hI1, fun _ => ?_, fun h => by omega⟩
      rw [hs1]
      exact ⟨rfl, by simp⟩
    · have hc : ¬ ((s.mem it).refcount - 1 = 0 ∧ (s.mem it).it_flags.linked = false) := by
        rw [hrc]; intro h; omega
      rw [if_neg hc] at hs1
      obtain ⟨s2, hrun2, hI2, he, hl⟩ := removes_spec env L it k (m - 1) s1 hI1
        (by rw [hs1]; exact hlive) (by rw [hs1]; simpa [store] using hlk)
        (by rw [hs1]; simpa [store] using hdel) (by rw [hs1]; simp [store, hrc])
        (by omega) (by omega)
      have hf : s1.slab_frees = s.slab_frees := by rw [hs1]
      refine ⟨s2, by simp only [removes, hrun]; exact hrun2, hI2, fun h => ?_, fun h => ?_⟩
      · have := he (by omega)
        rw [hf] at this
        exact this
      · have := hl (by omega)
        rw [hf] at this
        exact ⟨this.1, this.2.1, by rw [this.2.2]; omega⟩

/-- C9: for every linked item with `n > 0` holders, `item_unlink` clears
LINKED and takes the item out of its class's list (it is in no list any more),
without giving it back to the allocator; of the following `item_remove` calls,
the first `n - 1` do not give it back either, and the `n`-th one, which brings
the reference count to 0, does. -/
theorem C9_deferred_reclamation (env : Env) (s : State) (L : Nat → List Nat) (it n : Nat)
    (hI : Inv s L) (hlk : (s.mem it).it_flags.linked = true)
    (hdel : (s.mem it).it_flags.deleted = false)
    (hrc : (s.mem it).refcount = n) (hn : 0 < n) :
    ∃ s1, item_unlink env s it = .ok s1 ∧
      Inv s1 (fun c => (L c).erase it) ∧ (∀ c, it ∉ (L c).erase it) ∧
      (s1.mem it).it_flags.linked = false ∧
      s1.slab_frees = s.slab_frees ∧ s1.slab_live it = true ∧
      (∀ k, k < n → ∃ s2, removes env k s1 it = .ok s2 ∧
        s2.slab_frees = s.slab_frees ∧ s2.slab_live it = true ∧
        (s2.mem it).refcount = n - k) ∧
      ∃ s3, removes env n s1 it = .ok s3 ∧ s3.slab_frees = it :: s.slab_frees ∧
        s3.slab_live it = false := by
  have hlive := hI.live it hlk
  have h0 : (s.mem it).refcount ≠ 0 := by rw [hrc]; exact Nat.ne_of_gt hn
  obtain ⟨s1, hrun, hI1, hp⟩ := item_unlink_ok env s L it hI hlive
  have hself := hp.self
  rw [if_neg h0] at hself
  have hfr : s1.slab_frees = s.slab_frees := by rw [hp.frees, if_neg h0]
  have hlv : s1.slab_live it = true := by
    rw [hp.livef, if_neg (fun h => h0 h.2)]; exact hlive
  have hlk1 : (s1.mem it).it_flags.linked = false := by rw [hself]
  have hdel1 : (s1.mem it).it_flags.deleted = false := by rw [hself]; exact hdel
  have hrc1 : (s1.mem it).refcount = n := by rw [hself]; exact hrc
  refine ⟨s1, hrun, hI1, ?_, hlk1, hfr, hlv, ?_, ?_⟩
  · intro c h
    exact (((hI.ok c).2.2.2).mem_erase_iff.1 h).1 rfl
  · intro k hk
    obtain ⟨s2, h2, _, _, hl⟩ := removes_spec env _ it k n s1 hI1 hlv hlk1 hdel1 hrc1 hn
      (Nat.le_of_lt hk)
    obtain ⟨a, b, c⟩ := hl hk
    exact ⟨s2, h2, a.trans hfr, b, c⟩
  · obtain ⟨s3, h3, _, he, _⟩ := removes_spec env _ it n n s1 hI1 hlv hlk1 hdel1 hrc1 hn
      (le_refl _)
    obtain ⟨a, b⟩ := he rfl
    exact ⟨s3, h3, by rw [a, hfr], b⟩

/-- Example calls: an item linked and held twice. -/
def opsHeldTwice : List Op := [.alloc ['a'] 1 0 0 10 1 0, .link 1, .hold 1, .hold 1]

set_option maxRecDepth 100000 in
/-- C9 at a concrete state: an item with two holders. -/
theorem C9_witness :
    Inv (stateAfter env0 opsHeldTwice) (only1 [1]) ∧
    ((stateAfter env0 opsHeldTwice).mem 1).refcount = 2 ∧
    ∃ s1, item_unlink env0 (stateAfter env0 opsHeldTwice) 1 = .ok s1 ∧
      Inv s1 (fun c => (only1 [1] c).erase 1) ∧ (∀ c, 1 ∉ (only1 [1] c).erase 1) ∧
      (s1.mem 1).it_flags.linked = false ∧
      s1.slab_frees = (stateAfter env0 opsHeldTwice).slab_frees ∧ s1.slab_live 1 = true ∧
      (∀ k, k < 2 → ∃ s2, removes env0 k s1 1 = .ok s2 ∧
        s2.slab_frees = (stateAfter env0 opsHeldTwice).slab_frees ∧ s2.slab_live 1 = true ∧
        (s2.mem 1).refcount = 2 - k) ∧
      ∃ s3, removes env0 2 s1 1 = .ok s3 ∧
        s3.slab_frees = 1 :: (stateAfter env0 opsHeldTwice).slab_frees ∧
        s3.slab_live 1 = false :=
  ⟨inv_example _ _ (by decide) (by decide), by decide,
    C9_deferred_reclamation env0 (stateAfter env0 opsHeldTwice) (only1 [1]) 1 2
      (inv_example _ _ (by decide) (by decide)) (by decide) (by decide) (by decide)
      (by decide)⟩

/-! ## C10: the expiration sweep -/

theorem dropWhile_recent_eq_filter (s : State) : ∀ (l : List Nat), nonIncreasing s l →
    l.dropWhile (recent s) = l.filter (fun x => decide ((s.mem x).time < s.oldest_live))
  | [], _ => rfl
  | x :: xs, h => by
    obtain ⟨hx, hxs⟩ := List.pairwise_cons.1 h
    by_cases hr : (s.mem x).time ≥ s.oldest_live
    · have h1 : recent s x = true := by simp [recent, hr]
      have h2 : decide ((s.mem x).time < s.oldest_live) = false := by
        simp only [decide_eq_false_iff_not, not_lt]; exact hr
      rw [List.dropWhile_cons, h1, List.filter_cons, h2]
      simp only [if_true]
      exact dropWhile_recent_eq_filter s xs hxs
    · have h1 : recent s x = false := by simp [recent, hr]
      have h2 : decide ((s.mem x).time < s.oldest_live) = true := by
        simp only [decide_eq_true_eq]; omega
      rw [List.dropWhile_cons, h1, List.filter_cons, h2]
      simp only [if_true, Bool.false_eq_true, if_false]
      congr 1
      symm
      apply List.filter_eq_self.2
      intro y hy
      have := hx y hy
      simp only [decide_eq_true_eq]
      omega

/-- C10, as stated, fails for the cutoff 0: `item_flush_expired` returns at
once (line 341), so a linked item, whose time stamp is at least the cutoff,
stays linked. -/
theorem C10_counterexample :
    (stateAfter env0 opsLinked).oldest_live = 0 ∧
    listOk (stateAfter env0 opsLinked) 1 [1] ∧
    ((stateAfter env0 opsLinked).mem 1).time ≥ (stateAfter env0 opsLinked).oldest_live ∧
    item_flush_expired env0 5 (stateAfter env0 opsLinked) = .ok (stateAfter env0 opsLinked) ∧
    ((stateAfter env0 opsLinked).mem 1).it_flags.linked = true :=
  ⟨by decide, by decide, by decide, rfl, by decide⟩

/-- C10, amended: for every cutoff other than 0 and every well-formed state
in which each class's list is in non-increasing time order, `item_flush_expired`
(with `settings.oldest_live` the cutoff, and fuel for the longest list) returns;
afterwards each class's list is the old one restricted to the items with time
stamp below the cutoff, in the old order: every item that had a time stamp at or
above the cutoff has been unlinked, and every item that had one below it is
still linked, in the same class. -/
theorem C10_expiration_sweep (env : Env) (fuel : Nat) (s : State) (L : Nat → List Nat)
    (hI : Inv s L) (hsorted : ∀ c, nonIncreasing s (L c)) (hcut : s.oldest_live ≠ 0)
    (hfuel : ∀ c, (L c).length ≤ fuel) :
    ∃ s1, item_flush_expired env fuel s = .ok s1 ∧
      Inv s1 (fun c => (L c).filter (fun x => decide ((s.mem x).time < s.oldest_live))) ∧
      (∀ c x, x ∈ L c → s.oldest_live ≤ (s.mem x).time →
        (s1.mem x).it_flags.linked = false) ∧
      (∀ c x, x ∈ L c → (s.mem x).time < s.oldest_live →
        (s1.mem x).it_flags.linked = true ∧ (s1.mem x).slabs_clsid = c) := by
  obtain ⟨s1, hrun, hI1, _⟩ := item_flush_expired_ok env fuel s L hI hfuel hcut
  have hL : (fun c => (L c).dropWhile (recent s)) =
      (fun c => (L c).filter (fun x => decide ((s.mem x).time < s.oldest_live))) := by
    funext c
    exact dropWhile_recent_eq_filter s (L c) (hsorted c)
  rw [hL] at hI1
  refine ⟨s1, hrun, hI1, ?_, ?_⟩
  · intro c x _ hx
    by_contra hl
    have hl : (s1.mem x).it_flags.linked = true := by simpa using hl
    have := (hI1.mem_iff (s1.mem x).slabs_clsid x).2 ⟨hl, rfl⟩
    have := (List.mem_filter.1 this).2
    simp only [decide_eq_true_eq] at this
    omega
  · intro c x hxc hx
    exact (hI1.mem_iff c x).1 (List.mem_filter.2 ⟨hxc, by simpa using hx⟩)

/-- Example calls: items linked at times 5, 10 and 11; the cutoff set to 10. -/
def opsSweep : List Op :=
  [.tick 5, .alloc ['a'] 1 0 0 10 1 0, .link 1, .tick 10, .alloc ['b'] 1 0 0 10 2 0, .link 2,
    .tick 11, .alloc ['c'] 1 0 0 10 3 0, .link 3, .set_oldest_live 10]

set_option maxRecDepth 100000 in
/-- C10, amended, at a concrete state (scenario C of the specification): the
items stamped 10 and 11 are unlinked, the item stamped 5 stays. -/
theorem C10_witness :
    Inv (stateAfter env0 opsSweep) (only1 [3, 2, 1]) ∧
    (only1 [3, 2, 1] 1).filter (fun x => decide (((stateAfter env0 opsSweep).mem x).time <
      (stateAfter env0 opsSweep).oldest_live)) = [1] ∧
    ∃ s1, item_flush_expired env0 3 (stateAfter env0 opsSweep) = .ok s1 ∧
      Inv s1 (fun c => (only1 [3, 2, 1] c).filter (fun x =>
        decide (((stateAfter env0 opsSweep).mem x).time <
          (stateAfter env0 opsSweep).oldest_live))) ∧
      (∀ c x, x ∈ only1 [3, 2, 1] c →
        (stateAfter env0 opsSweep).oldest_live ≤ ((stateAfter env0 opsSweep).mem x).time →
        (s1.mem x).it_flags.linked = false) ∧
      (∀ c x, x ∈ only1 [3, 2, 1] c →
        ((stateAfter env0 opsSweep).mem x).time < (stateAfter env0 opsSweep).oldest_live →
        (s1.mem x).it_flags.linked = true ∧ (s1.mem x).slabs_clsid = c) :=
  ⟨inv_example _ _ (by decide) (by decide), by decide,
    C10_expiration_sweep env0 3 (stateAfter env0 opsSweep) (only1 [3, 2, 1])
      (inv_example _ _ (by decide) (by decide))
      (fun c => by
        by_cases hc : c = 1
        · subst hc; decide
        · simp only [only1, if_neg hc]; exact List.Pairwise.nil)
      (by decide)
      (fun c => by
        by_cases hc : c = 1
        · subst hc; decide
        · simp only [only1, if_neg hc]; exact Nat.zero_le _)⟩

/-! ## C11: the postcondition of `item_link` -/

theorem u32_succ (n : Nat) : u32 ((n : Int) + 1) = (n + 1) % 4294967296 := by
  simp only [u32]
  omega

/-- Example calls: one item linked, a second one allocated. -/
def opsSecondFresh : List Op :=
  [.alloc ['a'] 1 0 0 10 1 0, .link 1, .tick 7, .alloc ['b'] 1 0 0 10 2 0]

/-- C11: for every handed-out item of a well-formed state (hence not in the
free pool) that is not LINKED and whose payload is below the 1 MiB cap,
`item_link` returns 1, sets LINKED, sets the time stamp to the current time,
and makes the item the head of its own class's list, in front of the old
members (so it is the tail too when the list was empty, and the tail is the
old one otherwise); the class's count, `curr_items` and `total_items` grow by 1
and `curr_bytes` by the item's total size, in the arithmetic of these unsigned
counters (32 bits, `curr_bytes` 64 bits: exactly by 1 below the maximum); the
lists, heads, tails and counts of every other class are unchanged. -/
theorem C11_link_postcondition (env : Env) (s : State) (L : Nat → List Nat) (it : Nat)
    (hI : Inv s L) (hlive : s.slab_live it = true)
    (hlk : (s.mem it).it_flags.linked = false) (hnb : (s.mem it).nbytes < 1048576) :
    ∃ s1, item_link env s it = .ok (1, s1) ∧
      (s1.mem it).it_flags.linked = true ∧ (s1.mem it).time = s.current_time ∧
      Inv s1 (Function.update L (s.mem it).slabs_clsid (it :: L (s.mem it).slabs_clsid)) ∧
      s1.heads (s.mem it).slabs_clsid = it ∧
      (L (s.mem it).slabs_clsid = [] → s1.tails (s.mem it).slabs_clsid = it) ∧
      (L (s.mem it).slabs_clsid ≠ [] →
        s1.tails (s.mem it).slabs_clsid = s.tails (s.mem it).slabs_clsid) ∧
      s1.sizes (s.mem it).slabs_clsid = (s.sizes (s.mem it).slabs_clsid + 1) % 4294967296 ∧
      s1.curr_items = (s.curr_items + 1) % 4294967296 ∧
      s1.total_items = (s.total_items + 1) % 4294967296 ∧
      s1.curr_bytes = (s.curr_bytes + ITEM_ntotal env (s.mem it)) % 2 ^ 64 ∧
      (s.sizes (s.mem it).slabs_clsid + 1 < 4294967296 →
        s1.sizes (s.mem it).slabs_clsid = s.sizes (s.mem it).slabs_clsid + 1) ∧
      (s.curr_items + 1 < 4294967296 → s1.curr_items = s.curr_items + 1) ∧
      (s.total_items + 1 < 4294967296 → s1.total_items = s.total_items + 1) ∧
      (s.curr_bytes + ITEM_ntotal env (s.mem it) < 2 ^ 64 →
        s1.curr_bytes = s.curr_bytes + ITEM_ntotal env (s.mem it)) ∧
      ∀ c, c ≠ (s.mem it).slabs_clsid →
        s1.heads c = s.heads c ∧ s1.tails c = s.tails c ∧ s1.sizes c = s.sizes c ∧
        Function.update L (s.mem it).slabs_clsid (it :: L (s.mem it).slabs_clsid) c = L c := by
  obtain ⟨s1, hrun, hI1, hp⟩ := item_link_ok env s L it hI hlive hlk hnb
  have hok := hI1.ok (s.mem it).slabs_clsid
  simp only [Function.update_same] at hok
  obtain ⟨h1, h2, h3, h4⟩ := hp.counts
  rw [u32_succ] at h1 h2 h3
  refine ⟨s1, hrun, by rw [hp.self], by rw [hp.self], hI1, by simpa using hok.1, ?_, ?_,
    h1, h2, h3, h4, ?_, ?_, ?_, ?_, ?_⟩
  · intro hnil
    rw [hok.2.1, hnil]; rfl
  · intro hne
    rw [hok.2.1, (hI.ok _).2.1]
    obtain ⟨x, xs, hL⟩ := List.exists_cons_of_ne_nil hne
    rw [hL]; rfl
  · intro h; rw [h1, Nat.mod_eq_of_lt h]
  · intro h; rw [h2, Nat.mod_eq_of_lt h]
  · intro h; rw [h3, Nat.mod_eq_of_lt h]
  · intro h; rw [h4, Nat.mod_eq_of_lt h]
  · intro c hc
    obtain ⟨a, b, d⟩ := hp.tables c hc
    exact ⟨a, b, d, Function.update_noteq hc _ _⟩

set_option maxRecDepth 100000 in
/-- C11 at a concrete state: item 1 is linked, item 2 is fresh. -/
theorem C11_witness :
    Inv (stateAfter env0 opsSecondFresh) (only1 [1]) ∧
    ∃ s1, item_link env0 (stateAfter env0 opsSecondFresh) 2 = .ok (1, s1) ∧
      (s1.mem 2).it_flags.linked = true ∧ (s1.mem 2).time = 7 ∧ s1.heads 1 = 2 ∧
      s1.sizes 1 = 2 ∧ s1.curr_items = 2 ∧ s1.total_items = 2 := by
  have hI : Inv (stateAfter env0 opsSecondFresh) (only1 [1]) :=
    inv_example _ _ (by decide) (by decide)
  obtain ⟨s1, h1, h2, h3, _, h5, _, _, _, _, _, _, h6, h7, h8, _⟩ :=
    C11_link_postcondition env0 (stateAfter env0 opsSecondFresh) (only1 [1]) 2 hI
      (by decide) (by decide) (by decide)
  exact ⟨hI, s1, h1, h2, h3, h5, h6 (by decide), h7 (by decide), h8 (by decide)⟩

/-! ## C12: release semantics -/

/-- C12: for every handed-out item of a well-formed state (hence not in the
free pool) on which the assertion of line 223 holds, `item_remove` returns; the
reference count is lowered by one when it is positive and stays zero when it is
zero; the item is given back to the allocator (`item_free`) exactly when the
resulting count is zero and the item is not LINKED; the lists are the same
sequences, and for a LINKED item nothing is given back and no table entry and no
item other than its reference count changes. -/
theorem C12_release_semantics (env : Env) (s : State) (L : Nat → List Nat) (it : Nat)
    (hI : Inv s L) (hlive : s.slab_live it = true)
    (h223 : (s.mem it).it_flags.deleted = false ∨ (s.mem it).refcount - 1 ≠ 0) :
    ∃ s1, item_remove env s it = .ok s1 ∧ Inv s1 L ∧
      (0 < (s.mem it).refcount → (s1.mem it).refcount + 1 = (s.mem it).refcount) ∧
      ((s.mem it).refcount = 0 → (s1.mem it).refcount = 0) ∧
      (((s1.mem it).refcount = 0 ∧ (s.mem it).it_flags.linked = false) →
        s1.slab_frees = it :: s.slab_frees ∧ s1.slab_live it = false ∧
        (s1.mem it).it_flags.slabbed = true) ∧
      (¬ ((s1.mem it).refcount = 0 ∧ (s.mem it).it_flags.linked = false) →
        s1.slab_frees = s.slab_frees ∧ s1.slab_live = s.slab_live ∧
        (s1.mem it).it_flags.slabbed = false) ∧
      ((s.mem it).it_flags.linked = true →
        s1 = { s with
          mem := store s.mem it { s.mem it with refcount := (s.mem it).refcount - 1 } }) := by
  obtain ⟨s1, hrun, hI1, hs1⟩ := item_remove_ok env s L it hI hlive h223
  have hsl := hI.slabbed it hlive
  by_cases hc : (s.mem it).refcount - 1 = 0 ∧ (s.mem it).it_flags.linked = false
  · rw [if_pos hc] at hs1
    have hrc : (s1.mem it).refcount = (s.mem it).refcount - 1 := by rw [hs1]; simp [store]
    refine ⟨s1, hrun, hI1, fun h => by rw [hrc]; omega, fun h => by rw [hrc, h], ?_, ?_, ?_⟩
    · intro _
      rw [hs1]
      simp [store]
    · intro h
      exact absurd ⟨hrc.trans hc.1, hc.2⟩ h
    · intro h
      rw [hc.2] at h
      exact Bool.noConfusion h
  · rw [if_neg hc] at hs1
    have hrc : (s1.mem it).refcount = (s.mem it).refcount - 1 := by rw [hs1]; simp [store]
    refine ⟨s1, hrun, hI1, fun h => by rw [hrc]; omega, fun h => by rw [hrc, h], ?_, ?_, ?_⟩
    · intro h
      exact absurd ⟨hrc.symm.trans h.1, h.2⟩ hc
    · intro _
      rw [hs1]
      exact ⟨rfl, rfl, by simpa [store] using hsl⟩
    · intro _
      exact hs1

set_option maxRecDepth 100000 in
/-- C12 at a concrete state: a linked item with two holders is released. -/
theorem C12_witness :
    Inv (stateAfter env0 opsHeldTwice) (only1 [1]) ∧
    ∃ s1, item_remove env0 (stateAfter env0 opsHeldTwice) 1 = .ok s1 ∧
      Inv s1 (only1 [1]) ∧ (s1.mem 1).refcount + 1 = 2 ∧
      s1.slab_frees = (stateAfter env0 opsHeldTwice).slab_frees := by
  have hI : Inv (stateAfter env0 opsHeldTwice) (only1 [1]) :=
    inv_example _ _ (by decide) (by decide)
  obtain ⟨s1, h1, h2, h3, _, _, h6, _⟩ :=
    C12_release_semantics env0 (stateAfter env0 opsHeldTwice) (only1 [1]) 1 hI
      (by decide) (by decide)
  exact ⟨hI, s1, h1, h2, h3 (by decide), (h6 (fun h => by
    have := h.2
    revert this
    decide)).1⟩

/-! ## C13: no eviction across classes -/

theorem item_alloc_fill_frame (s : State) (it id : Nat) (key : List Char) (nkey exptime : Nat)
    (nbytes : Int) (suffix : List Char) (nsuffix : Nat) (p : Nat) (s1 : State)
    (hrun : item_alloc_fill s it id key nkey exptime nbytes suffix nsuffix = .ok (p, s1)) :
    s1.heads = s.heads ∧ s1.tails = s.tails ∧ s1.sizes = s.sizes ∧
    ∀ x, x ≠ it → s1.mem x = s.mem x := by
  simp only [item_alloc_fill] at hrun
  split at hrun
  · exact Except.noConfusion hrun
  split at hrun
  · exact Except.noConfusion hrun
  obtain ⟨_, rfl⟩ := Prod.mk.inj (Except.ok.inj hrun)
  exact ⟨rfl, rfl, rfl, fun x hx => by simp [store, hx]⟩

/-- One allocator call of `item_alloc` leaves the tables and the lists alone. -/
theorem alloc_step_frame (s : State) (L : Nat → List Nat) (r id : Nat) (key : List Char)
    (nkey exptime : Nat) (nbytes : Int) (suffix : List Char) (nsuffix : Nat)
    (it : Nat) (s1 : State) (hI : Inv s L)
    (hrun : alloc_step s r id key nkey exptime nbytes suffix nsuffix = .ok (it, s1)) :
    s1.heads = s.heads ∧ s1.tails = s.tails ∧ s1.sizes = s.sizes ∧
    ∀ c, listOk s1 c (L c) := by
  by_cases h0 : r = 0
  · subst h0
    simp only [alloc_step, slabs_alloc_null, if_true] at hrun
    obtain ⟨_, rfl⟩ := Prod.mk.inj (Except.ok.inj hrun)
    exact ⟨rfl, rfl, rfl, fun c => listOk_frame (hI.ok c) rfl rfl (fun _ _ => ⟨rfl, rfl⟩)⟩
  · have hfree : s.slab_live r = false :=
      (alloc_step_inv s r id key nkey exptime nbytes suffix nsuffix it s1 hrun).resolve_left h0
    simp only [alloc_step, slabs_alloc_some s r h0 hfree, if_neg h0] at hrun
    obtain ⟨a, b, c, d⟩ := item_alloc_fill_frame _ _ _ _ _ _ _ _ _ _ _ hrun
    refine ⟨a, b, c, fun c1 => listOk_frame (hI.ok c1) (by rw [a]) (by rw [b]) ?_⟩
    intro x hx
    have hxr : x ≠ r := by
      rintro rfl
      have := hI.live x ((hI.mem_iff c1 x).1 hx).1
      rw [hfree] at this
      exact Bool.noConfusion this
    rw [d x hxr]
    exact ⟨rfl, rfl⟩

/-- C13: in a well-formed state (every list holds the LINKED items of its own
class), every returning `item_alloc`, successful or not, whose computed size
maps to class `id` leaves the head, the tail, the count and the list (the same
sequence of items, which a walk from the head yields) of every class other than
`id` as they were. -/
theorem C13_no_cross_class_eviction (env : Env) (s : State) (L : Nat → List Nat)
    (key : List Char) (nkey : Nat) (flags : Int) (exptime : Nat) (nbytes : Int)
    (r1 r2 it : Nat) (s1 : State) (hI : Inv s L)
    (hrun : item_alloc env s key nkey flags exptime nbytes r1 r2 = .ok (it, s1)) :
    ∀ c, c ≠ env.slabs_clsid (item_make_header env (nkey + 1) flags nbytes).2.2 →
      s1.heads c = s.heads c ∧ s1.tails c = s.tails c ∧ s1.sizes c = s.sizes c ∧
      listOk s1 c (L c) ∧
      ∀ fuel, walk s1.mem fuel (s1.heads c) = walk s.mem fuel (s.heads c) := by
  have key1 : ∀ c, c ≠ env.slabs_clsid (item_make_header env (nkey + 1) flags nbytes).2.2 →
      s1.heads c = s.heads c ∧ s1.tails c = s.tails c ∧ s1.sizes c = s.sizes c ∧
      listOk s1 c (L c) := by
    intro c hc
    by_cases hz : env.slabs_clsid (item_make_header env (nkey + 1) flags nbytes).2.2 = 0
    · simp only [item_alloc, if_pos hz] at hrun
      obtain ⟨_, rfl⟩ := Prod.mk.inj (Except.ok.inj hrun)
      exact ⟨rfl, rfl, rfl, hI.ok c⟩
    by_cases hr1 : r1 = 0
    · subst hr1
      rw [item_alloc_null_eq env s key nkey flags exptime nbytes r2 hz] at hrun
      have hb : ∀ (t : State), t = { s with slab_allocs := s.slab_allocs + 1 } →
          t.heads c = s.heads c ∧ t.tails c = s.tails c ∧ t.sizes c = s.sizes c ∧
          listOk t c (L c) := by
        rintro t rfl
        exact ⟨rfl, rfl, rfl, hI.bump.ok c⟩
      split at hrun
      · exact hb _ (Prod.mk.inj (Except.ok.inj hrun)).2.symm
      split at hrun
      · exact hb _ (Prod.mk.inj (Except.ok.inj hrun)).2.symm
      split at hrun
      · exact hb _ (Prod.mk.inj (Except.ok.inj hrun)).2.symm
      rcases evict_phase env { s with slab_allocs := s.slab_allocs + 1 } L
        (env.slabs_clsid (item_make_header env (nkey + 1) flags nbytes).2.2) hI.bump with
        ⟨_, hscan⟩ | ⟨v, s2, hv, hscan, hI2, hpost⟩
      · have hscan1 : evict_scan env { s with slab_allocs := s.slab_allocs + 1 } 50
            (s.tails (env.slabs_clsid (item_make_header env (nkey + 1) flags nbytes).2.2))
            = .ok { s with slab_allocs := s.slab_allocs + 1 } := hscan
        rw [hscan1] at hrun
        obtain ⟨a, b, d, e⟩ := alloc_step_frame _ L _ _ _ _ _ _ _ _ _ _ hI.bump hrun
        exact ⟨by rw [a], by rw [b], by rw [d], e c⟩
      · have hscan1 : evict_scan env { s with slab_allocs := s.slab_allocs + 1 } 50
            (s.tails (env.slabs_clsid (item_make_header env (nkey + 1) flags nbytes).2.2))
            = .ok s2 := hscan
        rw [hscan1] at hrun
        obtain ⟨a, b, d, e⟩ := alloc_step_frame _ _ _ _ _ _ _ _ _ _ _ _ hI2 hrun
        obtain ⟨_, hvl, _⟩ := victim_some hv
        have hcv : (s.mem v).slabs_clsid =
            env.slabs_clsid (item_make_header env (nkey + 1) flags nbytes).2.2 :=
          ((hI.mem_iff _ v).1 hvl).2
        obtain ⟨t1, t2, t3⟩ := hpost.tables c (by
          show c ≠ (s.mem v).slabs_clsid
          rw [hcv]; exact hc)
        have e1 := e c
        simp only [] at e1
        rw [hI.erase_other hvl hc] at e1
        exact ⟨by rw [a]; exact t1, by rw [b]; exact t2, by rw [d]; exact t3, e1⟩
    · rw [item_alloc_first_eq env s key nkey flags exptime nbytes r1 r2 hz hr1] at hrun
      obtain ⟨a, b, d, e⟩ := alloc_step_frame _ L _ _ _ _ _ _ _ _ _ _ hI hrun
      exact ⟨by rw [a], by rw [b], by rw [d], e c⟩
  intro c hc
  obtain ⟨a, b, d, e⟩ := key1 c hc
  refine ⟨a, b, d, e, fun fuel => ?_⟩
  rw [e.1, (hI.ok c).1, walk_seg_take (L c) 0 fuel e.2.2.1,
    walk_seg_take (L c) 0 fuel (hI.ok c).2.2.1]

/-- A small allocator with two classes: up to 100 bytes, and up to 1 MiB. -/
def env2 : Env :=
  { sizeof_item := 48
    slabs_clsid := fun n => if n ≤ 0 then 0 else if n ≤ 100 then 1 else
      if n ≤ 1048576 then 2 else 0 }

/-- Example calls with `env2`: a small item (class 1) linked and held, two
large items (class 2) linked. -/
def opsTwoClasses : List Op :=
  [.alloc ['a'] 1 0 0 10 1 0, .link 1, .hold 1, .alloc ['b'] 1 0 0 200 2 0, .link 2,
    .alloc ['c'] 1 0 0 200 3 0, .link 3]

/-- Sequences for examples with classes 1 and 2. -/
def lists2 (l1 l2 : List Nat) : Nat → List Nat :=
  fun c => if c < LARGEST_ID then (if c = 1 then l1 else if c = 2 then l2 else []) else []

theorem inv_lists2 (env : Env) (ops : List Op) (l1 l2 : List Nat)
    (hp : pathOk env (Op.proper env) (item_init startup) ops)
    (hl : ∀ c, c < LARGEST_ID → listOk (stateAfter env ops) c (lists2 l1 l2 c)) :
    Inv (stateAfter env ops) (lists2 l1 l2) := by
  have := inv_of_reach env _ (reach_stateAfter _ _ _ hp) (lists2 l1 l2) hl
  have e : (fun c => if c < LARGEST_ID then lists2 l1 l2 c else []) = lists2 l1 l2 := by
    funext c
    by_cases hc : c < LARGEST_ID
    · simp [hc]
    · simp [hc, lists2]
  rw [e] at this
  exact this

/-- The state an `item_alloc` call returns. -/
def allocState (r : Except Nat (Nat × State)) : State :=
  match r with
  | .ok p => p.2
  | .error _ => item_init startup

set_option maxRecDepth 100000 in
/-- C13 at a concrete state: an allocation in class 2 that evicts item 2
leaves class 1 alone. -/
theorem C13_witness :
    Inv (stateAfter env2 opsTwoClasses) (lists2 [1] [3, 2]) ∧
    env2.slabs_clsid (item_make_header env2 (1 + 1) 0 200).2.2 = 2 ∧
    item_alloc env2 (stateAfter env2 opsTwoClasses) ['d'] 1 0 0 200 0 2 = .ok (2,
      allocState (item_alloc env2 (stateAfter env2 opsTwoClasses) ['d'] 1 0 0 200 0 2)) ∧
    (allocState (item_alloc env2 (stateAfter env2 opsTwoClasses) ['d'] 1 0 0 200 0 2)).heads 2
      = 3 ∧
    ∀ c, c ≠ env2.slabs_clsid (item_make_header env2 (1 + 1) 0 200).2.2 →
      (allocState (item_alloc env2 (stateAfter env2 opsTwoClasses) ['d'] 1 0 0 200 0 2)).heads c
        = (stateAfter env2 opsTwoClasses).heads c ∧
      (allocState (item_alloc env2 (stateAfter env2 opsTwoClasses) ['d'] 1 0 0 200 0 2)).tails c
        = (stateAfter env2 opsTwoClasses).tails c ∧
      (allocState (item_alloc env2 (stateAfter env2 opsTwoClasses) ['d'] 1 0 0 200 0 2)).sizes c
        = (stateAfter env2 opsTwoClasses).sizes c ∧
      listOk (allocState (item_alloc env2 (stateAfter env2 opsTwoClasses) ['d'] 1 0 0 200 0 2))
        c (lists2 [1] [3, 2] c) ∧
      ∀ fuel,
        walk (allocState
          (item_alloc env2 (stateAfter env2 opsTwoClasses) ['d'] 1 0 0 200 0 2)).mem fuel
          ((allocState
            (item_alloc env2 (stateAfter env2 opsTwoClasses) ['d'] 1 0 0 200 0 2)).heads c)
        = walk (stateAfter env2 opsTwoClasses).mem fuel
          ((stateAfter env2 opsTwoClasses).heads c) :=
  ⟨inv_lists2 env2 opsTwoClasses [1] [3, 2] (by decide) (by decide),
    by decide, rfl, by decide,
    C13_no_cross_class_eviction env2 (stateAfter env2 opsTwoClasses) (lists2 [1] [3, 2]) ['d']
      1 0 0 200 0 2 2 _
      (inv_lists2 env2 opsTwoClasses [1] [3, 2] (by decide) (by decide)) rfl⟩

/-! ## C15: swap -/

theorem u32_pred_succ (n : Nat) (h : n < 4294967296) :
    u32 ((u32 ((n : Int) - 1) : Int) + 1) = n := by
  simp only [u32]
  omega

/-- C15: for every LINKED item `old` of a well-formed state and every
handed-out item `new` that is not LINKED and is below the size cap,
`item_replace` returns 1 and its result is that of `item_unlink` of `old`
followed by `item_link` of `new`: afterwards `old` is in no list and not LINKED
(given back to the allocator if it had no holder, kept otherwise), `new` is
LINKED and the head of its class's list, in front of the old members other than
`old`; `curr_items` (an unsigned 32-bit counter) is unchanged and `total_items`
has grown by 1 in 32-bit arithmetic. -/
theorem C15_swap (env : Env) (s : State) (L : Nat → List Nat) (old new : Nat)
    (hI : Inv s L) (hold : (s.mem old).it_flags.linked = true)
    (hnew : s.slab_live new = true) (hnlk : (s.mem new).it_flags.linked = false)
    (hnb : (s.mem new).nbytes < 1048576) (hci : s.curr_items < 4294967296) :
    ∃ s1 s2, item_unlink env s old = .ok s1 ∧ item_link env s1 new = .ok (1, s2) ∧
      item_replace env s old new = .ok (1, s2) ∧
      Inv s2 (Function.update (fun c => (L c).erase old) (s.mem new).slabs_clsid
        (new :: (L (s.mem new).slabs_clsid).erase old)) ∧
      (∀ c, old ∉ Function.update (fun c => (L c).erase old) (s.mem new).slabs_clsid
        (new :: (L (s.mem new).slabs_clsid).erase old) c) ∧
      (s2.mem old).it_flags.linked = false ∧
      ((s.mem old).refcount = 0 →
        s2.slab_frees = old :: s.slab_frees ∧ s2.slab_live old = false) ∧
      ((s.mem old).refcount ≠ 0 →
        s2.slab_frees = s.slab_frees ∧ s2.slab_live old = true) ∧
      (s2.mem new).it_flags.linked = true ∧ s2.heads (s.mem new).slabs_clsid = new ∧
      s2.curr_items = s.curr_items ∧
      s2.total_items = (s.total_items + 1) % 4294967296 ∧
      (s.total_items + 1 < 4294967296 → s2.total_items = s.total_items + 1) := by
  have hlive := hI.live old hold
  have hne : new ≠ old := by
    rintro rfl
    rw [hold] at hnlk
    exact Bool.noConfusion hnlk
  obtain ⟨s1, hrun1, hI1, hp1⟩ := item_unlink_ok env s L old hI hlive
  have hm1 : s1.mem new = { s.mem new with
      next := (s1.mem new).next, prev := (s1.mem new).prev } := hp1.others new hne
  have hcls : (s1.mem new).slabs_clsid = (s.mem new).slabs_clsid := by rw [hm1]
  have hlive1 : s1.slab_live new = true := by
    rw [hp1.livef, if_neg (fun h => hne h.1)]; exact hnew
  obtain ⟨s2, hrun2, hI2, hp2⟩ := item_link_ok env s1 _ new hI1 hlive1
    (by rw [hm1]; exact hnlk) (by rw [hm1]; exact hnb)
  rw [hcls] at hI2
  have hsl := hI.slabbed old hlive
  have hnd := fun c => (hI.ok c).2.2.2
  have hnotin : ∀ c, old ∉ Function.update (fun c => (L c).erase old) (s.mem new).slabs_clsid
      (new :: (L (s.mem new).slabs_clsid).erase old) c := by
    intro c h
    by_cases hc : c = (s.mem new).slabs_clsid
    · subst hc
      simp only [Function.update_same, List.mem_cons] at h
      rcases h with h | h
      · exact hne h.symm
      · exact ((hnd _).mem_erase_iff.1 h).1 rfl
    · rw [Function.update_noteq hc] at h
      exact ((hnd _).mem_erase_iff.1 h).1 rfl
  have hlk2 : (s2.mem old).it_flags.linked = false := by
    by_contra hl
    have hl : (s2.mem old).it_flags.linked = true := by simpa using hl
    exact hnotin _ ((hI2.mem_iff _ old).2 ⟨hl, rfl⟩)
  have hhead := (hI2.ok (s.mem new).slabs_clsid).1
  simp only [Function.update_same, List.headD_cons] at hhead
  obtain ⟨_, hci1, _⟩ := hp1.linked hold
  obtain ⟨_, hci2, hti2, _⟩ := hp2.counts
  refine ⟨s1, s2, hrun1, hrun2, ?_, hI2, hnotin, hlk2, ?_, ?_, by rw [hp2.self], hhead, ?_, ?_,
    ?_⟩
  · simp only [item_replace, hsl, Bool.false_eq_true, if_false, hrun1]
    exact hrun2
  · intro h0
    rw [hp2.rest.2.2.2.2.1, hp2.rest.2.2.2.2.2, hp1.frees, hp1.livef]
    simp [h0]
  · intro h0
    rw [hp2.rest.2.2.2.2.1, hp2.rest.2.2.2.2.2, hp1.frees, hp1.livef]
    simp [h0, hlive]
  · rw [hci2, hci1]
    exact u32_pred_succ _ hci
  · rw [hti2, hp1.rest.2.2.2.2]
    exact u32_succ _
  · intro h
    rw [hti2, hp1.rest.2.2.2.2, u32_succ, Nat.mod_eq_of_lt h]

/-- Example calls: item 1 linked and held, item 2 fresh. -/
def opsSwap : List Op :=
  [.alloc ['a'] 1 0 0 10 1 0, .link 1, .hold 1, .alloc ['a'] 1 0 0 12 2 0]

set_option maxRecDepth 100000 in
/-- C15 at a concrete state: a held item is replaced by a fresh one. -/
theorem C15_witness :
    Inv (stateAfter env0 opsSwap) (only1 [1]) ∧
    ∃ s1 s2, item_unlink env0 (stateAfter env0 opsSwap) 1 = .ok s1 ∧
      item_link env0 s1 2 = .ok (1, s2) ∧
      item_replace env0 (stateAfter env0 opsSwap) 1 2 = .ok (1, s2) ∧
      (s2.mem 1).it_flags.linked = false ∧ s2.slab_live 1 = true ∧
      (s2.mem 2).it_flags.linked = true ∧ s2.heads 1 = 2 ∧
      s2.curr_items = 1 ∧ s2.total_items = 2 := by
  have hI : Inv (stateAfter env0 opsSwap) (only1 [1]) :=
    inv_example _ _ (by decide) (by decide)
  obtain ⟨s1, s2, h1, h2, h3, _, _, h6, _, h8, h9, h10, h11, _, h13⟩ :=
    C15_swap env0 (stateAfter env0 opsSwap) (only1 [1]) 1 2 hI (by decide) (by decide)
      (by decide) (by decide) (by decide)
  exact ⟨hI, s1, s2, h1, h2, h3, h6, (h8 (by decide)).2, h9, h10, h11, h13 (by decide)⟩

/-! ## C14: status exclusion -/

/-- No item is both SLABBED and LINKED, and a SLABBED item has class tag 0. -/
def FlagInv (s : State) : Prop :=
  ∀ x, (s.mem x).it_flags.slabbed = true →
    (s.mem x).it_flags.linked = false ∧ (s.mem x).slabs_clsid = 0

/-- The state `s1` has the flags and class tags of `s`. -/
def SameTags (s s1 : State) : Prop :=
  ∀ x, (s1.mem x).it_flags = (s.mem x).it_flags ∧
    (s1.mem x).slabs_clsid = (s.mem x).slabs_clsid

theorem FlagInv.of_same {s s1 : State} (h : FlagInv s) (hs : SameTags s s1) : FlagInv s1 := by
  intro x hx
  rw [(hs x).1] at hx ⊢
  rw [(hs x).2]
  exact h x hx

/-- The heap `m1` has the flags and class tags of `m`. -/
def tagsEq (m m1 : Nat → Item) : Prop :=
  ∀ x, (m1 x).it_flags = (m x).it_flags ∧ (m1 x).slabs_clsid = (m x).slabs_clsid

theorem tagsEq_refl (m : Nat → Item) : tagsEq m m := fun _ => ⟨rfl, rfl⟩

theorem tagsEq_store {m m1 : Nat → Item} (h : tagsEq m m1) (p : Nat) (v : Item)
    (hv : v.it_flags = (m1 p).it_flags ∧ v.slabs_clsid = (m1 p).slabs_clsid) :
    tagsEq m (store m1 p v) := by
  intro x
  by_cases hx : x = p
  · rw [hx, store_same, hv.1, hv.2]; exact h p
  · rw [store_other _ _ _ _ hx]; exact h x

theorem tagsEq_ite_store {m m1 : Nat → Item} (h : tagsEq m m1) (c : Prop) [Decidable c]
    (p : Nat) (v : Item)
    (hv : v.it_flags = (m1 p).it_flags ∧ v.slabs_clsid = (m1 p).slabs_clsid) :
    tagsEq m (if c then store m1 p v else m1) := by
  split
  · exact tagsEq_store h p v hv
  · exact h

theorem item_link_q_tags (s : State) (it : Nat) (s1 : State)
    (h : item_link_q s it = .ok s1) : SameTags s s1 := by
  simp only [item_link_q] at h
  split at h
  · exact Except.noConfusion h
  split at h
  · exact Except.noConfusion h
  split at h
  · exact Except.noConfusion h
  have := Except.ok.inj h
  subst this
  apply tagsEq_ite_store
  · exact tagsEq_store (tagsEq_refl s.mem) it _ ⟨rfl, rfl⟩
  · exact ⟨rfl, rfl⟩

theorem item_unlink_q_tags (s : State) (it : Nat) (s1 : State)
    (h : item_unlink_q s it = .ok s1) : SameTags s s1 := by
  simp only [item_unlink_q] at h
  split at h
  · exact Except.noConfusion h
  split at h
  · exact Except.noConfusion h
  split at h
  · exact Except.noConfusion h
  split at h
  · exact Except.noConfusion h
  have := Except.ok.inj h
  subst this
  apply tagsEq_ite_store
  · apply tagsEq_ite_store
    · exact tagsEq_refl s.mem
    · exact ⟨rfl, rfl⟩
  · exact ⟨rfl, rfl⟩

theorem item_free_flags (env : Env) (s : State) (it : Nat) (s1 : State) (hF : FlagInv s)
    (h : item_free env s it = .ok s1) : FlagInv s1 := by
  simp only [item_free, slabs_free] at h
  split at h
  · exact Except.noConfusion h
  rename_i hlk
  split at h
  · exact Except.noConfusion h
  split at h
  · exact Except.noConfusion h
  split at h
  · exact Except.noConfusion h
  have := Except.ok.inj h
  subst this
  intro x hx
  by_cases hxi : x = it
  · subst hxi
    have hl : (s.mem x).it_flags.linked = false := by simpa using hlk
    simp [store, hl]
  · simp only [store, if_neg hxi] at hx ⊢
    exact hF x hx

theorem FlagInv.store_item {s s1 : State} (h : FlagInv s) (it : Nat) (v : Item)
    (hm : s1.mem = store s.mem it v)
    (hv : v.it_flags.slabbed = true → v.it_flags.linked = false ∧ v.slabs_clsid = 0) :
    FlagInv s1 := by
  intro x hx
  rw [hm] at hx ⊢
  by_cases hxi : x = it
  · rw [hxi, store_same] at hx ⊢; exact hv hx
  · rw [store_other _ _ _ _ hxi] at hx ⊢; exact h x hx

theorem item_link_flags (env : Env) (s : State) (it : Nat) (p : Nat × State) (hF : FlagInv s)
    (h : item_link env s it = .ok p) : FlagInv p.2 := by
  simp only [item_link] at h
  split at h
  · exact Except.noConfusion h
  rename_i h194
  split at h
  · exact Except.noConfusion h
  split at h
  · exact Except.noConfusion h
  rename_i s2 hq
  have := Except.ok.inj h
  subst this
  refine FlagInv.of_same ?_ (item_link_q_tags _ it s2 hq)
  refine FlagInv.store_item hF it _ rfl ?_
  intro hsl
  exfalso
  exact h194 (Or.inr hsl)

theorem item_unlink_flags (env : Env) (s : State) (it : Nat) (s1 : State) (hF : FlagInv s)
    (h : item_unlink env s it = .ok s1) : FlagInv s1 := by
  by_cases hlk : (s.mem it).it_flags.linked = true
  · rw [item_unlink_linked_eq env s it hlk] at h
    split at h
    · exact Except.noConfusion h
    rename_i s2 hq
    have hF2 : FlagInv s2 := by
      refine FlagInv.of_same ?_ (item_unlink_q_tags _ it s2 hq)
      refine FlagInv.store_item hF it _ rfl ?_
      intro hsl
      have := (hF it hsl).1
      rw [hlk] at this
      exact Bool.noConfusion this
    split at h
    · exact item_free_flags env s2 it s1 hF2 h
    · have := Except.ok.inj h
      subst this
      exact hF2
  · have hlk : (s.mem it).it_flags.linked = false := by simpa using hlk
    rw [item_unlink_unlinked_eq env s it hlk] at h
    split at h
    · exact item_free_flags env s it s1 hF h
    · have := Except.ok.inj h
      subst this
      exact hF

theorem item_remove_flags (env : Env) (s : State) (it : Nat) (s1 : State) (hF : FlagInv s)
    (h : item_remove env s it = .ok s1) : FlagInv s1 := by
  by_cases hsl : (s.mem it).it_flags.slabbed = true
  · simp only [item_remove, hsl, if_true] at h
    exact Except.noConfusion h
  have hsl : (s.mem it).it_flags.slabbed = false := by simpa using hsl
  by_cases h223 : (s.mem it).it_flags.deleted = false ∨ (s.mem it).refcount - 1 ≠ 0
  · rw [item_remove_eq env s it hsl h223] at h
    have hF1 : FlagInv { s with
        mem := store s.mem it { s.mem it with refcount := (s.mem it).refcount - 1 } } :=
      FlagInv.store_item hF it _ rfl (hF it)
    split at h
    · exact item_free_flags env _ it s1 hF1 h
    · have := Except.ok.inj h
      subst this
      exact hF1
  · exfalso
    simp only [not_or, not_not] at h223
    have hd : (s.mem it).it_flags.deleted = true := by simpa using h223.1
    by_cases h0 : (s.mem it).refcount = 0
    · simp [item_remove, hsl, h0, hd] at h
    · have : (s.mem it).refcount - 1 = 0 := h223.2
      simp [item_remove, hsl, h0, hd, this] at h

theorem item_update_flags (s : State) (it : Nat) (s1 : State) (hF : FlagInv s)
    (h : item_update s it = .ok s1) : FlagInv s1 := by
  simp only [item_update] at h
  split at h
  · split at h
    · exact Except.noConfusion h
    split at h
    · exact Except.noConfusion h
    rename_i s2 hq
    refine FlagInv.of_same ?_ (item_link_q_tags _ it s1 h)
    refine FlagInv.store_item (FlagInv.of_same hF (item_unlink_q_tags s it s2 hq)) it _ rfl ?_
    exact FlagInv.of_same hF (item_unlink_q_tags s it s2 hq) it
  · have := Except.ok.inj h
    subst this
    exact hF

theorem item_replace_flags (env : Env) (s : State) (it new_it : Nat) (p : Nat × State)
    (hF : FlagInv s) (h : item_replace env s it new_it = .ok p) : FlagInv p.2 := by
  simp only [item_replace] at h
  split at h
  · exact Except.noConfusion h
  split at h
  · exact Except.noConfusion h
  rename_i s2 hq
  exact item_link_flags env s2 new_it p (item_unlink_flags env s it s2 hF hq) h

theorem evict_scan_flags (env : Env) (s : State) (hF : FlagInv s) : ∀ (tries search : Nat)
    (s1 : State), evict_scan env s tries search = .ok s1 → FlagInv s1
  | 0, _, s1, h => by
    have := Except.ok.inj h
    subst this
    exact hF
  | tries + 1, search, s1, h => by
    simp only [evict_scan] at h
    split at h
    · have := Except.ok.inj h
      subst this
      exact hF
    split at h
    · exact item_unlink_flags env s search s1 hF h
    · exact evict_scan_flags env s hF tries _ s1 h

theorem alloc_step_flags (s : State) (r id : Nat) (key : List Char) (nkey exptime : Nat)
    (nbytes : Int) (suffix : List Char) (nsuffix : Nat) (p : Nat × State) (hF : FlagInv s)
    (h : alloc_step s r id key nkey exptime nbytes suffix nsuffix = .ok p) : FlagInv p.2 := by
  by_cases h0 : r = 0
  · subst h0
    simp only [alloc_step, slabs_alloc_null, if_true] at h
    have := Except.ok.inj h
    subst this
    exact hF
  · have hfree : s.slab_live r = false :=
      (alloc_step_inv s r id key nkey exptime nbytes suffix nsuffix p.1 p.2 h).resolve_left h0
    simp only [alloc_step, slabs_alloc_some s r h0 hfree, if_neg h0, item_alloc_fill] at h
    split at h
    · exact Except.noConfusion h
    split at h
    · exact Except.noConfusion h
    have := Except.ok.inj h
    subst this
    refine FlagInv.store_item hF r _ rfl ?_
    intro hsl
    exact Bool.noConfusion hsl

theorem item_alloc_flags (env : Env) (s : State) (key : List Char) (nkey : Nat) (flags : Int)
    (exptime : Nat) (nbytes : Int) (r1 r2 : Nat) (p : Nat × State) (hF : FlagInv s)
    (h : item_alloc env s key nkey flags exptime nbytes r1 r2 = .ok p) : FlagInv p.2 := by
  by_cases hz : env.slabs_clsid (item_make_header env (nkey + 1) flags nbytes).2.2 = 0
  · simp only [item_alloc, if_pos hz] at h
    have := Except.ok.inj h
    subst this
    exact hF
  by_cases hr1 : r1 = 0
  · subst hr1
    rw [item_alloc_null_eq env s key nkey flags exptime nbytes r2 hz] at h
    have hb : FlagInv { s with slab_allocs := s.slab_allocs + 1 } := hF
    split at h
    · have := Except.ok.inj h
      subst this
      exact hb
    split at h
    · have := Except.ok.inj h
      subst this
      exact hb
    split at h
    · have := Except.ok.inj h
      subst this
      exact hb
    split at h
    · exact Except.noConfusion h
    rename_i s2 hscan
    exact alloc_step_flags s2 _ _ _ _ _ _ _ _ p (evict_scan_flags env _ hb 50 _ s2 hscan) h
  · rw [item_alloc_first_eq env s key nkey flags exptime nbytes r1 r2 hz hr1] at h
    exact alloc_step_flags s _ _ _ _ _ _ _ _ p hF h

theorem flush_class_flags (env : Env) : ∀ (fuel : Nat) (s : State) (iter : Nat) (s1 : State),
    FlagInv s → flush_class env fuel s iter = .ok s1 → FlagInv s1
  | 0, s, iter, s1, hF, h => by
    simp only [flush_class] at h
    split at h
    · have := Except.ok.inj h
      subst this
      exact hF
    · exact Except.noConfusion h
  | fuel + 1, s, iter, s1, hF, h => by
    simp only [flush_class] at h
    split at h
    · have := Except.ok.inj h
      subst this
      exact hF
    split at h
    · split at h
      · split at h
        · exact Except.noConfusion h
        rename_i s2 hq
        exact flush_class_flags env fuel s2 _ s1 (item_unlink_flags env s iter s2 hF hq) h
      · exact flush_class_flags env fuel s _ s1 hF h
    · have := Except.ok.inj h
      subst this
      exact hF

theorem flush_loop_flags (env : Env) (fuel : Nat) : ∀ (cs : List Nat) (s s1 : State),
    FlagInv s → flush_loop env fuel cs s = .ok s1 → FlagInv s1
  | [], s, s1, hF, h => by
    have := Except.ok.inj h
    subst this
    exact hF
  | c :: cs, s, s1, hF, h => by
    simp only [flush_loop] at h
    split at h
    · exact Except.noConfusion h
    rename_i s2 hq
    exact flush_loop_flags env fuel cs s2 s1 (flush_class_flags env fuel s _ s2 hF hq) h

/-- Every call that returns keeps the exclusion of SLABBED and LINKED. -/
theorem run_flags (env : Env) (s s1 : State) (op : Op) (hF : FlagInv s)
    (hrun : run env s op = .ok s1) : FlagInv s1 := by
  cases op with
  | alloc key nkey flags exptime nbytes r1 r2 =>
    simp only [run] at hrun
    cases ha : item_alloc env s key nkey flags exptime nbytes r1 r2 with
    | error e => rw [ha] at hrun; exact Except.noConfusion hrun
    | ok p =>
      rw [ha] at hrun
      have := Except.ok.inj hrun
      subst this
      exact item_alloc_flags env s key nkey flags exptime nbytes r1 r2 p hF ha
  | link it =>
    simp only [run] at hrun
    cases ha : item_link env s it with
    | error e => rw [ha] at hrun; exact Except.noConfusion hrun
    | ok p =>
      rw [ha] at hrun
      have := Except.ok.inj hrun
      subst this
      exact item_link_flags env s it p hF ha
  | unlink it => exact item_unlink_flags env s it s1 hF hrun
  | remove it => exact item_remove_flags env s it s1 hF hrun
  | update it => exact item_update_flags s it s1 hF hrun
  | replace it new_it =>
    simp only [run] at hrun
    cases ha : item_replace env s it new_it with
    | error e => rw [ha] at hrun; exact Except.noConfusion hrun
    | ok p =>
      rw [ha] at hrun
      have := Except.ok.inj hrun
      subst this
      exact item_replace_flags env s it new_it p hF ha
  | flush fuel =>
    simp only [run, item_flush_expired] at hrun
    split at hrun
    · have := Except.ok.inj hrun
      subst this
      exact hF
    · exact flush_loop_flags env fuel _ s s1 hF hrun
  | tick t =>
    have := Except.ok.inj hrun
    subst this
    exact hF
  | hold it =>
    have := Except.ok.inj hrun
    subst this
    exact FlagInv.store_item hF it _ rfl (hF it)
  | set_oldest_live t =>
    have := Except.ok.inj hrun
    subst this
    exact hF
  | set_evict_to_free b =>
    have := Except.ok.inj hrun
    subst this
    exact hF

/-- C14: in every state reachable from `item_init` by `item_alloc`,
`item_link`, `item_unlink`, `item_remove`, `item_update`, `item_replace` and
`item_flush_expired` calls in which no assertion fails (whatever else is
required of the calls), no item has both LINKED and SLABBED set, and every
item with SLABBED set has class tag 0. -/
theorem C14_status_exclusion (env : Env) (P : State → Op → Prop) (s : State)
    (hs : Reach env P s) (x : Nat) :
    ¬ ((s.mem x).it_flags.linked = true ∧ (s.mem x).it_flags.slabbed = true) ∧
    ((s.mem x).it_flags.slabbed = true → (s.mem x).slabs_clsid = 0) := by
  have hF : FlagInv s := by
    induction hs with
    | init => intro y hy; simp [item_init, startup, Item.zero] at hy
    | step s s1 op _ _ hrun ih => exact run_flags env s s1 op ih hrun
  refine ⟨fun h => ?_, fun h => (hF x h).2⟩
  have := (hF x h.2).1
  rw [h.1] at this
  exact Bool.noConfusion this

/-- Example calls: an item is linked and unlinked again, which frees it. -/
def opsFreed : List Op := [.alloc ['k'] 1 0 0 10 1 0, .link 1, .unlink 1]

/-- C14 at a concrete state: the freed item is SLABBED, not LINKED, with
class tag 0. -/
theorem C14_witness :
    Reach env0 (Op.valid env0) (stateAfter env0 opsFreed) ∧
    ((stateAfter env0 opsFreed).mem 1).it_flags.slabbed = true ∧
    (¬ (((stateAfter env0 opsFreed).mem 1).it_flags.linked = true ∧
        ((stateAfter env0 opsFreed).mem 1).it_flags.slabbed = true) ∧
     (((stateAfter env0 opsFreed).mem 1).it_flags.slabbed = true →
        ((stateAfter env0 opsFreed).mem 1).slabs_clsid = 0)) :=
  ⟨reach_stateAfter _ _ _ (by decide), by decide,
    C14_status_exclusion env0 (Op.valid env0) _ (reach_stateAfter _ _ _ (by decide)) 1⟩

/-! ## C18: the pointer list refines a sequence -/

/-- The bucket of the specification: the members, head first, and the count. -/
structure Bucket where
  items : List Nat
  count : Nat

/-- `push_front` of the specification: the item becomes the new head (and the
tail too if the list was empty); `count += 1`. -/
def Bucket.push_front (b : Bucket) (it : Nat) : Bucket :=
  { items := it :: b.items, count := b.count + 1 }

/-- `unlink` of the specification: the item is spliced out, the others keep
their order; `count -= 1`. -/
def Bucket.unlink (b : Bucket) (it : Nat) : Bucket :=
  { items := b.items.erase it, count := b.count - 1 }

/-- Class `c` of the state `s` is well formed and represents the bucket `b`:
the pointers form the sequence of the members, and the count is their number. -/
def refines (s : State) (c : Nat) (b : Bucket) : Prop :=
  listOk s c b.items ∧ s.sizes c = b.count ∧ b.count = b.items.length

instance refines.decide (s : State) (c : Nat) (b : Bucket) : Decidable (refines s c b) :=
  (inferInstance : Decidable (_ ∧ _ ∧ _))

/-- What a well-formed list means for the pointers: the head has no `prev`, the
tail has no `next`, the head is absent exactly when the tail is, and `next` and
`prev` of neighbours are inverse to each other. -/
theorem listOk_pointers {s : State} {c : Nat} {l : List Nat} (h : listOk s c l) :
    (s.heads c ≠ 0 → (s.mem (s.heads c)).prev = 0) ∧
    (s.tails c ≠ 0 → (s.mem (s.tails c)).next = 0) ∧
    (s.heads c = 0 ↔ s.tails c = 0) ∧
    ∀ x, x ∈ l → (s.mem x).next ≠ 0 → (s.mem (s.mem x).next).prev = x := by
  obtain ⟨hh, ht, hseg, hnd⟩ := h
  refine ⟨?_, ?_, ?_, ?_⟩
  · intro _
    cases l with
    | nil => rw [hh]; simp at *; exact absurd hh ‹_›
    | cons x xs => rw [hh]; exact hseg.2.1
  · intro _
    rcases List.eq_nil_or_concat l with rfl | ⟨l0, a, hl⟩
    · simp at ht; exact absurd ht ‹_›
    · rw [List.concat_eq_append] at hl
      subst hl
      have := ((seg_append l0 [a] 0 0).1 hseg).2
      have e : (l0 ++ [a]).getLastD 0 = a := by simp
      rw [ht, e]
      exact this.2.2.1
  · cases l with
    | nil => simp [hh, ht]
    | cons x xs =>
      have h1 : s.heads c ≠ 0 := by rw [hh]; exact hseg.1
      have h2 : s.tails c ≠ 0 := by
        rw [ht]
        exact seg_ne_zero _ _ _ hseg _ (getLastD_mem_of_ne_nil _ 0 (List.cons_ne_nil _ _))
      exact ⟨fun h => absurd h h1, fun h => absurd h h2⟩
  · intro x hx hn
    obtain ⟨l1, l2, rfl⟩ := List.append_of_mem hx
    obtain ⟨_, _, _, hnx, hB⟩ := (seg_append l1 (x :: l2) 0 0).1 hseg
    cases l2 with
    | nil => exact absurd hnx hn
    | cons y ys =>
      simp only [List.headD_cons] at hnx
      rw [hnx]
      exact hB.2.1

theorem u32_succ_pred (n : Nat) (h : n + 1 < 4294967296) :
    u32 ((u32 ((n : Int) + 1) : Int) - 1) = n := by
  simp only [u32]
  omega

theorem u32_pred (n : Nat) (h : n < 4294967296) : u32 ((n : Int) - 1) = n - 1 ∨ n = 0 := by
  simp only [u32]
  omega

/-- C18: let class `c` be well formed and represent the bucket `b` (see
`refines` and `listOk_pointers`), with room in the 32-bit count for one more
member.  `item_link_q` of an item of the class that is not in the list
represents `push_front`: the item followed by the old members, count + 1.
`item_unlink_q` of a member represents `unlink`: the old members without the
item, in the same order, count - 1, head and tail being those of the new
sequence.  And `item_link_q` followed by `item_unlink_q` of the same item gives
back the head, the tail, the count and the sequence. -/
theorem C18_list_refines_sequence (s : State) (c : Nat) (b : Bucket)
    (hr : refines s c b) (hroom : b.count + 1 < 4294967296) :
    (∀ it, (s.mem it).slabs_clsid = c → it ∉ b.items → it ≠ 0 →
      (s.mem it).it_flags.slabbed = false →
      ∃ s1, item_link_q s it = .ok s1 ∧ refines s1 c (b.push_front it) ∧
        s1.heads c = it ∧ (b.items = [] → s1.tails c = it) ∧
        (b.items ≠ [] → s1.tails c = s.tails c)) ∧
    (∀ it, (s.mem it).slabs_clsid = c → it ∈ b.items →
      ∃ s1, item_unlink_q s it = .ok s1 ∧ refines s1 c (b.unlink it) ∧
        s1.heads c = (b.items.erase it).headD 0 ∧
        s1.tails c = (b.items.erase it).getLastD 0) ∧
    (∀ it, (s.mem it).slabs_clsid = c → it ∉ b.items → it ≠ 0 →
      (s.mem it).it_flags.slabbed = false →
      ∃ s1 s2, item_link_q s it = .ok s1 ∧ item_unlink_q s1 it = .ok s2 ∧
        refines s2 c b ∧ s2.heads c = s.heads c ∧ s2.tails c = s.tails c ∧
        s2.sizes c = s.sizes c) := by
  obtain ⟨hl, hcnt, hlen⟩ := hr
  have hlink : ∀ it, (s.mem it).slabs_clsid = c → it ∉ b.items → it ≠ 0 →
      (s.mem it).it_flags.slabbed = false →
      ∃ s1, item_link_q s it = .ok s1 ∧ listOk s1 c (it :: b.items) ∧
        s1.sizes c = b.count + 1 ∧ (s1.mem it).slabs_clsid = c := by
    intro it hc hn h0 hsl
    obtain ⟨s1, hrun, hok, hq, hsz⟩ := item_link_q_ok s it c b.items hc hl hn h0 hsl
    refine ⟨s1, hrun, hok, ?_, by rw [(hq.flags it).2.1]; exact hc⟩
    rw [hsz, hcnt, u32_succ, Nat.mod_eq_of_lt hroom]
  refine ⟨?_, ?_, ?_⟩
  · intro it hc hn h0 hsl
    obtain ⟨s1, hrun, hok, hsz, _⟩ := hlink it hc hn h0 hsl
    refine ⟨s1, hrun, ⟨hok, hsz, ?_⟩, hok.1, ?_, ?_⟩
    · simp [Bucket.push_front, hlen]
    · intro hnil
      rw [hok.2.1, hnil]; rfl
    · intro hne
      obtain ⟨x, xs, hx⟩ := List.exists_cons_of_ne_nil hne
      rw [hok.2.1, hl.2.1, hx]; rfl
  · intro it hc hin
    obtain ⟨l1, l2, hsplit⟩ := List.append_of_mem hin
    have hnd := hl.2.2.2
    rw [hsplit] at hnd
    have hit1 : it ∉ l1 := fun h =>
      (List.nodup_append.1 hnd).2.2 h (List.mem_cons_self _ _)
    have hE : b.items.erase it = l1 ++ l2 := by rw [hsplit]; exact erase_mid l1 l2 it hit1
    obtain ⟨s1, hrun, hok, _, hsz⟩ := item_unlink_q_ok s it c l1 l2 hc (hsplit ▸ hl)
    rw [← hE] at hok
    refine ⟨s1, hrun, ⟨hok, ?_, ?_⟩, hok.1, hok.2.1⟩
    · rw [hsz, hcnt]
      rcases u32_pred b.count (by omega) with h | h
      · exact h
      · exfalso
        rw [hlen, hsplit] at h
        simp at h
    · show b.count - 1 = (b.items.erase it).length
      rw [List.length_erase_of_mem hin, hlen]
  · intro it hc hn h0 hsl
    obtain ⟨s1, hrun, hok, hsz, hc1⟩ := hlink it hc hn h0 hsl
    obtain ⟨s2, hrun2, hok2, _, hsz2⟩ := item_unlink_q_ok s1 it c [] b.items hc1 hok
    simp only [List.nil_append] at hok2
    refine ⟨s1, s2, hrun, hrun2, ⟨hok2, ?_, hlen⟩, hok2.1.trans hl.1.symm,
      hok2.2.1.trans hl.2.1.symm, ?_⟩
    · rw [hsz2, hsz]
      have := u32_succ_pred b.count hroom
      rw [u32_succ, Nat.mod_eq_of_lt hroom] at this
      exact_mod_cast this
    · rw [hsz2, hsz, hcnt]
      have := u32_succ_pred b.count hroom
      rw [u32_succ, Nat.mod_eq_of_lt hroom] at this
      exact_mod_cast this

/-- C18 at a concrete state: the list 3, 2, 1 of class 1. -/
theorem C18_witness :
    refines (stateAfter env0 opsThree) 1 { items := [3, 2, 1], count := 3 } ∧
    (∃ s1, item_unlink_q (stateAfter env0 opsThree) 2 = .ok s1 ∧
      refines s1 1 { items := [3, 1], count := 2 } ∧ s1.heads 1 = 3 ∧ s1.tails 1 = 1) := by
  have hr : refines (stateAfter env0 opsThree) 1 { items := [3, 2, 1], count := 3 } := by
    decide
  obtain ⟨s1, h1, h2, h3, h4⟩ :=
    (C18_list_refines_sequence (stateAfter env0 opsThree) 1 { items := [3, 2, 1], count := 3 }
      hr (by decide)).2.1 2 (by decide) (by decide)
  exact ⟨hr, s1, h1, h2, h3, h4⟩

/-! ## C19: indexing of the bucket tables -/

/-- The range guard of `item_cachedump` (line 256). -/
def cachedump_guard (slabs_clsid : Nat) : Bool := decide (slabs_clsid > LARGEST_ID)

/-- The tables `heads`, `tails` and `sizes` are declared with `LARGEST_ID`
entries (lines 34-36): `i` is an index into them. -/
def in_table (i : Nat) : Prop := i < LARGEST_ID

instance in_table.decide (i : Nat) : Decidable (in_table i) :=
  (inferInstance : Decidable (i < LARGEST_ID))

/-- C19, the code at the failing input: the class id 255 passes the range guard
of the eviction path of `item_alloc` and that of `item_cachedump`, and is not an
index into the tables; every smaller id that passes is one. -/
theorem C19_guard_admits_largest_id :
    evict_guard 255 = false ∧ cachedump_guard 255 = false ∧ ¬ in_table 255 ∧
    ∀ id, cachedump_guard id = false → id ≠ 255 → in_table id := by
  refine ⟨by decide, by decide, by decide, ?_⟩
  intro id h hne
  simp only [cachedump_guard, decide_eq_false_iff_not, not_lt, LARGEST_ID] at h
  simp only [in_table, LARGEST_ID]
  omega

/-! ## C20: the rendered header -/

theorem repr_length_pos (n : Nat) : 1 ≤ (Nat.repr n).length := by
  simp only [Nat.repr, Nat.toDigits, String.length, List.asString, Nat.toDigitsCore]
  split
  · simp
  · rw [Nat.toDigitsCore_lens_eq]
    exact Nat.le_add_left _ _

theorem u32_lt (x : Int) : u32 x < 4294967296 := by
  simp only [u32]
  omega

theorem repr_u32_length (x : Int) :
    1 ≤ (Nat.repr (u32 x)).data.length ∧ (Nat.repr (u32 x)).data.length ≤ 10 := by
  refine ⟨repr_length_pos _, ?_⟩
  exact Nat.repr_length (u32 x) 10 (by decide) (lt_trans (u32_lt x) (by decide))

theorem i32_of_range (x : Int) (h1 : -2147483648 ≤ x) (h2 : x ≤ 2147483647) : i32 x = x := by
  simp only [i32]
  omega

/-- C20, as stated, fails when the total overflows `int`: with
`sizeof(item) = 48`, key length 1, flags 0 and `nbytes = 2147483647` the
suffix has length 15 and the returned total is `-2147483585`, not
`48 + 1 + 15 + 2147483647`. -/
theorem C20_counterexample :
    (item_make_header env0 1 0 2147483647).2.1 = 15 ∧
    (item_make_header env0 1 0 2147483647).2.2 = -2147483585 ∧
    (item_make_header env0 1 0 2147483647).2.2 ≠
      ((env0.sizeof_item + 1 % 256 + (item_make_header env0 1 0 2147483647).2.1 : Nat) : Int)
        + 2147483647 := by
  refine ⟨by decide, by decide, by decide⟩

/-- C20, amended: for all `flags` and `nbytes`, the suffix `item_make_header`
produces is the text `" <flags> <nbytes-2>\r\n"` with both numbers rendered as
unsigned 32-bit decimals; its reported length is the length of that text and
lies between 6 and 24, so the suffix and its terminator fit a 40-byte buffer;
the returned total is `sizeof(item) + nkey + nsuffix + nbytes`, with `nkey` the
key-length argument reduced to 8 bits, reduced to a signed 32-bit `int`: it is
that sum itself whenever the sum does not exceed `2^31 - 1`. -/
theorem C20_header_rendering (env : Env) (nkey : Nat) (flags nbytes : Int) :
    (item_make_header env nkey flags nbytes).1 =
      ' ' :: (Nat.repr (u32 flags)).data ++ ' ' :: (Nat.repr (u32 (nbytes - 2))).data
        ++ ['\r', '\n'] ∧
    (item_make_header env nkey flags nbytes).2.1 =
      (item_make_header env nkey flags nbytes).1.length ∧
    6 ≤ (item_make_header env nkey flags nbytes).2.1 ∧
    (item_make_header env nkey flags nbytes).2.1 ≤ 24 ∧
    (item_make_header env nkey flags nbytes).2.1 + 1 ≤ 40 ∧
    (item_make_header env nkey flags nbytes).2.2 =
      i32 (((env.sizeof_item + nkey % 256 + (item_make_header env nkey flags nbytes).2.1 : Nat)
        : Int) + nbytes) ∧
    (-2147483648 ≤ nbytes →
      ((env.sizeof_item + nkey % 256 + (item_make_header env nkey flags nbytes).2.1 : Nat)
        : Int) + nbytes ≤ 2147483647 →
      (item_make_header env nkey flags nbytes).2.2 =
        ((env.sizeof_item + nkey % 256 + (item_make_header env nkey flags nbytes).2.1 : Nat)
          : Int) + nbytes) := by
  obtain ⟨a1, a2⟩ := repr_u32_length flags
  obtain ⟨b1, b2⟩ := repr_u32_length (nbytes - 2)
  have hlen : (item_make_header env nkey flags nbytes).2.1 =
      (Nat.repr (u32 flags)).data.length + (Nat.repr (u32 (nbytes - 2))).data.length + 4 := by
    simp only [item_make_header, render_suffix, List.length_cons, List.length_append,
      List.length_nil]
    omega
  have htot : (item_make_header env nkey flags nbytes).2.2 =
      i32 (((env.sizeof_item + nkey % 256 + (item_make_header env nkey flags nbytes).2.1 : Nat)
        : Int) + nbytes) := by
    simp only [item_make_header]
    push_cast
    rfl
  refine ⟨rfl, rfl, by omega, by omega, by omega, htot, ?_⟩
  intro h1 h2
  rw [htot]
  exact i32_of_range _ (by omega) h2

/-- C20 at a concrete input: `sizeof(item) = 48`, key length 1, flags 0 and
`nbytes = 10` give the suffix `" 0 8\r\n"` of length 6 and the total 65. -/
theorem C20_witness :
    (-2147483648 : Int) ≤ 10 ∧
    (item_make_header env0 1 0 10).1 = [' ', '0', ' ', '8', '\r', '\n'] ∧
    (item_make_header env0 1 0 10).2.2 =
      ((env0.sizeof_item + 1 % 256 + (item_make_header env0 1 0 10).2.1 : Nat) : Int) + 10 :=
  ⟨by decide, by decide,
    (C20_header_rendering env0 1 0 10).2.2.2.2.2.2 (by decide) (by decide)⟩

/-! ## C16: `item_cachedump` -/

/-- The size of the output buffer of `item_cachedump` (line 248). -/
def memlimit : Nat := 2 * 1024 * 1024

/-- The text `sprintf` writes for one item at line 263:
`"ITEM %s [%u b; %lu s]\r\n"` of the key, `nbytes - 2` and `time + stats.started`
(`unsigned long` is 64 bits wide). -/
def cachedump_entry (started : Nat) (it : Item) : List Char :=
  ['I', 'T', 'E', 'M', ' '] ++ it.key ++ [' ', '['] ++
    (Nat.repr (u32 (it.nbytes - 2))).data ++ [' ', 'b', ';', ' '] ++
    (Nat.repr ((it.time + started) % 18446744073709551616)).data ++
    [' ', 's', ']', '\r', '\n']

/-- The loop of `item_cachedump` (lines 262-271).  `buffer` holds the text
written so far; `strcpy(buffer + bufcurr, temp)` replaces what follows offset
`bufcurr` by `temp`. -/
def cachedump_loop (s : State) (limit started : Nat) :
    Nat → Nat → List Char → Nat → Nat → Except Nat (List Char × Nat)
  | 0, _, _, _, _ => .error 0
  | fuel + 1, it, buffer, bufcurr, shown =>
    if it ≠ 0 ∧ (limit = 0 ∨ shown < limit) then
      if bufcurr + (cachedump_entry started (s.mem it)).length + 6 > memlimit then
        .ok (buffer, bufcurr)
      else
        cachedump_loop s limit started fuel (s.mem it).next
          (buffer.take bufcurr ++ cachedump_entry started (s.mem it))
          (bufcurr + (cachedump_entry started (s.mem it)).length) (shown + 1)
    else .ok (buffer, bufcurr)

/-- `item_cachedump`.  `started` is `stats.started`, `malloc_ok` tells whether
`malloc` returned a buffer, `fuel` bounds the iterations of the loop.  The
result is `none` for the return value `0`, else the text in the buffer and the
value stored in `*bytes`. -/
def item_cachedump (fuel : Nat) (s : State) (slabs_clsid limit started : Nat)
    (malloc_ok : Bool) : Except Nat (Option (List Char × Nat)) :=
  if cachedump_guard slabs_clsid then .ok none
  else if malloc_ok = false then .ok none
  else
    match cachedump_loop s limit started fuel (s.heads slabs_clsid) [] 0 0 with
    | .error e => .error e
    | .ok (buffer, bufcurr) =>
      .ok (some (buffer.take bufcurr ++ ['E', 'N', 'D', '\r', '\n'], bufcurr + 5))

/-- The entries of the items `l`, in order. -/
def cachedump_entries (s : State) (started : Nat) : List Nat → List Char
  | [] => []
  | x :: xs => cachedump_entry started (s.mem x) ++ cachedump_entries s started xs

theorem cachedump_loop_seg (s : State) (limit started : Nat) :
    ∀ (l : List Nat) (p fuel : Nat) (buffer : List Char) (bufcurr shown : Nat),
    seg s.mem p l 0 → l.length < fuel → buffer.length = bufcurr →
    bufcurr + 6 ≤ memlimit →
    ∃ k, k ≤ l.length ∧
      cachedump_loop s limit started fuel (l.headD 0) buffer bufcurr shown =
        .ok (buffer ++ cachedump_entries s started (l.take k),
          bufcurr + (cachedump_entries s started (l.take k)).length) ∧
      bufcurr + (cachedump_entries s started (l.take k)).length + 6 ≤ memlimit ∧
      (0 < limit → shown ≤ limit → shown + k ≤ limit) ∧
      (∀ x, l.get? k = some x →
        (limit ≠ 0 ∧ limit ≤ shown + k) ∨
        bufcurr + (cachedump_entries s started (l.take k)).length +
          (cachedump_entry started (s.mem x)).length + 6 > memlimit)
  | [], p, fuel, buffer, bufcurr, shown, _, hf, hb, hm => by
    obtain ⟨f, rfl⟩ : ∃ f, fuel = f + 1 := ⟨fuel - 1, by simp at hf; omega⟩
    refine ⟨0, le_refl _, ?_, ?_, ?_, ?_⟩
    · simp [cachedump_loop, cachedump_entries]
    · simpa [cachedump_entries] using hm
    · intro _ h; simpa using h
    · intro x hx; simp at hx
  | a :: xs, p, fuel, buffer, bufcurr, shown, hs, hf, hb, hm => by
    obtain ⟨f, rfl⟩ : ∃ f, fuel = f + 1 := ⟨fuel - 1, by simp at hf; omega⟩
    obtain ⟨h0, _, hn, ht⟩ := hs
    by_cases hlim : limit = 0 ∨ shown < limit
    · by_cases hbud : bufcurr + (cachedump_entry started (s.mem a)).length + 6 > memlimit
      · refine ⟨0, Nat.zero_le _, ?_, ?_, ?_, ?_⟩
        · simp only [List.headD_cons, cachedump_loop, if_pos (And.intro h0 hlim), if_pos hbud]
          simp [cachedump_entries]
        · simpa [cachedump_entries] using hm
        · intro _ h; simpa using h
        · intro x hx
          simp only [List.get?_cons_zero, Option.some.injEq] at hx
          subst hx
          right
          simpa [cachedump_entries] using hbud
      · obtain ⟨k, hk, hrun, hfit, hcnt, hstop⟩ :=
          cachedump_loop_seg s limit started xs a f
            (buffer.take bufcurr ++ cachedump_entry started (s.mem a))
            (bufcurr + (cachedump_entry started (s.mem a)).length) (shown + 1) ht
            (by simpa using hf)
            (by rw [← hb]; simp)
            (by omega)
        have htake : buffer.take bufcurr = buffer := by rw [← hb]; exact List.take_length _
        refine ⟨k + 1, by simpa using hk, ?_, ?_, ?_, ?_⟩
        · simp only [List.headD_cons, cachedump_loop, if_pos (And.intro h0 hlim), if_neg hbud, hn]
          rw [hrun]
          simp only [htake, List.take_succ_cons, cachedump_entries, List.length_append,
            List.append_assoc, Nat.add_assoc]
        · simp only [List.take_succ_cons, cachedump_entries, List.length_append]
          omega
        · intro hl hsl
          have := hcnt hl (by omega)
          omega
        · intro x hx
          simp only [List.get?_cons_succ] at hx
          rcases hstop x hx with h | h
          · left; exact ⟨h.1, by omega⟩
          · right
            simp only [List.take_succ_cons, cachedump_entries, List.length_append]
            omega
    · refine ⟨0, Nat.zero_le _, ?_, ?_, ?_, ?_⟩
      · simp only [List.headD_cons, cachedump_loop]
        rw [if_neg (fun h => hlim h.2)]
        simp [cachedump_entries]
      · simpa [cachedump_entries] using hm
      · intro _ h; simpa using h
      · intro x _
        left
        refine ⟨fun h => hlim (Or.inl h), ?_⟩
        have : ¬ shown < limit := fun h => hlim (Or.inr h)
        omega

/-- The dump of the list 3, 2, 1 of `opsThree` with limit 2 and the server
started at time 1000. -/
theorem cachedump_example :
    item_cachedump 4 (stateAfter env0 opsThree) 1 2 1000 true =
      .ok (some ("ITEM c [8 b; 1090 s]\r\nITEM b [8 b; 1050 s]\r\nEND\r\n".data, 49)) := by
  rfl

/-! ## C17: `item_stats_sizes` -/

/-- The number of histogram buckets of `item_stats_sizes` (line 301). -/
def num_buckets : Int := 32768

/-- Lines 318-319: the bucket of an item of total size `ntotal`, in C's `int`
arithmetic (division truncates). -/
def sizes_bucket (ntotal : Int) : Int :=
  if Int.tmod ntotal 32 ≠ 0 then i32 (Int.tdiv ntotal 32 + 1) else Int.tdiv ntotal 32

/-- The inner loop of `item_stats_sizes` (lines 316-322) over one class list;
`fuel` bounds its iterations.  The counters are `unsigned int`.  A negative
bucket would index before the array: the model stops there with `.error 320`. -/
def sizes_walk (env : Env) (s : State) : Nat → Nat → (Nat → Nat) → Except Nat (Nat → Nat)
  | 0, _, _ => .error 0
  | fuel + 1, iter, histogram =>
    if iter = 0 then .ok histogram
    else
      let ntotal := i32 (ITEM_ntotal env (s.mem iter))
      let bucket := sizes_bucket ntotal
      if bucket < 0 then .error 320
      else if bucket < num_buckets then
        sizes_walk env s fuel (s.mem iter).next
          (fun b => if b = bucket.toNat then (histogram b + 1) % 4294967296 else histogram b)
      else sizes_walk env s fuel (s.mem iter).next histogram

/-- The outer loop of `item_stats_sizes` (lines 314-323) over the classes `cs`. -/
def sizes_classes (env : Env) (fuel : Nat) (s : State) :
    List Nat → (Nat → Nat) → Except Nat (Nat → Nat)
  | [], histogram => .ok histogram
  | i :: cs, histogram =>
    match sizes_walk env s fuel (s.heads i) histogram with
    | .error e => .error e
    | .ok h1 => sizes_classes env fuel s cs h1

/-- One line of the output: `"%u %u\r\n"` of `i*32` and `histogram[i]`. -/
def sizes_line (i h : Nat) : List Char :=
  (Nat.repr (i * 32)).data ++ [' '] ++ (Nat.repr h).data ++ ['\r', '\n']

/-- The output loop of `item_stats_sizes` (lines 327-331) over the buckets `bs`. -/
def sizes_write (histogram : Nat → Nat) : List Nat → List Char
  | [] => []
  | i :: bs =>
    (if histogram i ≠ 0 then sizes_line i (histogram i) else []) ++ sizes_write histogram bs

/-- `item_stats_sizes`.  `malloc_hist` and `malloc_buf` tell whether the two
`malloc` calls returned memory; `fuel` bounds the walk of each list.  The
result is `none` for the return value `0`, else the text in the buffer and the
value stored in `*bytes`. -/
def item_stats_sizes (env : Env) (fuel : Nat) (s : State) (malloc_hist malloc_buf : Bool) :
    Except Nat (Option (List Char × Nat)) :=
  if malloc_hist = false ∨ malloc_buf = false then .ok none
  else
    match sizes_classes env fuel s (List.range LARGEST_ID) (fun _ => 0) with
    | .error e => .error e
    | .ok histogram =>
      .ok (some (sizes_write histogram (List.range num_buckets.toNat) ++
          ['E', 'N', 'D', '\r', '\n'],
        (sizes_write histogram (List.range num_buckets.toNat)).length + 5))

/-- The sum of the counts the histogram reports. -/
def sizes_reported (histogram : Nat → Nat) : List Nat → Nat
  | [] => 0
  | i :: bs => histogram i + sizes_reported histogram bs

theorem sizes_write_zero : ∀ (bs : List Nat), sizes_write (fun _ => 0) bs = []
  | [] => rfl
  | i :: bs => by simp [sizes_write, sizes_write_zero bs]

theorem sizes_reported_zero : ∀ (bs : List Nat), sizes_reported (fun _ => 0) bs = 0
  | [] => rfl
  | i :: bs => by simp [sizes_reported, sizes_reported_zero bs]

/-- Example calls: an item of total size exactly 1 MiB (`sizeof(item) = 48`,
key of length 1, payload of 1048514 bytes, suffix of 12) is stored and linked. -/
def opsMegabyte : List Op :=
  [.alloc ['k'] 1 0 0 1048514 1 0, .link 1]

set_option maxRecDepth 100000 in
theorem sizes_classes_megabyte :
    sizes_classes env0 2 (stateAfter env0 opsMegabyte) (List.range LARGEST_ID) (fun _ => 0) =
      .ok (fun _ => 0) := by
  rfl

set_option maxRecDepth 100000 in
/-- C17, the code at the failing input: after storing and linking one item of
total size 1048576 (which the call sequence admits), the item is linked, its
bucket is 32768, which is not below `num_buckets`, and `item_stats_sizes`
reports no bucket at all: its output is `END\r\n` and the reported counts sum
to 0, while one item is linked. -/
theorem C17_megabyte_item_not_counted :
    pathOk env0 (Op.proper env0) (item_init startup) opsMegabyte ∧
    ((stateAfter env0 opsMegabyte).mem 1).it_flags.linked = true ∧
    (stateAfter env0 opsMegabyte).heads 1 = 1 ∧
    (stateAfter env0 opsMegabyte).curr_items = 1 ∧
    ITEM_ntotal env0 ((stateAfter env0 opsMegabyte).mem 1) = 1048576 ∧
    sizes_bucket (i32 (ITEM_ntotal env0 ((stateAfter env0 opsMegabyte).mem 1))) = 32768 ∧
    ¬ (sizes_bucket (i32 (ITEM_ntotal env0 ((stateAfter env0 opsMegabyte).mem 1)))
      < num_buckets) ∧
    item_stats_sizes env0 2 (stateAfter env0 opsMegabyte) true true =
      .ok (some (['E', 'N', 'D', '\r', '\n'], 5)) ∧
    ∀ h, sizes_classes env0 2 (stateAfter env0 opsMegabyte) (List.range LARGEST_ID)
        (fun _ => 0) = .ok h → sizes_reported h (List.range num_buckets.toNat) = 0 := by
  refine ⟨by decide, by decide, by decide, by decide, by decide, by decide, by decide, ?_, ?_⟩
  · simp only [item_stats_sizes, sizes_classes_megabyte, sizes_write_zero]
    simp
  · intro h hh
    rw [sizes_classes_megabyte] at hh
    cases hh
    exact sizes_reported_zero _

/-- Item `x` falls into the reported bucket `b`. -/
def counted (env : Env) (s : State) (b x : Nat) : Bool :=
  decide (sizes_bucket (i32 (ITEM_ntotal env (s.mem x))) = (b : Int) ∧ (b : Int) < num_buckets)

/-- The walk of a well-formed list whose items have non-negative buckets
ends, and adds to each counter (modulo `2^32`) the number of items of the list
that fall into its bucket; items whose bucket is not below `num_buckets` are
counted nowhere. -/
theorem sizes_walk_counts (env : Env) (s : State) :
    ∀ (l : List Nat) (p fuel : Nat) (histogram : Nat → Nat),
    seg s.mem p l 0 → l.length < fuel →
    (∀ x ∈ l, 0 ≤ sizes_bucket (i32 (ITEM_ntotal env (s.mem x)))) →
    ∃ h1, sizes_walk env s fuel (l.headD 0) histogram = .ok h1 ∧
      ∀ b, h1 b % 4294967296 =
        (histogram b + (l.filter (counted env s b)).length) % 4294967296
  | [], p, fuel, histogram, _, hf, _ => by
    obtain ⟨f, rfl⟩ : ∃ f, fuel = f + 1 := ⟨fuel - 1, by simp at hf; omega⟩
    exact ⟨histogram, by simp [sizes_walk], fun b => by simp⟩
  | a :: xs, p, fuel, histogram, hs, hf, hpos => by
    obtain ⟨f, rfl⟩ : ∃ f, fuel = f + 1 := ⟨fuel - 1, by simp at hf; omega⟩
    obtain ⟨h0, _, hn, ht⟩ := hs
    have hpa := hpos a (List.mem_cons_self _ _)
    have hpx : ∀ x ∈ xs, 0 ≤ sizes_bucket (i32 (ITEM_ntotal env (s.mem x))) :=
      fun x hx => hpos x (List.mem_cons_of_mem _ hx)
    by_cases hb : sizes_bucket (i32 (ITEM_ntotal env (s.mem a))) < num_buckets
    · obtain ⟨h1, hrun, hcnt⟩ := sizes_walk_counts env s xs a f
        (fun b => if b = (sizes_bucket (i32 (ITEM_ntotal env (s.mem a)))).toNat
          then (histogram b + 1) % 4294967296 else histogram b) ht (by simpa using hf) hpx
      refine ⟨h1, ?_, ?_⟩
      · simp only [List.headD_cons, sizes_walk, if_neg h0, if_neg (not_lt.mpr hpa), if_pos hb, hn]
        exact hrun
      · intro b
        rw [hcnt b]
        by_cases hc : sizes_bucket (i32 (ITEM_ntotal env (s.mem a))) = (b : Int)
        · have e1 : b = (sizes_bucket (i32 (ITEM_ntotal env (s.mem a)))).toNat := by omega
          have e2 : counted env s b a = true := by
            simp only [counted, decide_eq_true_eq]
            exact ⟨hc, by rw [← hc]; exact hb⟩
          rw [if_pos e1, List.filter_cons_of_pos e2, List.length_cons]
          omega
        · have e1 : ¬ b = (sizes_bucket (i32 (ITEM_ntotal env (s.mem a)))).toNat := by omega
          have e2 : ¬ counted env s b a = true := by
            simp only [counted, decide_eq_true_eq]
            exact fun h => hc h.1
          rw [if_neg e1, List.filter_cons_of_neg e2]
    · obtain ⟨h1, hrun, hcnt⟩ := sizes_walk_counts env s xs a f histogram ht
        (by simpa using hf) hpx
      refine ⟨h1, ?_, ?_⟩
      · simp only [List.headD_cons, sizes_walk, if_neg h0, if_neg (not_lt.mpr hpa), if_neg hb, hn]
        exact hrun
      · intro b
        rw [hcnt b]
        have e2 : ¬ counted env s b a = true := by
          simp only [counted, decide_eq_true_eq]
          exact fun h => hb (by rw [h.1]; exact h.2)
        rw [List.filter_cons_of_neg e2]

/-! ## C1: reclamation is refcount-safe -/

/-- Lines 211-216 of `item_unlink`: the state in which line 217 tests the
refcount and, if it is 0, invokes `item_free`. -/
def item_unlink_before_free (env : Env) (s : State) (it : Nat) : Except Nat State :=
  if (s.mem it).it_flags.linked then
    let x := { s.mem it with it_flags := { (s.mem it).it_flags with linked := false } }
    item_unlink_q { s with
      mem := store s.mem it x
      curr_bytes := (s.curr_bytes + 2 ^ 64 - ITEM_ntotal env x) % 2 ^ 64
      curr_items := u32 ((s.curr_items : Int) - 1) } it
  else .ok s

/-- Lines 222-223 of `item_remove`: the state in which line 224 tests the
refcount and LINKED and, if both allow it, invokes `item_free`. -/
def item_remove_before_free (s : State) (it : Nat) : State :=
  { s with mem := store s.mem it (if (s.mem it).refcount ≠ 0 then
      { s.mem it with refcount := (s.mem it).refcount - 1 } else s.mem it) }

theorem item_unlink_split (env : Env) (s : State) (it : Nat) :
    item_unlink env s it =
      match item_unlink_before_free env s it with
      | .error e => .error e
      | .ok s1 => if (s1.mem it).refcount = 0 then item_free env s1 it else .ok s1 := rfl

theorem item_free_error (env : Env) (s : State) (it : Nat) (e : Nat)
    (h : item_free env s it = .error e) :
    (e = 129 ∧ (s.mem it).it_flags.linked = true) ∨ e = 130 ∨ e = 131 ∨
    (e = 132 ∧ (s.mem it).refcount ≠ 0) := by
  simp only [item_free, slabs_free] at h
  split at h
  · rename_i hl
    exact Or.inl ⟨(Except.error.inj h).symm, hl⟩
  split at h
  · exact Or.inr (Or.inl (Except.error.inj h).symm)
  split at h
  · exact Or.inr (Or.inr (Or.inl (Except.error.inj h).symm))
  split at h
  · rename_i hr
    exact Or.inr (Or.inr (Or.inr ⟨(Except.error.inj h).symm, hr⟩))
  · exact Except.noConfusion h

theorem item_unlink_q_error (s : State) (it : Nat) (e : Nat)
    (h : item_unlink_q s it = .error e) : e = 177 ∨ e = 181 ∨ e = 184 ∨ e = 185 := by
  simp only [item_unlink_q] at h
  split at h
  · exact Or.inl (Except.error.inj h).symm
  split at h
  · exact Or.inr (Or.inl (Except.error.inj h).symm)
  split at h
  · exact Or.inr (Or.inr (Or.inl (Except.error.inj h).symm))
  split at h
  · exact Or.inr (Or.inr (Or.inr (Except.error.inj h).symm))
  · exact Except.noConfusion h

theorem item_link_q_error (s : State) (it : Nat) (e : Nat)
    (h : item_link_q s it = .error e) : e = 155 ∨ e = 159 ∨ e = 160 := by
  simp only [item_link_q] at h
  split at h
  · exact Or.inl (Except.error.inj h).symm
  split at h
  · exact Or.inr (Or.inl (Except.error.inj h).symm)
  split at h
  · exact Or.inr (Or.inr (Except.error.inj h).symm)
  · exact Except.noConfusion h

/-- In the state in which `item_unlink` reaches line 217 the LINKED flag of the
item is clear. -/
theorem item_unlink_before_free_linked (env : Env) (s : State) (it : Nat) (s1 : State)
    (h : item_unlink_before_free env s it = .ok s1) :
    (s1.mem it).it_flags.linked = false := by
  simp only [item_unlink_before_free] at h
  split at h
  · have ht := (item_unlink_q_tags _ it s1 h it).1
    rw [ht]
    simp [store]
  · rename_i hl
    have := Except.ok.inj h
    subst this
    simpa using hl

theorem item_unlink_before_free_error (env : Env) (s : State) (it : Nat) (e : Nat)
    (h : item_unlink_before_free env s it = .error e) :
    e = 177 ∨ e = 181 ∨ e = 184 ∨ e = 185 := by
  simp only [item_unlink_before_free] at h
  split at h
  · exact item_unlink_q_error _ it e h
  · exact Except.noConfusion h

/-- No call of `item_unlink` fails the LINKED or the refcount assertion of
`item_free`, in any state. -/
theorem item_unlink_safe (env : Env) (s : State) (it : Nat) (e : Nat)
    (h : item_unlink env s it = .error e) : e ≠ 129 ∧ e ≠ 132 := by
  rw [item_unlink_split] at h
  cases hb : item_unlink_before_free env s it with
  | error e1 =>
    rw [hb] at h
    have := Except.error.inj h
    subst this
    have := item_unlink_before_free_error env s it _ hb
    omega
  | ok s1 =>
    rw [hb] at h
    simp only at h
    have hl := item_unlink_before_free_linked env s it s1 hb
    split at h
    · rename_i hr
      rcases item_free_error env s1 it e h with h1 | h1 | h1 | h1
      · rw [hl] at h1; exact absurd h1.2 Bool.noConfusion
      · omega
      · omega
      · exact absurd hr h1.2
    · exact Except.noConfusion h

theorem item_remove_split (env : Env) (s : State) (it : Nat)
    (h221 : (s.mem it).it_flags.slabbed = false)
    (h223 : ((item_remove_before_free s it).mem it).it_flags.deleted = false ∨
      ((item_remove_before_free s it).mem it).refcount ≠ 0) :
    item_remove env s it =
      if ((item_remove_before_free s it).mem it).refcount = 0 ∧
          ((item_remove_before_free s it).mem it).it_flags.linked = false then
        item_free env (item_remove_before_free s it) it
      else .ok (item_remove_before_free s it) := by
  simp only [item_remove_before_free, store, if_true] at h223 ⊢
  simp only [item_remove, h221, Bool.false_eq_true, if_false]
  rw [if_neg (not_not.mpr h223)]

/-- No call of `item_remove` fails the LINKED or the refcount assertion of
`item_free`, in any state. -/
theorem item_remove_safe (env : Env) (s : State) (it : Nat) (e : Nat)
    (h : item_remove env s it = .error e) : e ≠ 129 ∧ e ≠ 132 := by
  by_cases h221 : (s.mem it).it_flags.slabbed = true
  · simp only [item_remove, h221, if_true] at h
    have := Except.error.inj h
    omega
  · have h221 : (s.mem it).it_flags.slabbed = false := by simpa using h221
    by_cases h223 : ((item_remove_before_free s it).mem it).it_flags.deleted = false ∨
        ((item_remove_before_free s it).mem it).refcount ≠ 0
    · rw [item_remove_split env s it h221 h223] at h
      split at h
      · rename_i hg
        rcases item_free_error env _ it e h with h1 | h1 | h1 | h1
        · rw [hg.2] at h1; exact absurd h1.2 Bool.noConfusion
        · omega
        · omega
        · exact absurd hg.1 h1.2
      · exact Except.noConfusion h
    · simp only [item_remove_before_free, store, if_true] at h223
      simp only [item_remove, h221, Bool.false_eq_true, if_false] at h
      rw [if_pos h223] at h
      have := Except.error.inj h
      omega

theorem item_link_safe (env : Env) (s : State) (it : Nat) (e : Nat)
    (h : item_link env s it = .error e) : e ≠ 129 ∧ e ≠ 132 := by
  simp only [item_link] at h
  split at h
  · have := Except.error.inj h; omega
  split at h
  · have := Except.error.inj h; omega
  split at h
  · rename_i e1 hq
    have := Except.error.inj h
    subst this
    have := item_link_q_error _ it _ hq
    omega
  · exact Except.noConfusion h

theorem item_update_safe (s : State) (it : Nat) (e : Nat)
    (h : item_update s it = .error e) : e ≠ 129 ∧ e ≠ 132 := by
  simp only [item_update] at h
  split at h
  · split at h
    · have := Except.error.inj h; omega
    split at h
    · rename_i e1 hq
      have := Except.error.inj h
      subst this
      have := item_unlink_q_error _ it _ hq
      omega
    · have := item_link_q_error _ it _ h
      omega
  · exact Except.noConfusion h

theorem item_replace_safe (env : Env) (s : State) (it new_it : Nat) (e : Nat)
    (h : item_replace env s it new_it = .error e) : e ≠ 129 ∧ e ≠ 132 := by
  simp only [item_replace] at h
  split at h
  · have := Except.error.inj h; omega
  split at h
  · rename_i e1 hq
    have := Except.error.inj h
    subst this
    exact item_unlink_safe env s it _ hq
  · exact item_link_safe env _ new_it e h

theorem evict_scan_safe (env : Env) (s : State) : ∀ (tries search e : Nat),
    evict_scan env s tries search = .error e → e ≠ 129 ∧ e ≠ 132
  | 0, _, e, h => by simp [evict_scan] at h
  | tries + 1, search, e, h => by
    simp only [evict_scan] at h
    split at h
    · exact Except.noConfusion h
    split at h
    · exact item_unlink_safe env s search e h
    · exact evict_scan_safe env s tries _ e h

theorem slabs_alloc_error (s : State) (r e : Nat) (h : slabs_alloc s r = .error e) : e = 1 := by
  simp only [slabs_alloc] at h
  split at h
  · exact Except.noConfusion h
  split at h
  · exact (Except.error.inj h).symm
  · exact Except.noConfusion h

theorem item_alloc_fill_error (s : State) (it id : Nat) (key : List Char) (nkey : Nat)
    (exptime : Nat) (nbytes : Int) (suffix : List Char) (nsuffix : Nat) (e : Nat)
    (h : item_alloc_fill s it id key nkey exptime nbytes suffix nsuffix = .error e) :
    e = 109 ∨ e = 113 := by
  simp only [item_alloc_fill] at h
  split at h
  · exact Or.inl (Except.error.inj h).symm
  split at h
  · exact Or.inr (Except.error.inj h).symm
  · exact Except.noConfusion h

theorem item_alloc_safe (env : Env) (s : State) (key : List Char) (nkey : Nat) (flags : Int)
    (exptime : Nat) (nbytes : Int) (r1 r2 : Nat) (e : Nat)
    (h : item_alloc env s key nkey flags exptime nbytes r1 r2 = .error e) :
    e ≠ 129 ∧ e ≠ 132 := by
  simp only [item_alloc] at h
  split at h
  · exact Except.noConfusion h
  split at h
  · rename_i e1 h1
    have := Except.error.inj h
    subst this
    have := slabs_alloc_error _ _ _ h1
    omega
  split at h
  · split at h
    · exact Except.noConfusion h
    split at h
    · exact Except.noConfusion h
    split at h
    · exact Except.noConfusion h
    split at h
    · rename_i e1 h1
      have := Except.error.inj h
      subst this
      exact evict_scan_safe env _ _ _ _ h1
    split at h
    · rename_i e1 h1
      have := Except.error.inj h
      subst this
      have := slabs_alloc_error _ _ _ h1
      omega
    split at h
    · exact Except.noConfusion h
    · have := item_alloc_fill_error _ _ _ _ _ _ _ _ _ _ h
      omega
  · have := item_alloc_fill_error _ _ _ _ _ _ _ _ _ _ h
    omega

theorem flush_class_safe (env : Env) : ∀ (fuel : Nat) (s : State) (iter e : Nat),
    flush_class env fuel s iter = .error e → e ≠ 129 ∧ e ≠ 132
  | 0, s, iter, e, h => by
    simp only [flush_class] at h
    split at h
    · exact Except.noConfusion h
    · have := Except.error.inj h; omega
  | fuel + 1, s, iter, e, h => by
    simp only [flush_class] at h
    split at h
    · exact Except.noConfusion h
    split at h
    · split at h
      · split at h
        · rename_i e1 h1
          have := Except.error.inj h
          subst this
          exact item_unlink_safe env s iter _ h1
        · exact flush_class_safe env fuel _ _ e h
      · exact flush_class_safe env fuel _ _ e h
    · exact Except.noConfusion h

theorem flush_loop_safe (env : Env) (fuel : Nat) : ∀ (cs : List Nat) (s : State) (e : Nat),
    flush_loop env fuel cs s = .error e → e ≠ 129 ∧ e ≠ 132
  | [], s, e, h => by simp [flush_loop] at h
  | i :: cs, s, e, h => by
    simp only [flush_loop] at h
    split at h
    · rename_i e1 h1
      have := Except.error.inj h
      subst this
      exact flush_class_safe env fuel s _ _ h1
    · exact flush_loop_safe env fuel cs _ e h

theorem map_snd_error {α β : Type} (x : Except Nat (α × β)) (e : Nat)
    (h : x.map Prod.snd = .error e) : x = .error e := by
  cases x with
  | error e1 => simpa [Except.map] using h
  | ok v => simp [Except.map] at h

/-- No call fails the LINKED or the refcount assertion of `item_free`. -/
theorem run_safe (env : Env) (s : State) (op : Op) (e : Nat) (h : run env s op = .error e) :
    e ≠ 129 ∧ e ≠ 132 := by
  cases op with
  | alloc key nkey flags exptime nbytes r1 r2 =>
    exact item_alloc_safe env s key nkey flags exptime nbytes r1 r2 e (map_snd_error _ e h)
  | link it => exact item_link_safe env s it e (map_snd_error _ e h)
  | unlink it => exact item_unlink_safe env s it e h
  | remove it => exact item_remove_safe env s it e h
  | update it => exact item_update_safe s it e h
  | replace it new_it => exact item_replace_safe env s it new_it e (map_snd_error _ e h)
  | flush fuel =>
    simp only [run, item_flush_expired] at h
    split at h
    · exact Except.noConfusion h
    · exact flush_loop_safe env fuel _ s e h
  | tick t => exact Except.noConfusion h
  | hold it => exact Except.noConfusion h
  | set_oldest_live t => exact Except.noConfusion h
  | set_evict_to_free b => exact Except.noConfusion h

/-- C1: in every state (so in every state reachable from `item_init` by the
calls of `items.c`), `item_free` is only invoked on an item whose refcount is 0
and whose LINKED flag is clear.  No call ends in a failure of the assertion of
line 129 (LINKED clear) or of line 132 (refcount 0).  At the two call sites:
`item_unlink` reaches line 217 with LINKED clear and hands the item to
`item_free` exactly when its refcount is 0; `item_remove` hands it to `item_free`
exactly when, after the decrement, the refcount is 0 and LINKED is clear; the
eviction of `item_alloc`, `item_replace` and `item_flush_expired` free items
through `item_unlink` only.  The assertions do test this condition: `item_free`
fails line 129 exactly on a LINKED item and fails some assertion on every item
with a refcount other than 0. -/
theorem C1_reclamation_refcount_safe (env : Env) (s : State) :
    (∀ op, run env s op ≠ .error 129 ∧ run env s op ≠ .error 132) ∧
    (∀ it s1, item_unlink_before_free env s it = .ok s1 →
      (s1.mem it).it_flags.linked = false ∧
      ((s1.mem it).refcount = 0 → item_unlink env s it = item_free env s1 it) ∧
      ((s1.mem it).refcount ≠ 0 → item_unlink env s it = .ok s1)) ∧
    (∀ it e, item_unlink_before_free env s it = .error e →
      item_unlink env s it = .error e) ∧
    (∀ it, (s.mem it).it_flags.slabbed = false →
      (((item_remove_before_free s it).mem it).it_flags.deleted = false ∨
        ((item_remove_before_free s it).mem it).refcount ≠ 0) →
      ((((item_remove_before_free s it).mem it).refcount = 0 ∧
          ((item_remove_before_free s it).mem it).it_flags.linked = false) →
        item_remove env s it = item_free env (item_remove_before_free s it) it) ∧
      (¬ (((item_remove_before_free s it).mem it).refcount = 0 ∧
          ((item_remove_before_free s it).mem it).it_flags.linked = false) →
        item_remove env s it = .ok (item_remove_before_free s it))) ∧
    (∀ it, item_free env s it = .error 129 ↔ (s.mem it).it_flags.linked = true) ∧
    (∀ it, (s.mem it).refcount ≠ 0 → ∃ e, item_free env s it = .error e) := by
  refine ⟨fun op => ⟨fun h => (run_safe env s op _ h).1 rfl, fun h => (run_safe env s op _ h).2 rfl⟩,
    ?_, ?_, ?_, ?_, ?_⟩
  · intro it s1 hb
    refine ⟨item_unlink_before_free_linked env s it s1 hb, ?_, ?_⟩
    · intro hr
      rw [item_unlink_split, hb]
      simp only [if_pos hr]
    · intro hr
      rw [item_unlink_split, hb]
      simp only [if_neg hr]
  · intro it e hb
    rw [item_unlink_split, hb]
  · intro it h221 h223
    rw [item_remove_split env s it h221 h223]
    exact ⟨fun hg => by rw [if_pos hg], fun hg => by rw [if_neg hg]⟩
  · intro it
    constructor
    · intro h
      rcases item_free_error env s it _ h with h1 | h1 | h1 | h1
      · exact h1.2
      · omega
      · omega
      · omega
    · intro hl
      simp only [item_free, hl, if_true]
  · intro it hr
    simp only [item_free]
    split
    · exact ⟨_, rfl⟩
    split
    · exact ⟨_, rfl⟩
    split
    · exact ⟨_, rfl⟩
    · exact ⟨_, rfl⟩

/-- C1 at a concrete call: `item_unlink` of the linked, unheld item 1 of
`opsLinked` reaches line 217 with refcount 0 and LINKED clear, invokes
`item_free`, and the item is given back to the allocator. -/
theorem C1_witness :
    Reach env0 (Op.valid env0) (stateAfter env0 opsLinked) ∧
    ((stateAfter env0 opsLinked).mem 1).it_flags.linked = true ∧
    (run env0 (stateAfter env0 opsLinked) (.unlink 1) ≠ .error 129 ∧
      run env0 (stateAfter env0 opsLinked) (.unlink 1) ≠ .error 132) ∧
    ((run env0 (stateAfter env0 opsLinked) (.unlink 1)).toOption.map
      (fun s1 => (s1.slab_live 1, s1.slab_frees))) = some (false, [1]) :=
  ⟨reach_stateAfter _ _ _ (by decide), by decide,
    (C1_reclamation_refcount_safe env0 (stateAfter env0 opsLinked)).1 (.unlink 1), by decide⟩

/-! ## C16: the dump is bounded -/

theorem cachedump_entries_flatten (s : State) (started : Nat) (entry : Nat → List Char)
    (he : ∀ x, entry x = cachedump_entry started (s.mem x)) :
    ∀ l : List Nat, cachedump_entries s started l = (l.map entry).flatten
  | [] => rfl
  | x :: xs => by
    simp only [cachedump_entries, List.map_cons, List.flatten_cons, he x,
      cachedump_entries_flatten s started entry he xs]

/-- C16: for a class id below `LARGEST_ID` whose list is the well-formed
sequence `l`, and every `limit`, `item_cachedump` (given its buffer and enough
fuel for the walk) returns, for some prefix `l.take k` of the list, the text
made of one entry per item of the prefix in head-to-tail order, followed by
`END\r\n`.  The entry of an item is the line
`ITEM <key> [<nbytes - 2> b; <time + started> s]\r\n`, with the two numbers as
unsigned decimals (32 and 64 bits), so it has at least 18 characters.  `*bytes`
is the length of the text and, with the string terminator, does not exceed the
2 MiB buffer; `k ≤ limit` when `limit > 0`; and if an item of `l` follows the
prefix, then the limit was reached or its entry would exceed the budget (only
the latter when `limit = 0`).  Without a buffer the function returns `0`. -/
theorem C16_bounded_dump (s : State) (c limit started fuel : Nat) (l : List Nat)
    (hc : c < LARGEST_ID) (hl : listOk s c l) (hf : l.length < fuel) :
    item_cachedump fuel s c limit started false = .ok none ∧
    ∃ (entry : Nat → List Char) (k : Nat),
      (∀ x, entry x =
        ['I', 'T', 'E', 'M', ' '] ++ (s.mem x).key ++ [' ', '['] ++
          (Nat.repr (u32 ((s.mem x).nbytes - 2))).data ++ [' ', 'b', ';', ' '] ++
          (Nat.repr (((s.mem x).time + started) % 18446744073709551616)).data ++
          [' ', 's', ']', '\r', '\n']) ∧
      (∀ x, 18 ≤ (entry x).length) ∧
      k ≤ l.length ∧
      item_cachedump fuel s c limit started true =
        .ok (some (((l.take k).map entry).flatten ++ ['E', 'N', 'D', '\r', '\n'],
          ((l.take k).map entry).flatten.length + 5)) ∧
      ((l.take k).map entry).length = k ∧
      (((l.take k).map entry).flatten ++ ['E', 'N', 'D', '\r', '\n']).length =
        ((l.take k).map entry).flatten.length + 5 ∧
      ((l.take k).map entry).flatten.length + 5 + 1 ≤ 2097152 ∧
      (0 < limit → k ≤ limit) ∧
      (limit = 0 → ∀ x, l.get? k = some x →
        ((l.take k).map entry).flatten.length + (entry x).length + 6 > 2097152) ∧
      (∀ x, l.get? k = some x →
        (0 < limit ∧ k = limit) ∨
        ((l.take k).map entry).flatten.length + (entry x).length + 6 > 2097152) := by
  have hg : cachedump_guard c = false := by
    simp only [cachedump_guard, decide_eq_false_iff_not, not_lt]
    exact le_of_lt hc
  refine ⟨by simp [item_cachedump, hg], ?_⟩
  obtain ⟨hh, _, hseg, _⟩ := hl
  obtain ⟨k, hk, hrun, hfit, hcnt, hstop⟩ :=
    cachedump_loop_seg s limit started l 0 fuel [] 0 0 hseg hf rfl (by decide)
  have hcnt1 : 0 < limit → k ≤ limit := fun h => by
    have := hcnt h (Nat.zero_le _)
    omega
  have hfl := cachedump_entries_flatten s started
    (fun x => cachedump_entry started (s.mem x)) (fun _ => rfl)
  rw [hfl] at hrun hfit hstop
  have hm : memlimit = 2097152 := by decide
  rw [hm] at hfit hstop
  refine ⟨fun x => cachedump_entry started (s.mem x), k, fun x => rfl, ?_, hk, ?_, ?_, by simp,
    by omega, hcnt1, ?_, ?_⟩
  · intro x
    have h1 := repr_length_pos (u32 ((s.mem x).nbytes - 2))
    have h2 := repr_length_pos (((s.mem x).time + started) % 18446744073709551616)
    simp only [String.length] at h1 h2
    simp only [cachedump_entry, List.length_append, List.length_cons, List.length_nil]
    omega
  · simp only [item_cachedump, hg, hh, hrun]
    simp
  · simp only [List.length_map, List.length_take]
    omega
  · intro h0 x hx
    rcases hstop x hx with h | h
    · exact absurd h0 h.1
    · simpa using h
  · intro x hx
    rcases hstop x hx with h | h
    · left
      have h1 : 0 < limit := Nat.pos_of_ne_zero h.1
      have := hcnt1 h1
      exact ⟨h1, by omega⟩
    · right
      simpa using h

/-- C16 at a concrete state: the list 3, 2, 1 of `opsThree`, limit 2, server
started at time 1000: the entries of items 3 and 2, then `END`. -/
theorem C16_witness :
    1 < LARGEST_ID ∧ listOk (stateAfter env0 opsThree) 1 [3, 2, 1] ∧
    item_cachedump 4 (stateAfter env0 opsThree) 1 2 1000 true =
      .ok (some ("ITEM c [8 b; 1090 s]\r\nITEM b [8 b; 1050 s]\r\nEND\r\n".data, 49)) ∧
    item_cachedump 4 (stateAfter env0 opsThree) 1 2 1000 false = .ok none ∧
    ∃ (entry : Nat → List Char) (k : Nat),
      entry 3 = "ITEM c [8 b; 1090 s]\r\n".data ∧ k ≤ 2 ∧
      item_cachedump 4 (stateAfter env0 opsThree) 1 2 1000 true =
        .ok (some ((([3, 2, 1].take k).map entry).flatten ++ ['E', 'N', 'D', '\r', '\n'],
          (([3, 2, 1].take k).map entry).flatten.length + 5)) := by
  obtain ⟨h1, entry, k, he, _, _, hrun, _, _, _, hlim, _⟩ :=
    C16_bounded_dump (stateAfter env0 opsThree) 1 2 1000 4 [3, 2, 1]
      (by decide) (by decide) (by decide)
  refine ⟨by decide, by decide, cachedump_example, h1, entry, k, ?_, hlim (by decide), hrun⟩
  rw [he 3]
  rfl

end Memcached
